import Mathlib

/-!
# city-timezones-go: the query and access-control layer

A shallow embedding of `internal/city` (validation.go, search.go, cache.go,
limits.go, errors.go, types.go, loader.go) and the properties its specification states.

Modelling conventions.

* A Go `string` that holds well-formed UTF-8 text is the list of its code
  points (`GoString`). `len` is the number of bytes of its UTF-8 encoding.
  On such strings a byte-wise substring test and a code-point-wise one agree,
  because UTF-8 is self-synchronising.
* The functions of Go's `strings`, `unicode`, `utf8` and `fmt` packages that
  the code calls are embedded under their Go names, in namespaces named after
  their packages.
* The Unicode case tables of Go's `unicode` package are data that is not part
  of the repository. They are a parameter (`CaseTable`); the ASCII fast path of
  `unicode.ToLower` and `unicode.ToUpper` is code and is embedded as such.
* A Go slice is `GoSlice`: the nil slice and a non-nil slice are distinct values.
* A Go `map` is an association list with one entry per key (`GoMap`).
* `time.Time` and `time.Duration` are integers (nanoseconds); `time.Now()` is an
  argument of the operation that reads the clock.
* Go's `int` is 64 bits wide, as on the 64-bit platforms, and `time.Duration` is an
  `int64`. Their values are integers (`Int`); the additions, subtractions and negations
  that the code performs on them wrap around at 64 bits (`wrapInt64`, `negDuration`).
  Lengths of strings and slices are natural numbers, far from the bounds of the word.
* Package-level variables (the cache, the outcome of the one-time load) are
  passed in and returned explicitly.
* What `loadCityDataFromFile` finds in the file system is a parameter (`Source`); the
  searches take the outcome of the one-time load (`LoadOutcome`).
* The methods are embedded as sequential functions. Concurrent callers of
  `RateLimiter.Allow` are a transition system (`System`): each caller runs the
  statements of the method one at a time, in any interleaving, and `rl.mu.Lock()` goes
  through only while the lock is free.
-/

/-! ## Part 1: definitions -/

/-- A Go string holding well-formed UTF-8 text: the list of its code points. -/
abbrev GoString := List Char

/-- A Go slice: either the nil slice or a non-nil slice with its elements. -/
inductive GoSlice (α : Type) where
  | null : GoSlice α
  | items (xs : List α) : GoSlice α
  deriving DecidableEq, Repr

namespace GoSlice

/-- The elements of a slice, as ranged over by `for _, x := range s`. -/
def toList {α : Type} : GoSlice α → List α
  | null => []
  | items xs => xs

/-- Go's `s == nil`. -/
def isNil {α : Type} : GoSlice α → Bool
  | null => true
  | items _ => false

/-- Go's builtin `append(s, x)`: the result is never nil. -/
def append {α : Type} (s : GoSlice α) (x : α) : GoSlice α :=
  items (s.toList ++ [x])

/-- Go's builtin `len(s)` on a slice. -/
def len {α : Type} (s : GoSlice α) : Nat :=
  s.toList.length

end GoSlice

/-- A Go map: an association list holding at most one entry per key. -/
structure GoMap (κ ν : Type) where
  entries : List (κ × ν)
  deriving DecidableEq, Repr

namespace GoMap

/-- Go's `make(map[K]V)`. -/
def empty {κ ν : Type} : GoMap κ ν := ⟨[]⟩

/-- Lookup in an association list. -/
def lookupIn {κ ν : Type} [DecidableEq κ] (k : κ) : List (κ × ν) → Option ν
  | [] => none
  | (k', v) :: rest => if k' = k then some v else lookupIn k rest

/-- Go's `v, exists := m[k]`, with `none` for a missing key. -/
def lookup {κ ν : Type} [DecidableEq κ] (m : GoMap κ ν) (k : κ) : Option ν :=
  lookupIn k m.entries

/-- Replace the value of `k` in an association list, or add the entry at the end. -/
def storeIn {κ ν : Type} [DecidableEq κ] (k : κ) (v : ν) : List (κ × ν) → List (κ × ν)
  | [] => [(k, v)]
  | (k', v') :: rest => if k' = k then (k, v) :: rest else (k', v') :: storeIn k v rest

/-- Go's `m[k] = v`. -/
def store {κ ν : Type} [DecidableEq κ] (m : GoMap κ ν) (k : κ) (v : ν) : GoMap κ ν :=
  ⟨storeIn k v m.entries⟩

/-- Go's `len(m)`. -/
def len {κ ν : Type} (m : GoMap κ ν) : Nat :=
  m.entries.length

end GoMap

/-! ### Go's `utf8`, `unicode` and `strings` packages -/

namespace utf8

/-- Go's `utf8.RuneLen`: the number of bytes of the UTF-8 encoding of a code point. -/
def RuneLen (r : Char) : Nat :=
  if r.toNat < 0x80 then 1
  else if r.toNat < 0x800 then 2
  else if r.toNat < 0x10000 then 3
  else 4

/-- Go's `utf8.ValidString`. A `GoString` is a sequence of Unicode scalar values, so
its encoding is well formed: the test cannot fail on the strings of this embedding. -/
def ValidString (_s : GoString) : Bool := true

end utf8

/-- Go's builtin `len(s)` on a string: the number of bytes. -/
def len (s : GoString) : Nat :=
  (s.map utf8.RuneLen).sum

namespace unicode

/-- Go's `unicode.MaxASCII`. -/
def MaxASCII : Nat := 0x7F

/-- Go's `unicode.MaxLatin1`. -/
def MaxLatin1 : Nat := 0xFF

/-- Go's `unicode.IsSpace`: the Latin-1 switch, then the `White_Space` range table
outside Latin-1. -/
def IsSpace (r : Char) : Bool :=
  let n := r.toNat
  if n ≤ MaxLatin1 then
    n = 0x09 || n = 0x0A || n = 0x0B || n = 0x0C || n = 0x0D || n = 0x20
      || n = 0x85 || n = 0xA0
  else
    n = 0x1680 || (0x2000 ≤ n && n ≤ 0x200A) || n = 0x2028 || n = 0x2029
      || n = 0x202F || n = 0x205F || n = 0x3000

end unicode

/-- The case tables of Go's `unicode` package (`unicode.CaseRanges`), which are not part
of the repository: what `unicode.To(LowerCase, r)` and `unicode.To(UpperCase, r)` return
for a code point above ASCII. In Unicode white space carries no case mapping, and no
case mapping yields white space. -/
structure CaseTable where
  lower : Char → Char
  upper : Char → Char
  lower_space : ∀ c : Char, unicode.IsSpace c = true → lower c = c
  upper_space : ∀ c : Char, unicode.IsSpace c = true → upper c = c
  lower_nonspace : ∀ c : Char, unicode.IsSpace c = false → unicode.IsSpace (lower c) = false
  upper_nonspace : ∀ c : Char, unicode.IsSpace c = false → unicode.IsSpace (upper c) = false

/-- The table without any range: code points above ASCII have no case. -/
def CaseTable.caseless : CaseTable where
  lower := fun c => c
  upper := fun c => c
  lower_space := fun _ _ => rfl
  upper_space := fun _ _ => rfl
  lower_nonspace := fun _ h => h
  upper_nonspace := fun _ h => h

namespace unicode

/-- Go's `unicode.ToLower`: ASCII fast path, then the case table. -/
def ToLower (T : CaseTable) (r : Char) : Char :=
  if r.toNat ≤ MaxASCII then
    if 'A'.toNat ≤ r.toNat ∧ r.toNat ≤ 'Z'.toNat then
      Char.ofNat (r.toNat + ('a'.toNat - 'A'.toNat))
    else r
  else T.lower r

/-- Go's `unicode.ToUpper`: ASCII fast path, then the case table. -/
def ToUpper (T : CaseTable) (r : Char) : Char :=
  if r.toNat ≤ MaxASCII then
    if 'a'.toNat ≤ r.toNat ∧ r.toNat ≤ 'z'.toNat then
      Char.ofNat (r.toNat - ('a'.toNat - 'A'.toNat))
    else r
  else T.upper r

end unicode

namespace strings

/-- Go's `strings.ToLower`: every code point mapped through `unicode.ToLower`. -/
def ToLower (T : CaseTable) (s : GoString) : GoString :=
  s.map (unicode.ToLower T)

/-- Go's `strings.ToUpper`: every code point mapped through `unicode.ToUpper`. -/
def ToUpper (T : CaseTable) (s : GoString) : GoString :=
  s.map (unicode.ToUpper T)

/-- Go's `strings.TrimSpace`: leading and trailing white space removed. -/
def TrimSpace (s : GoString) : GoString :=
  List.rdropWhile unicode.IsSpace (List.dropWhile unicode.IsSpace s)

/-- The loop of `strings.Fields`: `cur` is the field being read, reversed. -/
def fieldsLoop : GoString → GoString → List GoString
  | [], cur => if cur = [] then [] else [cur.reverse]
  | c :: cs, cur =>
    if unicode.IsSpace c then
      if cur = [] then fieldsLoop cs [] else cur.reverse :: fieldsLoop cs []
    else fieldsLoop cs (c :: cur)

/-- Go's `strings.Fields`: the maximal runs of code points that are not white space. -/
def Fields (s : GoString) : List GoString :=
  fieldsLoop s []

/-- Go's `strings.HasPrefix`. -/
def HasPrefix : GoString → GoString → Bool
  | _, [] => true
  | [], _ :: _ => false
  | c :: cs, p :: ps => c = p && HasPrefix cs ps

/-- Go's `strings.Contains`: `substr` occurs at some position of `s`. -/
def Contains : GoString → GoString → Bool
  | [], substr => HasPrefix [] substr
  | c :: cs, substr => HasPrefix (c :: cs) substr || Contains cs substr

/-- Go's `strings.Join`. -/
def Join : List GoString → GoString → GoString
  | [], _ => []
  | [a], _ => a
  | a :: b :: rest, sep => a ++ sep ++ Join (b :: rest) sep

end strings

namespace strconv

/-- Go's `strconv.Itoa`, the `%d` verb of `fmt`. -/
def Itoa (i : Int) : GoString :=
  match i with
  | Int.ofNat n => (Nat.repr n).toList
  | Int.negSucc n => '-' :: (Nat.repr (n + 1)).toList

end strconv

/-! ### errors.go -/

namespace city

/-- The struct `ValidationError` of errors.go. `Value` is an `interface{}` in the source:
`none` is the nil interface, `some v` a value with its `%v` rendering `v`. -/
structure ValidationError where
  Field : GoString
  Message : GoString
  Value : Option GoString
  deriving DecidableEq, Repr

/-- Go's `error` values as this package produces them: the four error structs of
errors.go, the errors made by `fmt.Errorf` with a `%w` verb (`wrapError`, holding the
formatted message and the wrapped error) and plain message errors (`errorString`). -/
inductive GoError where
  | errorString (msg : GoString)
  | wrapError (msg : GoString) (err : GoError)
  | dataLoad (Operation : GoString) (Err : GoError)
  | search (Query Operation : GoString) (Err : GoError)
  | validation (e : ValidationError)
  | cache (Operation Key : GoString) (Err : GoError)
  deriving DecidableEq, Repr

/-- The method `ValidationError.Error`. -/
def ValidationError.Error (e : ValidationError) : GoString :=
  match e.Value with
  | some v =>
    "validation error for field '".toList ++ e.Field ++ "': ".toList ++ e.Message
      ++ " (value: ".toList ++ v ++ ")".toList
  | none => "validation error for field '".toList ++ e.Field ++ "': ".toList ++ e.Message

/-- The `Error` methods of errors.go, and of the errors of the `fmt` package. -/
def GoError.Error : GoError → GoString
  | .errorString msg => msg
  | .wrapError msg _ => msg
  | .dataLoad op err =>
    "failed to load city data during ".toList ++ op ++ ": ".toList ++ err.Error
  | .search q op err =>
    "search error for query '".toList ++ q ++ "' during ".toList ++ op ++ ": ".toList
      ++ err.Error
  | .validation e => e.Error
  | .cache op key err =>
    "cache error during ".toList ++ op ++ " for key '".toList ++ key ++ "': ".toList
      ++ err.Error

/-- The `Unwrap` methods: the wrapped error, `none` for an error that wraps nothing. -/
def GoError.Unwrap : GoError → Option GoError
  | .errorString _ => none
  | .wrapError _ err => some err
  | .dataLoad _ err => some err
  | .search _ _ err => some err
  | .validation _ => none
  | .cache _ _ err => some err

end city

namespace fmt

/-- Go's `fmt.Errorf(format, err)` for a format that is a text followed by `%w`. -/
def Errorf (text : GoString) (err : city.GoError) : city.GoError :=
  .wrapError (text ++ err.Error) err

end fmt

namespace city

/-! ### types.go -/

/-- The struct `CityData` of types.go. `Lat`, `Lng` and `Pop` are `float64` in the
source; no operation of this layer computes with them, and they are carried as
rationals. -/
structure CityData where
  Lat : Rat
  Lng : Rat
  Pop : Rat
  City : GoString
  ISO2 : GoString
  ISO3 : GoString
  Country : GoString
  Timezone : GoString
  Province : GoString
  ExactCity : GoString
  CityASCII : GoString
  StateANSI : GoString
  ExactProvince : GoString
  deriving DecidableEq, Repr

/-- The struct `SearchOptions` of types.go. -/
structure SearchOptions where
  CaseSensitive : Bool
  ExactMatch : Bool
  deriving DecidableEq, Repr

/-- The function `DefaultSearchOptions` of types.go. -/
def DefaultSearchOptions : SearchOptions :=
  { CaseSensitive := false, ExactMatch := false }

/-! ### validation.go -/

/-- The denylist of `containsSuspiciousPatterns`. -/
def suspicious : List GoString :=
  [ "../".toList, "..\\".toList, "..%2f".toList, "..%5c".toList,
    "<script".toList, "</script>".toList,
    "javascript:".toList, "data:".toList,
    "eval(".toList, "exec(".toList, "system(".toList ]

/-- The function `containsSuspiciousPatterns` of validation.go. -/
def containsSuspiciousPatterns (T : CaseTable) (input : GoString) : Bool :=
  let lowerInput := strings.ToLower T input
  suspicious.any (fun pattern => strings.Contains lowerInput pattern)

/-- The function `ValidateSearchInput` of validation.go: the normalized string and the
error (`none` for nil). -/
def ValidateSearchInput (T : CaseTable) (input : GoString) (maxLength : Int) :
    GoString × Option GoError :=
  if input = [] then ([], none)
  else if (len input : Int) > maxLength then
    ([], some (.validation
      { Field := "input".toList,
        Message := "input too long: ".toList ++ strconv.Itoa (len input)
          ++ " characters (max: ".toList ++ strconv.Itoa maxLength ++ ")".toList,
        Value := none }))
  else if !utf8.ValidString input then
    ([], some (.validation
      { Field := "input".toList,
        Message := "input contains invalid UTF-8 characters".toList,
        Value := none }))
  else
    let normalized := strings.TrimSpace input
    if containsSuspiciousPatterns T normalized then
      ([], some (.validation
        { Field := "input".toList,
          Message := "input contains potentially suspicious patterns".toList,
          Value := none }))
    else (normalized, none)

/-- The loop shared by `isValidISO2Code` and `isValidISO3Code`: every code point is
one of the letters `A` to `Z`. -/
def allUpperLetters (code : GoString) : Bool :=
  code.all (fun r => !(decide (r.toNat < 'A'.toNat) || decide (r.toNat > 'Z'.toNat)))

/-- The function `isValidISO2Code` of validation.go. -/
def isValidISO2Code (code : GoString) : Bool :=
  if len code ≠ 2 then false else allUpperLetters code

/-- The function `isValidISO3Code` of validation.go. -/
def isValidISO3Code (code : GoString) : Bool :=
  if len code ≠ 3 then false else allUpperLetters code

/-- The function `ValidateISOCode` of validation.go. -/
def ValidateISOCode (T : CaseTable) (isoCode : GoString) : GoString × Option GoError :=
  if isoCode = [] then ([], none)
  else
    let normalized := strings.TrimSpace (strings.ToUpper T isoCode)
    if len normalized = 2 then
      if !isValidISO2Code normalized then
        ([], some (.validation
          { Field := "isoCode".toList,
            Message := "invalid ISO2 country code format".toList,
            Value := none }))
      else (normalized, none)
    else if len normalized = 3 then
      if !isValidISO3Code normalized then
        ([], some (.validation
          { Field := "isoCode".toList,
            Message := "invalid ISO3 country code format".toList,
            Value := none }))
      else (normalized, none)
    else
      ([], some (.validation
        { Field := "isoCode".toList,
          Message := "ISO code must be 2 or 3 characters".toList,
          Value := none }))

/-! ### cache.go -/

/-- The struct `SearchCache` of cache.go (its lock apart). -/
structure SearchCache where
  cache : GoMap GoString (GoSlice CityData)
  deriving DecidableEq, Repr

/-- The function `NewSearchCache` of cache.go. -/
def NewSearchCache : SearchCache :=
  { cache := GoMap.empty }

/-- The method `SearchCache.Get`: the stored slice and whether the key exists; a missing
key gives the zero value, the nil slice. -/
def SearchCache.Get (c : SearchCache) (key : GoString) : GoSlice CityData × Bool :=
  match c.cache.lookup key with
  | some result => (result, true)
  | none => (.null, false)

/-- The method `SearchCache.Set`. -/
def SearchCache.Set (c : SearchCache) (key : GoString) (result : GoSlice CityData) :
    SearchCache :=
  { cache := c.cache.store key result }

/-- The method `SearchCache.Clear`. -/
def SearchCache.Clear (_c : SearchCache) : SearchCache :=
  { cache := GoMap.empty }

/-- The method `SearchCache.Size`. -/
def SearchCache.Size (c : SearchCache) : Nat :=
  c.cache.len

/-! ### loader.go -/

/-- The package variables `cityData` and `loadError` once `loadOnce` has run: what every
call of `LoadCityData` returns. -/
structure LoadOutcome where
  cityData : GoSlice CityData
  loadError : Option GoError
  deriving DecidableEq, Repr

/-- The outcome of a load that succeeded with the records `cities`. -/
def LoadOutcome.loaded (cities : List CityData) : LoadOutcome :=
  { cityData := .items cities, loadError := none }

/-- The function `LoadCityData` of loader.go, after the one-time load. -/
def LoadCityData (w : LoadOutcome) : GoSlice CityData × Option GoError :=
  (w.cityData, w.loadError)

/-! ### search.go -/

/-- The result of a search entry point: the slice and the error (`none` for nil). -/
abbrev SearchResult := GoSlice CityData × Option GoError

/-- The loop `for _, city := range cities { if match(city) { results = append(results,
city) } }` of the search functions, started from `results`. -/
def collect (p : CityData → Bool) : List CityData → GoSlice CityData → GoSlice CityData
  | [], results => results
  | city :: rest, results =>
    if p city then collect p rest (results.append city) else collect p rest results

/-- The function `LookupViaCity` of search.go: the result and the global cache after
the call. -/
def LookupViaCity (T : CaseTable) (w : LoadOutcome) (searchCache : SearchCache)
    (cityName : GoString) : SearchResult × SearchCache :=
  match ValidateSearchInput T cityName 100 with
  | (_, some err) => ((.null, some (fmt.Errorf "invalid input: ".toList err)), searchCache)
  | (validatedInput, none) =>
    if validatedInput = [] then ((.items [], none), searchCache)
    else
      let cacheKey := "city:".toList ++ strings.ToLower T validatedInput
      match searchCache.Get cacheKey with
      | (cached, true) => ((cached, none), searchCache)
      | (_, false) =>
        match LoadCityData w with
        | (_, some err) => ((.null, some err), searchCache)
        | (cities, none) =>
          let searchTerm := strings.ToLower T validatedInput
          let results := collect (fun city => strings.ToLower T city.City = searchTerm)
            cities.toList .null
          ((results, none), searchCache.Set cacheKey results)

/-- The function `findPartialMatch` of search.go. -/
def findPartialMatch (T : CaseTable) (city : CityData) (searchTerms : List GoString) :
    Bool :=
  let searchableFields := [city.City, city.StateANSI, city.Province, city.Country]
  let combinedText := strings.ToLower T (strings.Join searchableFields " ".toList)
  searchTerms.all (fun term => strings.Contains combinedText term)

/-- The function `FindFromCityStateProvince` of search.go. -/
def FindFromCityStateProvince (T : CaseTable) (w : LoadOutcome) (searchString : GoString) :
    SearchResult :=
  match ValidateSearchInput T searchString 200 with
  | (_, some err) => (.null, some (fmt.Errorf "invalid input: ".toList err))
  | (validatedInput, none) =>
    if validatedInput = [] then (.items [], none)
    else
      match LoadCityData w with
      | (_, some err) => (.null, some err)
      | (cities, none) =>
        let searchTerms := strings.Fields (strings.ToLower T validatedInput)
        (collect (fun city => findPartialMatch T city searchTerms) cities.toList .null, none)

/-- The function `FindFromIsoCode` of search.go. -/
def FindFromIsoCode (T : CaseTable) (w : LoadOutcome) (isoCode : GoString) : SearchResult :=
  match ValidateISOCode T isoCode with
  | (_, some err) => (.null, some (fmt.Errorf "invalid ISO code: ".toList err))
  | (validatedCode, none) =>
    if validatedCode = [] then (.items [], none)
    else
      match LoadCityData w with
      | (_, some err) => (.null, some err)
      | (cities, none) =>
        let searchCode := strings.ToLower T validatedCode
        (collect (fun city => strings.ToLower T city.ISO2 = searchCode
            || strings.ToLower T city.ISO3 = searchCode) cities.toList .null, none)

/-- The loop of `matchesCity` over the searchable fields. -/
def matchesField (T : CaseTable) (query : GoString) (options : SearchOptions)
    (field : GoString) : Bool :=
  let fieldValue := if !options.CaseSensitive then strings.ToLower T field else field
  if options.ExactMatch then fieldValue = query
  else strings.Contains fieldValue query

/-- The function `matchesCity` of search.go. -/
def matchesCity (T : CaseTable) (city : CityData) (query : GoString)
    (options : SearchOptions) : Bool :=
  let searchableFields :=
    [city.City, city.CityASCII, city.StateANSI, city.Province, city.Country, city.ISO2,
      city.ISO3]
  searchableFields.any (matchesField T query options)

/-- The function `SearchCities` of search.go. -/
def SearchCities (T : CaseTable) (w : LoadOutcome) (query : GoString)
    (options : SearchOptions) : SearchResult :=
  if query = [] then (.items [], none)
  else
    match LoadCityData w with
    | (_, some err) => (.null, some err)
    | (cities, none) =>
      let searchQuery := if !options.CaseSensitive then strings.ToLower T query else query
      (collect (fun city => matchesCity T city searchQuery options) cities.toList .null, none)

/-! ### limits.go -/

/-- Go's `time.Time`, as an instant in nanoseconds. -/
abbrev Time := Int

/-- Go's `time.Duration`, in nanoseconds. -/
abbrev Duration := Int

/-- The least value of a 64-bit signed integer, `math.MinInt64`. -/
def minInt64 : Int := -9223372036854775808

/-- The greatest value of a 64-bit signed integer, `math.MaxInt64`. -/
def maxInt64 : Int := 9223372036854775807

/-- The 64-bit signed integer that Go's arithmetic on `int` and `int64` yields when the
exact result is `i`: the value in `[-2^63, 2^63)` congruent to `i` modulo `2^64`. -/
def wrapInt64 (i : Int) : Int :=
  (i + 9223372036854775808) % 18446744073709551616 - 9223372036854775808

/-- Go's unary minus on a `time.Duration`: exact for every duration but the least one,
`-2^63`, whose negation wraps around to itself. On the values of an `int64` this is
`wrapInt64 (-d)`. -/
def negDuration (d : Duration) : Duration :=
  if d = minInt64 then minInt64 else -d

/-- The struct `RateLimiter` of limits.go (its lock apart). -/
structure RateLimiter where
  requests : GoMap GoString (GoSlice Time)
  limit : Int
  window : Duration
  deriving DecidableEq, Repr

/-- The function `NewRateLimiter` of limits.go. -/
def NewRateLimiter (limit : Int) (window : Duration) : RateLimiter :=
  { requests := GoMap.empty, limit := limit, window := window }

/-- The expression `rl.requests[key]`: the nil slice for a missing key. -/
def RateLimiter.stored (rl : RateLimiter) (key : GoString) : GoSlice Time :=
  match rl.requests.lookup key with
  | some requests => requests
  | none => .null

/-- The cleaning loop of `Allow`: the requests made after `cutoff`, appended to
`validRequests`. -/
def cleanOld (cutoff : Time) : List Time → GoSlice Time → GoSlice Time
  | [], validRequests => validRequests
  | req :: rest, validRequests =>
    if req > cutoff then cleanOld cutoff rest (validRequests.append req)
    else cleanOld cutoff rest validRequests

/-- The cleaning block of `Allow`, `if requests, exists := rl.requests[key]; exists`:
the entry of an existing key is replaced by its requests made after the cutoff. -/
def RateLimiter.cleaned (rl : RateLimiter) (now : Time) (key : GoString) : RateLimiter :=
  let cutoff := now + negDuration rl.window
  match rl.requests.lookup key with
  | some requests =>
    { rl with requests := rl.requests.store key (cleanOld cutoff requests.toList .null) }
  | none => rl

/-- The method `RateLimiter.Allow` of limits.go, with the value of `time.Now()` as an
argument: the answer and the limiter after the call. -/
def RateLimiter.Allow (rl : RateLimiter) (now : Time) (key : GoString) :
    Bool × RateLimiter :=
  let rl1 := rl.cleaned now key
  if ((rl1.stored key).len : Int) < rl1.limit then
    (true, { rl1 with requests := rl1.requests.store key ((rl1.stored key).append now) })
  else (false, rl1)

/-- A run of `Allow` calls for one key at the given instants: the answers in order
and the limiter after the last call. -/
def RateLimiter.allowAll (rl : RateLimiter) (key : GoString) :
    List Time → List Bool × RateLimiter
  | [] => ([], rl)
  | now :: rest =>
    let r := rl.Allow now key
    let rs := RateLimiter.allowAll r.2 key rest
    (r.1 :: rs.1, rs.2)

/-- A run of `Allow` calls, each with its key and the instant it is made at: the answers
in order and the limiter after the last call. -/
def RateLimiter.run (rl : RateLimiter) : List (GoString × Time) → List Bool × RateLimiter
  | [] => ([], rl)
  | call :: rest =>
    let r := rl.Allow call.2 call.1
    let rs := RateLimiter.run r.2 rest
    (r.1 :: rs.1, rs.2)

/-- The instants of the calls made for `key`, in order. -/
def callsFor (key : GoString) (calls : List (GoString × Time)) : List Time :=
  (calls.filter (fun call => decide (call.1 = key))).map (fun call => call.2)

/-- The answers given to the calls made for `key`, in order, out of the answers to all
the calls. -/
def answersFor (key : GoString) (calls : List (GoString × Time)) (answers : List Bool) :
    List Bool :=
  ((calls.zip answers).filter (fun p => decide (p.1.1 = key))).map (fun p => p.2)

/-- The instants of the calls made for `key` that `Allow` admitted, in order, out of the
calls and the answers given to them. -/
def admittedFor (key : GoString) (calls : List (GoString × Time)) (answers : List Bool) :
    List Time :=
  ((calls.zip answers).filter (fun p => p.2 && decide (p.1.1 = key))).map (fun p => p.1.2)

/-- The number of calls admitted for `key` at an instant of the interval
`(a, a + window]`. -/
def admittedWithin (key : GoString) (a : Time) (window : Duration)
    (calls : List (GoString × Time)) (answers : List Bool) : Nat :=
  (admittedFor key calls answers).countP (fun t => decide (a < t) && decide (t ≤ a + window))

/-! ### limits.go: concurrent callers of `Allow` -/

/-- The part of `Allow` that follows the cleaning block: the comparison of the count
with the limit, and the append of `now` when the request is admitted. -/
def RateLimiter.check (rl : RateLimiter) (now : Time) (key : GoString) :
    Bool × RateLimiter :=
  if ((rl.stored key).len : Int) < rl.limit then
    (true, { rl with requests := rl.requests.store key ((rl.stored key).append now) })
  else (false, rl)

/-- Where a caller of `rl.Allow(key)` stands in the body of the method: about to run
`rl.mu.Lock()` (`entering`); holding the lock, about to read `time.Now()` (`locked`);
about to run the cleaning block (`timed`); about to compare the count with the limit
(`cleaned`); with the return value set and the deferred `rl.mu.Unlock()` still to run
(`leaving`); back from the call (`returned`). -/
inductive Caller where
  | entering (key : GoString)
  | locked (key : GoString)
  | timed (key : GoString) (now : Time)
  | cleaned (key : GoString) (now : Time)
  | leaving (key : GoString) (now : Time) (answer : Bool)
  | returned (key : GoString) (now : Time) (answer : Bool)
  deriving DecidableEq, Repr

/-- Whether a caller is between `rl.mu.Lock()` and `rl.mu.Unlock()`. -/
def Caller.holdsLock : Caller → Bool
  | .locked _ => true
  | .timed _ _ => true
  | .cleaned _ _ => true
  | .leaving _ _ _ => true
  | _ => false

/-- The call of a caller whose answer is decided (its key and the instant it read), with
the answer. -/
def Caller.outcome : Caller → Option ((GoString × Time) × Bool)
  | .leaving key now answer => some ((key, now), answer)
  | .returned key now answer => some ((key, now), answer)
  | _ => none

/-- The instant a caller has read from the clock and not yet compared against. -/
def Caller.pendingTime : Caller → Option Time
  | .timed _ now => some now
  | .cleaned _ now => some now
  | _ => none

/-- One limiter shared by concurrent callers of `Allow`: the clock, whether `rl.mu` is
held, the fields of the limiter, and where each caller stands. -/
structure System where
  clock : Time
  mu : Bool
  rl : RateLimiter
  callers : List Caller
  deriving DecidableEq, Repr

/-- A fresh limiter with one caller about to call `Allow` for each of `keys`. -/
def System.start (limit : Int) (window : Duration) (clock : Time) (keys : List GoString) :
    System :=
  { clock := clock, mu := false, rl := NewRateLimiter limit window,
    callers := keys.map Caller.entering }

/-- Time passes: the clock does not go back. -/
def System.advance (s : System) (tick : Nat) : System :=
  { s with clock := s.clock + (tick : Int) }

/-- The caller number `i` runs its next statement. `rl.mu.Lock()` goes through only
while the lock is free, and otherwise the caller stays where it is; a caller that has
returned, or a number without a caller, changes nothing. -/
def System.act (s : System) (i : Nat) : System :=
  match s.callers[i]? with
  | none => s
  | some (.entering key) =>
    if s.mu then s
    else { s with mu := true, callers := s.callers.set i (.locked key) }
  | some (.locked key) => { s with callers := s.callers.set i (.timed key s.clock) }
  | some (.timed key now) =>
    { s with rl := s.rl.cleaned now key, callers := s.callers.set i (.cleaned key now) }
  | some (.cleaned key now) =>
    { s with rl := (s.rl.check now key).2,
             callers := s.callers.set i (.leaving key now (s.rl.check now key).1) }
  | some (.leaving key now answer) =>
    { s with mu := false, callers := s.callers.set i (.returned key now answer) }
  | some (.returned _ _ _) => s

/-- One step of a schedule: `tick` nanoseconds pass, then the caller number `i` runs its
next statement. -/
def System.step (s : System) (tick i : Nat) : System :=
  (s.advance tick).act i

/-- The system after a schedule, a sequence of steps in any order of the callers. -/
def System.run (s : System) : List (Nat × Nat) → System
  | [] => s
  | move :: rest => System.run (s.step move.1 move.2) rest

/-- The calls decided so far, each with its answer, in the order of the callers. -/
def System.outcomes (s : System) : List ((GoString × Time) × Bool) :=
  s.callers.filterMap Caller.outcome

/-- The number of calls admitted so far for `key` at an instant of the interval
`(a, a + window]`. -/
def System.admitted (s : System) (key : GoString) (a : Time) (window : Duration) : Nat :=
  admittedWithin key a window (s.outcomes.map (fun p => p.1)) (s.outcomes.map (fun p => p.2))

/-- The limiter that the system holds when the calls decided so far, run one after the
other, have left the limiter `serial`: `serial` itself, or `serial` after the cleaning
block of the caller that holds the lock and has run it. -/
def System.expected (serial : RateLimiter) : Option Caller → RateLimiter
  | some (.cleaned key now) => serial.cleaned now key
  | _ => serial

/-- The state `s` is what the calls of `log`, run one after the other in that order on a
fresh limiter, account for: `holder` is the number of the caller that holds the lock, if
one does; the answers of `log` are those of the run; the instants of `log` do not
decrease and are not later than the clock, nor than the instant that the holder has
read; the decided calls are those of `log`, in some order. -/
def System.serialized (s : System) (limit : Int) (window : Duration) (holder : Option Nat)
    (log : List ((GoString × Time) × Bool)) : Prop :=
  s.mu = holder.isSome ∧
  (∀ j c, s.callers[j]? = some c → (c.holdsLock = true ↔ holder = some j)) ∧
  ((NewRateLimiter limit window).run (log.map (fun p => p.1))).1 = log.map (fun p => p.2) ∧
  s.rl = System.expected ((NewRateLimiter limit window).run (log.map (fun p => p.1))).2
    (holder.bind (fun j => s.callers[j]?)) ∧
  List.Pairwise (fun a b => a ≤ b) (log.map (fun p => p.1.2)) ∧
  (∀ p ∈ log, p.1.2 ≤ s.clock) ∧
  (∀ c now, holder.bind (fun j => s.callers[j]?) = some c → c.pendingTime = some now →
    (∀ p ∈ log, p.1.2 ≤ now) ∧ now ≤ s.clock) ∧
  List.Perm s.outcomes log

/-- The struct `ResourceManager` of limits.go (its lock apart). The counters are Go
`int` values. -/
structure ResourceManager where
  maxMemoryMB : Int
  currentMB : Int
  activeSearch : Int
  maxSearches : Int
  deriving DecidableEq, Repr

/-- The function `NewResourceManager` of limits.go. -/
def NewResourceManager (maxMemoryMB maxSearches : Int) : ResourceManager :=
  { maxMemoryMB := maxMemoryMB, currentMB := 0, activeSearch := 0,
    maxSearches := maxSearches }

/-- The method `ResourceManager.CanAllocate` of limits.go: the answer and the manager
after the call. -/
def ResourceManager.CanAllocate (rm : ResourceManager) : Bool × ResourceManager :=
  (decide (rm.currentMB < rm.maxMemoryMB) && decide (rm.activeSearch < rm.maxSearches), rm)

/-- The method `ResourceManager.Allocate` of limits.go: the answer and the manager after
the call. -/
def ResourceManager.Allocate (rm : ResourceManager) (memoryMB : Int) :
    Bool × ResourceManager :=
  if decide (wrapInt64 (rm.currentMB + memoryMB) > rm.maxMemoryMB)
      || decide (rm.activeSearch ≥ rm.maxSearches) then
    (false, rm)
  else
    (true, { rm with currentMB := wrapInt64 (rm.currentMB + memoryMB),
                     activeSearch := wrapInt64 (rm.activeSearch + 1) })

/-- The method `ResourceManager.Release` of limits.go. -/
def ResourceManager.Release (rm : ResourceManager) (memoryMB : Int) : ResourceManager :=
  let rm1 : ResourceManager :=
    if rm.currentMB ≥ memoryMB then
      { rm with currentMB := wrapInt64 (rm.currentMB - memoryMB) }
    else rm
  if rm1.activeSearch > 0 then
    { rm1 with activeSearch := wrapInt64 (rm1.activeSearch - 1) }
  else rm1

/-- A call of `Allocate` or of `Release`, with its amount. -/
inductive ResourceCall where
  | allocate (memoryMB : Int)
  | release (memoryMB : Int)
  deriving DecidableEq, Repr

/-- The amount of a call. -/
def ResourceCall.amount : ResourceCall → Int
  | .allocate memoryMB => memoryMB
  | .release memoryMB => memoryMB

/-- The manager after one call. -/
def ResourceManager.call (rm : ResourceManager) : ResourceCall → ResourceManager
  | .allocate memoryMB => (rm.Allocate memoryMB).2
  | .release memoryMB => rm.Release memoryMB

/-- The manager after a history of calls. -/
def ResourceManager.calls (rm : ResourceManager) : List ResourceCall → ResourceManager
  | [] => rm
  | c :: rest => ResourceManager.calls (rm.call c) rest

/-- A history in which every `Release(m)` answers one earlier successful `Allocate(m)`
of the same non-negative amount and every successful `Allocate` is answered exactly
once: `pending` holds the amounts of the successful allocations not yet answered. -/
def ResourceManager.answered (rm : ResourceManager) (pending : List Int) :
    List ResourceCall → Bool
  | [] => pending.isEmpty
  | .allocate memoryMB :: rest =>
    if (rm.Allocate memoryMB).1 then
      decide (0 ≤ memoryMB)
        && ResourceManager.answered (rm.Allocate memoryMB).2 (memoryMB :: pending) rest
    else ResourceManager.answered rm pending rest
  | .release memoryMB :: rest =>
    decide (memoryMB ∈ pending)
      && ResourceManager.answered (rm.Release memoryMB) (pending.erase memoryMB) rest

/-- An operation on a `SearchCache`. -/
inductive CacheOp where
  | set (key : GoString) (result : GoSlice CityData)
  | get (key : GoString)
  | clear
  | size
  deriving DecidableEq, Repr

/-- The cache after one operation: `Get` and `Size` only read it. -/
def SearchCache.op (c : SearchCache) : CacheOp → SearchCache
  | .set key result => c.Set key result
  | .get _ => c
  | .clear => c.Clear
  | .size => c

/-- The cache after a sequence of operations. -/
def SearchCache.ops (c : SearchCache) : List CacheOp → SearchCache
  | [] => c
  | o :: rest => SearchCache.ops (c.op o) rest

/-- The value of the most recent `Set(key, v)` of a sequence of operations since its
last `Clear`, if there is one; `current` is the value before the sequence. -/
def lastSet (key : GoString) (current : Option (GoSlice CityData)) :
    List CacheOp → Option (GoSlice CityData)
  | [] => current
  | .set k result :: rest =>
    if k = key then lastSet key (some result) rest else lastSet key current rest
  | .get _ :: rest => lastSet key current rest
  | .clear :: rest => lastSet key none rest
  | .size :: rest => lastSet key current rest

/-- The distinct keys set by a sequence of operations since its last `Clear`, in the
order of their first `Set`; `current` holds the keys set before the sequence. -/
def keysSet (current : List GoString) : List CacheOp → List GoString
  | [] => current
  | .set k _ :: rest => keysSet (if k ∈ current then current else current ++ [k]) rest
  | .get _ :: rest => keysSet current rest
  | .clear :: rest => keysSet [] rest
  | .size :: rest => keysSet current rest

/-! ### loader.go: the one-time load -/

/-- What `loadCityDataFromFile` returns is decided by the file system at the moment it
runs, which is outside the program: `source n` is what its execution number `n` returns,
the records and the error (`none` for nil). -/
abbrev Source := Nat → GoSlice CityData × Option GoError

/-- The package variables `cityData`, `loadError` and `loadOnce` of loader.go: `done`
tells whether `loadOnce.Do` has run its function. `reads` is not in the source: it
counts the executions of `loadCityDataFromFile`. -/
structure Loader where
  cityData : GoSlice CityData
  loadError : Option GoError
  done : Bool
  reads : Nat
  deriving DecidableEq, Repr

/-- The package variables when the process starts. -/
def Loader.initial : Loader :=
  { cityData := .null, loadError := none, done := false, reads := 0 }

/-- One execution of `loadCityDataFromFile`: what it returns, and the loader with the
execution counted. -/
def Loader.loadCityDataFromFile (source : Source) (l : Loader) :
    (GoSlice CityData × Option GoError) × Loader :=
  (source l.reads, { l with reads := l.reads + 1 })

/-- The function `LoadCityData` of loader.go with its `loadOnce.Do`: the function passed
to `Do` runs on the first call only; every call returns the package variables. -/
def Loader.LoadCityData (source : Source) (l : Loader) :
    (GoSlice CityData × Option GoError) × Loader :=
  let l1 : Loader :=
    if l.done then l
    else
      let r := Loader.loadCityDataFromFile source l
      { r.2 with cityData := r.1.1, loadError := r.1.2, done := true }
  ((l1.cityData, l1.loadError), l1)

/-- The function `GetCityData` of loader.go. -/
def Loader.GetCityData (source : Source) (l : Loader) :
    (GoSlice CityData × Option GoError) × Loader :=
  Loader.LoadCityData source l

/-- A call of one of the two entry points of the loader. -/
inductive LoaderCall where
  | load
  | get
  deriving DecidableEq, Repr

/-- One call of the loader. -/
def Loader.call (source : Source) (l : Loader) :
    LoaderCall → (GoSlice CityData × Option GoError) × Loader
  | .load => Loader.LoadCityData source l
  | .get => Loader.GetCityData source l

/-- A sequence of calls of the loader: what each call returns, in order, and the loader
after the last call. -/
def Loader.calls (source : Source) (l : Loader) :
    List LoaderCall → List (GoSlice CityData × Option GoError) × Loader
  | [] => ([], l)
  | c :: rest =>
    let r := Loader.call source l c
    let rs := Loader.calls source r.2 rest
    (r.1 :: rs.1, rs.2)

/-! ### The global cache as the package uses it -/

/-- A call that writes the global cache `searchCache`: `LookupViaCity(cityName)`, the
only search that stores results, or `ClearCache()`. -/
inductive CacheUse where
  | lookup (cityName : GoString)
  | clear
  deriving DecidableEq, Repr

/-- The global cache after a sequence of calls of `LookupViaCity` and `ClearCache` over
one dataset. -/
def useCache (T : CaseTable) (w : LoadOutcome) (searchCache : SearchCache) :
    List CacheUse → SearchCache
  | [] => searchCache
  | .lookup cityName :: rest =>
    useCache T w (LookupViaCity T w searchCache cityName).2 rest
  | .clear :: rest => useCache T w searchCache.Clear rest

/-- What the cache holds when only `LookupViaCity` has written it over the dataset `w`:
under a key `"city:" + term`, the result of the scan for `term`, and nothing while the
dataset fails to load. -/
def cacheSound (T : CaseTable) (w : LoadOutcome) (searchCache : SearchCache) : Prop :=
  ∀ key stored, searchCache.cache.lookup key = some stored →
    w.loadError = none ∧ ∃ term : GoString, key = "city:".toList ++ term ∧
      stored = collect (fun city => decide (strings.ToLower T city.City = term))
        w.cityData.toList .null

/-! ### Readings of the specification that the searches are compared with -/

/-- The uncached linear scan for a city name, as the specification words the exact
lookup: the input is validated (bound 100), an empty normalized input gives the empty
result, and otherwise the dataset is scanned for the records whose lowercased city name
equals the lowercased normalized input. No cache is read or written. -/
def scanViaCity (T : CaseTable) (w : LoadOutcome) (cityName : GoString) : SearchResult :=
  match ValidateSearchInput T cityName 100 with
  | (_, some err) => (.null, some (fmt.Errorf "invalid input: ".toList err))
  | (validatedInput, none) =>
    if validatedInput = [] then (.items [], none)
    else
      match w.loadError with
      | some err => (.null, some err)
      | none =>
        (collect (fun city => strings.ToLower T city.City = strings.ToLower T validatedInput)
          w.cityData.toList .null, none)


/-- The per-field reading of the partial match, as the specification words it: every
search term occurs inside at least one of the four lowercased fields City, StateANSI,
Province, Country, each taken on its own. -/
def perFieldMatch (T : CaseTable) (city : CityData) (searchTerms : List GoString) : Bool :=
  searchTerms.all (fun term =>
    [city.City, city.StateANSI, city.Province, city.Country].any
      (fun field => strings.Contains (strings.ToLower T field) term))

end city

/-! ### Sample data -/

namespace city

/-- A record with the given city, state abbreviation, province, country and codes. -/
def sampleCity (name state province country iso2 iso3 : String) : CityData :=
  { Lat := 0, Lng := 0, Pop := 0, City := name.toList, ISO2 := iso2.toList,
    ISO3 := iso3.toList, Country := country.toList, Timezone := "UTC".toList,
    Province := province.toList, ExactCity := name.toList, CityASCII := name.toList,
    StateANSI := state.toList, ExactProvince := province.toList }

/-- A dataset of four records, two of which share the city name. -/
def sampleCities : List CityData :=
  [ sampleCity "Chicago" "IL" "Illinois" "United States of America" "US" "USA",
    sampleCity "Berlin" "" "Berlin" "Germany" "DE" "DEU",
    sampleCity "Springfield" "IL" "Illinois" "United States of America" "US" "USA",
    sampleCity "Springfield" "MO" "Missouri" "United States of America" "US" "USA" ]

end city

/-! ## Part 2: lemmas and theorems -/

namespace GoMap

theorem lookupIn_storeIn_same {κ ν : Type} [DecidableEq κ] (k : κ) (v : ν)
    (l : List (κ × ν)) : lookupIn k (storeIn k v l) = some v := by
  induction l with
  | nil => simp [storeIn, lookupIn]
  | cons e rest ih =>
    obtain ⟨k', v'⟩ := e
    by_cases h : k' = k
    · simp [storeIn, lookupIn, h]
    · simp [storeIn, lookupIn, h, ih]

theorem lookupIn_storeIn_other {κ ν : Type} [DecidableEq κ] (k k2 : κ) (v : ν)
    (l : List (κ × ν)) (hne : k2 ≠ k) :
    lookupIn k2 (storeIn k v l) = lookupIn k2 l := by
  induction l with
  | nil =>
    have h : ¬ k = k2 := fun e => hne e.symm
    simp [storeIn, lookupIn, h]
  | cons e rest ih =>
    obtain ⟨k', v'⟩ := e
    by_cases h : k' = k
    · have h2 : ¬ k = k2 := fun e => hne e.symm
      subst h
      simp [storeIn, lookupIn, h2]
    · by_cases h3 : k' = k2
      · subst h3
        simp [storeIn, lookupIn, hne]
      · simp [storeIn, lookupIn, h, h3, ih]

theorem lookup_store_same {κ ν : Type} [DecidableEq κ] (m : GoMap κ ν) (k : κ) (v : ν) :
    (m.store k v).lookup k = some v :=
  lookupIn_storeIn_same k v m.entries

theorem lookup_store_other {κ ν : Type} [DecidableEq κ] (m : GoMap κ ν) (k k2 : κ) (v : ν)
    (hne : k2 ≠ k) : (m.store k v).lookup k2 = m.lookup k2 :=
  lookupIn_storeIn_other k k2 v m.entries hne

end GoMap

namespace strings

theorem hasPrefix_iff (s p : GoString) : HasPrefix s p = true ↔ ∃ t, s = p ++ t := by
  induction p generalizing s with
  | nil => simp [HasPrefix]
  | cons a ps ih =>
    cases s with
    | nil => simp [HasPrefix]
    | cons c cs =>
      simp only [HasPrefix, Bool.and_eq_true, decide_eq_true_eq, ih, List.cons_append,
        List.cons.injEq]
      constructor
      · rintro ⟨h1, t, h2⟩
        exact ⟨t, h1, h2⟩
      · rintro ⟨t, h1, h2⟩
        exact ⟨h1, t, h2⟩

/-- The test `strings.Contains s substr` holds exactly when `substr` is a contiguous part
of `s`. -/
theorem contains_iff (s substr : GoString) : Contains s substr = true ↔ substr <:+: s := by
  induction s with
  | nil =>
    cases substr with
    | nil => simp [Contains, HasPrefix]
    | cons a t => simp [Contains, HasPrefix]
  | cons c cs ih =>
    simp only [Contains, Bool.or_eq_true, ih, hasPrefix_iff]
    constructor
    · rintro (⟨t, ht⟩ | ⟨a, b, hab⟩)
      · exact ⟨[], t, by simp [ht]⟩
      · exact ⟨c :: a, b, by simp [← hab]⟩
    · rintro ⟨a, b, hab⟩
      cases a with
      | nil => exact Or.inl ⟨b, by simpa using hab.symm⟩
      | cons a0 a' =>
        simp only [List.cons_append, List.cons.injEq, List.append_assoc] at hab
        exact Or.inr ⟨a', b, by simp [hab.2]⟩

end strings

namespace GoSlice

@[simp] theorem toList_null {α : Type} : (null : GoSlice α).toList = [] := rfl

@[simp] theorem toList_items {α : Type} (xs : List α) : (items xs).toList = xs := rfl

@[simp] theorem toList_append {α : Type} (s : GoSlice α) (x : α) :
    (s.append x).toList = s.toList ++ [x] := rfl

end GoSlice

namespace city

theorem containsSuspiciousPatterns_nil (T : CaseTable) :
    containsSuspiciousPatterns T [] = false := by
  simp [containsSuspiciousPatterns, suspicious, strings.ToLower, strings.Contains,
    strings.HasPrefix]

theorem collect_toList (p : CityData → Bool) (l : List CityData) (results : GoSlice CityData) :
    (collect p l results).toList = results.toList ++ l.filter p := by
  induction l generalizing results with
  | nil => simp [collect]
  | cons c rest ih =>
    by_cases h : p c = true
    · simp [collect, h, ih]
    · simp [collect, h, ih]

theorem collect_null_toList (p : CityData → Bool) (l : List CityData) :
    (collect p l .null).toList = l.filter p := by
  simp [collect_toList]

/-- What a successful `ValidateSearchInput` returns. -/
theorem validateSearchInput_ok (T : CaseTable) (input : GoString) (maxLength : Int)
    (r : GoString) (h : ValidateSearchInput T input maxLength = (r, none)) :
    r = strings.TrimSpace input ∧ containsSuspiciousPatterns T r = false ∧
      (input ≠ [] → (len input : Int) ≤ maxLength) := by
  unfold ValidateSearchInput at h
  by_cases h0 : input = []
  · subst h0
    simp at h
    subst h
    exact ⟨by simp [strings.TrimSpace, List.rdropWhile],
      containsSuspiciousPatterns_nil T, fun h => absurd rfl h⟩
  · simp only [h0, if_false] at h
    by_cases h1 : (len input : Int) > maxLength
    · simp [h1] at h
    · simp only [h1, if_false, utf8.ValidString] at h
      by_cases h2 : containsSuspiciousPatterns T (strings.TrimSpace input) = true
      · simp [h2] at h
      · simp [h2] at h
        subst h
        exact ⟨rfl, by simpa using h2, fun _ => by omega⟩

end city

/-! ### Case and white space -/

/-- Lower-casing neither makes nor removes white space. -/
theorem unicode.isSpace_toLower (T : CaseTable) (r : Char) :
    unicode.IsSpace (unicode.ToLower T r) = unicode.IsSpace r := by
  unfold unicode.ToLower
  by_cases hascii : r.toNat ≤ unicode.MaxASCII
  · simp only [hascii, if_true]
    by_cases hup : 'A'.toNat ≤ r.toNat ∧ r.toNat ≤ 'Z'.toNat
    · simp only [hup, and_self, if_true]
      have key : ∀ n : Nat, 65 ≤ n → n ≤ 90 →
          unicode.IsSpace (Char.ofNat (n + ('a'.toNat - 'A'.toNat)))
            = unicode.IsSpace (Char.ofNat n) := by
        intro n h1 h2
        interval_cases n <;> rfl
      have := key r.toNat hup.1 hup.2
      rwa [Char.ofNat_toNat] at this
    · simp only [hup, if_false]
  · simp only [hascii, if_false]
    cases hsp : unicode.IsSpace r with
    | true => rw [T.lower_space r hsp, hsp]
    | false => exact T.lower_nonspace r hsp

namespace strings

theorem fieldsLoop_toLower (T : CaseTable) (s : GoString) :
    ∀ cur : GoString, fieldsLoop (ToLower T s) (ToLower T cur)
      = (fieldsLoop s cur).map (ToLower T) := by
  induction s with
  | nil =>
    intro cur
    cases cur with
    | nil => simp [fieldsLoop, ToLower]
    | cons a t => simp [fieldsLoop, ToLower]
  | cons c cs ih =>
    intro cur
    have hc : ToLower T (c :: cs) = unicode.ToLower T c :: ToLower T cs := rfl
    rw [hc]
    unfold fieldsLoop
    rw [unicode.isSpace_toLower]
    cases hsp : unicode.IsSpace c with
    | true =>
      have hnil := ih []
      have hnil' : fieldsLoop (ToLower T cs) [] = (fieldsLoop cs []).map (ToLower T) := hnil
      cases cur with
      | nil => simpa [ToLower] using hnil'
      | cons a t => simp [ToLower, ← hnil']
    | false =>
      have := ih (c :: cur)
      simpa [ToLower] using this

/-- Splitting into fields and lower-casing commute. -/
theorem fields_toLower (T : CaseTable) (s : GoString) :
    Fields (ToLower T s) = (Fields s).map (ToLower T) :=
  fieldsLoop_toLower T s []

end strings

/-! ### Search: exact lookup, partial match, country code, generic matcher -/

namespace city

/-- C1. For every dataset that loaded without error and every query that
`ValidateSearchInput` accepts (bound 100) with a non-empty normalized form, when the cache
has no entry under `"city:" + lowercase(trim(q))`, `LookupViaCity` returns no error and
exactly the records whose lowercased city name equals `lowercase(trim(q))`, in dataset
order. -/
theorem C1_lookupViaCity_miss (T : CaseTable) (w : LoadOutcome) (hload : w.loadError = none)
    (searchCache : SearchCache) (q : GoString)
    (hvalid : (ValidateSearchInput T q 100).2 = none)
    (hnonempty : (ValidateSearchInput T q 100).1 ≠ [])
    (hmiss : searchCache.cache.lookup
      ("city:".toList ++ strings.ToLower T (strings.TrimSpace q)) = none) :
    (LookupViaCity T w searchCache q).1.2 = none ∧
    (LookupViaCity T w searchCache q).1.1.toList =
      w.cityData.toList.filter (fun c =>
        decide (strings.ToLower T c.City = strings.ToLower T (strings.TrimSpace q))) := by
  obtain ⟨v, e, hv⟩ : ∃ v e, ValidateSearchInput T q 100 = (v, e) := ⟨_, _, rfl⟩
  rw [hv] at hvalid hnonempty
  simp only at hvalid hnonempty
  subst hvalid
  have htrim := (validateSearchInput_ok T q 100 v hv).1
  subst htrim
  have hget : searchCache.Get
      ("city:".toList ++ strings.ToLower T (strings.TrimSpace q)) = (.null, false) := by
    unfold SearchCache.Get
    rw [hmiss]
  simp only [LookupViaCity, hv, hnonempty, if_false, hget, LoadCityData,
    hload, collect_null_toList, GoSlice.toList_items]
  exact ⟨trivial, trivial⟩

/-- C1, at the query `" chicago "` on the sample dataset with an empty cache. -/
theorem C1_lookupViaCity_miss_witness :
    (LookupViaCity CaseTable.caseless (.loaded sampleCities) NewSearchCache
        " chicago ".toList).1.2 = none ∧
    (LookupViaCity CaseTable.caseless (.loaded sampleCities) NewSearchCache
        " chicago ".toList).1.1.toList =
      sampleCities.filter (fun c =>
        decide (strings.ToLower CaseTable.caseless c.City
          = strings.ToLower CaseTable.caseless (strings.TrimSpace " chicago ".toList))) :=
  C1_lookupViaCity_miss CaseTable.caseless (.loaded sampleCities) rfl NewSearchCache
    " chicago ".toList (by decide) (by decide) (by decide)

/-- The text that `findPartialMatch` searches: the four fields joined by single spaces,
lowercased. -/
theorem findPartialMatch_iff (T : CaseTable) (c : CityData) (terms : List GoString) :
    findPartialMatch T c terms = true ↔
      ∀ term ∈ terms, term <:+: strings.ToLower T
        (c.City ++ " ".toList ++ c.StateANSI ++ " ".toList ++ c.Province ++ " ".toList
          ++ c.Country) := by
  simp [findPartialMatch, strings.Join, strings.contains_iff, List.all_eq_true]

/-- C2. For every dataset that loaded without error and every query that
`ValidateSearchInput` accepts (bound 200) with a non-empty normalized form,
`FindFromCityStateProvince` returns no error and exactly the records, in dataset order,
for which every white-space-separated term of the lowercased trimmed query is a
substring of
`lowercase(City + " " + StateANSI + " " + Province + " " + Country)`; a record lacking
one of the terms is not returned; the terms are the same whether the query is lowercased
before or after it is split. -/
theorem C2_findFromCityStateProvince (T : CaseTable) (w : LoadOutcome)
    (hload : w.loadError = none) (q : GoString)
    (hvalid : (ValidateSearchInput T q 200).2 = none)
    (hnonempty : (ValidateSearchInput T q 200).1 ≠ []) :
    (FindFromCityStateProvince T w q).2 = none ∧
    (FindFromCityStateProvince T w q).1.toList =
      w.cityData.toList.filter (fun c =>
        decide (∀ term ∈ strings.Fields (strings.ToLower T (strings.TrimSpace q)),
          term <:+: strings.ToLower T
            (c.City ++ " ".toList ++ c.StateANSI ++ " ".toList ++ c.Province
              ++ " ".toList ++ c.Country))) ∧
    (∀ c term, term ∈ strings.Fields (strings.ToLower T (strings.TrimSpace q)) →
      ¬ term <:+: strings.ToLower T
            (c.City ++ " ".toList ++ c.StateANSI ++ " ".toList ++ c.Province
              ++ " ".toList ++ c.Country) →
      c ∉ (FindFromCityStateProvince T w q).1.toList) ∧
    strings.Fields (strings.ToLower T (strings.TrimSpace q))
      = (strings.Fields (strings.TrimSpace q)).map (strings.ToLower T) := by
  obtain ⟨v, e, hv⟩ : ∃ v e, ValidateSearchInput T q 200 = (v, e) := ⟨_, _, rfl⟩
  rw [hv] at hvalid hnonempty
  simp only at hvalid hnonempty
  subst hvalid
  have htrim := (validateSearchInput_ok T q 200 v hv).1
  subst htrim
  have hres : (FindFromCityStateProvince T w q).1.toList =
      w.cityData.toList.filter (fun c =>
        decide (∀ term ∈ strings.Fields (strings.ToLower T (strings.TrimSpace q)),
          term <:+: strings.ToLower T
            (c.City ++ " ".toList ++ c.StateANSI ++ " ".toList ++ c.Province
              ++ " ".toList ++ c.Country))) := by
    simp only [FindFromCityStateProvince, hv, hnonempty, LoadCityData, hload,
      if_false, collect_null_toList, GoSlice.toList_items]
    apply List.filter_congr
    intro c _
    rw [Bool.eq_iff_iff, findPartialMatch_iff]
    simp
  refine ⟨?_, hres, ?_, strings.fields_toLower T _⟩
  · simp [FindFromCityStateProvince, hv, hnonempty, LoadCityData, hload]
  · intro c term hterm hnot hmem
    rw [hres, List.mem_filter] at hmem
    exact hnot (of_decide_eq_true hmem.2 term hterm)

/-- C2, at the query `"spring mo"` on the sample dataset. -/
theorem C2_findFromCityStateProvince_witness :
    (FindFromCityStateProvince CaseTable.caseless (.loaded sampleCities)
        "spring mo".toList).2 = none ∧
    (FindFromCityStateProvince CaseTable.caseless (.loaded sampleCities)
        "spring mo".toList).1.toList =
      sampleCities.filter (fun c =>
        decide (∀ term ∈ strings.Fields
            (strings.ToLower CaseTable.caseless (strings.TrimSpace "spring mo".toList)),
          term <:+: strings.ToLower CaseTable.caseless
            (c.City ++ " ".toList ++ c.StateANSI ++ " ".toList ++ c.Province
              ++ " ".toList ++ c.Country))) ∧
    (∀ c term, term ∈ strings.Fields
        (strings.ToLower CaseTable.caseless (strings.TrimSpace "spring mo".toList)) →
      ¬ term <:+: strings.ToLower CaseTable.caseless
            (c.City ++ " ".toList ++ c.StateANSI ++ " ".toList ++ c.Province
              ++ " ".toList ++ c.Country) →
      c ∉ (FindFromCityStateProvince CaseTable.caseless (.loaded sampleCities)
        "spring mo".toList).1.toList) ∧
    strings.Fields (strings.ToLower CaseTable.caseless (strings.TrimSpace "spring mo".toList))
      = (strings.Fields (strings.TrimSpace "spring mo".toList)).map
          (strings.ToLower CaseTable.caseless) :=
  C2_findFromCityStateProvince CaseTable.caseless (.loaded sampleCities) rfl
    "spring mo".toList
    (by decide) (by decide)

end city

/-! ### Country codes -/

/-- The letters `A` to `Z`: fixed by upper-casing, restored by upper-casing their
lower-case form, not white space, one byte long. -/
theorem upper_letter_facts (T : CaseTable) (r : Char)
    (h : 'A'.toNat ≤ r.toNat ∧ r.toNat ≤ 'Z'.toNat) :
    unicode.ToUpper T (unicode.ToLower T r) = r ∧ unicode.ToUpper T r = r ∧
      unicode.IsSpace r = false ∧ utf8.RuneLen r = 1 := by
  have key : ∀ n : Nat, 65 ≤ n → n ≤ 90 →
      unicode.ToUpper T (unicode.ToLower T (Char.ofNat n)) = Char.ofNat n ∧
      unicode.ToUpper T (Char.ofNat n) = Char.ofNat n ∧
      unicode.IsSpace (Char.ofNat n) = false ∧ utf8.RuneLen (Char.ofNat n) = 1 := by
    intro n h1 h2
    interval_cases n <;> exact ⟨rfl, rfl, rfl, rfl⟩
  have hr : Char.ofNat r.toNat = r := Char.ofNat_toNat r
  have := key r.toNat h.1 h.2
  rwa [hr] at this

namespace strings

theorem dropWhile_of_no_space (s : GoString)
    (h : ∀ c ∈ s, unicode.IsSpace c = false) : List.dropWhile unicode.IsSpace s = s := by
  cases s with
  | nil => rfl
  | cons a t => simp [List.dropWhile, h a (List.mem_cons_self a t)]

/-- A string without white space is its own trimmed form. -/
theorem trimSpace_of_no_space (s : GoString)
    (h : ∀ c ∈ s, unicode.IsSpace c = false) : TrimSpace s = s := by
  unfold TrimSpace
  rw [dropWhile_of_no_space s h]
  unfold List.rdropWhile
  rw [dropWhile_of_no_space s.reverse (fun c hc => h c (List.mem_reverse.mp hc))]
  exact List.reverse_reverse s

end strings

namespace city

theorem allUpperLetters_iff (code : GoString) :
    allUpperLetters code = true ↔
      ∀ r ∈ code, 'A'.toNat ≤ r.toNat ∧ r.toNat ≤ 'Z'.toNat := by
  unfold allUpperLetters
  rw [List.all_eq_true]
  constructor
  · intro h r hr
    have := h r hr
    simp only [Bool.not_eq_true', Bool.or_eq_false_iff, decide_eq_false_iff_not] at this
    omega
  · intro h r hr
    have := h r hr
    simp only [Bool.not_eq_true', Bool.or_eq_false_iff, decide_eq_false_iff_not]
    omega

/-- A string of the letters `A` to `Z` has as many bytes as code points. -/
theorem len_of_upper_letters (code : GoString) (h : allUpperLetters code = true) :
    len code = code.length := by
  rw [allUpperLetters_iff] at h
  induction code with
  | nil => rfl
  | cons a t ih =>
    have ha := (upper_letter_facts CaseTable.caseless a (h a (List.mem_cons_self a t))).2.2.2
    have := ih (fun r hr => h r (List.mem_cons_of_mem a hr))
    simp only [len, List.map_cons, List.sum_cons, List.length_cons] at this ⊢
    omega

/-- What `ValidateISOCode` does on a non-empty input, in one expression. -/
theorem validateISOCode_eq (T : CaseTable) (isoCode : GoString) (h : isoCode ≠ []) :
    ValidateISOCode T isoCode =
      if (len (strings.TrimSpace (strings.ToUpper T isoCode)) = 2 ∨
          len (strings.TrimSpace (strings.ToUpper T isoCode)) = 3) then
        if allUpperLetters (strings.TrimSpace (strings.ToUpper T isoCode)) then
          (strings.TrimSpace (strings.ToUpper T isoCode), none)
        else if len (strings.TrimSpace (strings.ToUpper T isoCode)) = 2 then
          ([], some (.validation
            { Field := "isoCode".toList,
              Message := "invalid ISO2 country code format".toList,
              Value := none }))
        else
          ([], some (.validation
            { Field := "isoCode".toList,
              Message := "invalid ISO3 country code format".toList,
              Value := none }))
      else
        ([], some (.validation
          { Field := "isoCode".toList,
            Message := "ISO code must be 2 or 3 characters".toList,
            Value := none })) := by
  unfold ValidateISOCode
  simp only [h, if_false]
  by_cases h2 : len (strings.TrimSpace (strings.ToUpper T isoCode)) = 2
  · by_cases ha : allUpperLetters (strings.TrimSpace (strings.ToUpper T isoCode)) = true
    · simp [h2, ha, isValidISO2Code]
    · simp [h2, ha, isValidISO2Code]
  · by_cases h3 : len (strings.TrimSpace (strings.ToUpper T isoCode)) = 3
    · by_cases ha : allUpperLetters (strings.TrimSpace (strings.ToUpper T isoCode)) = true
      · simp [h3, ha, isValidISO3Code]
      · simp [h3, ha, isValidISO3Code]
    · simp [h2, h3]

/-- What a successful `ValidateISOCode` with a non-empty code returns. -/
theorem validateISOCode_ok (T : CaseTable) (isoCode c : GoString)
    (h : ValidateISOCode T isoCode = (c, none)) (hc : c ≠ []) :
    isoCode ≠ [] ∧ c = strings.TrimSpace (strings.ToUpper T isoCode) ∧
      (len c = 2 ∨ len c = 3) ∧ allUpperLetters c = true := by
  have h0 : isoCode ≠ [] := by
    intro h0
    subst h0
    simp [ValidateISOCode] at h
    exact hc h
  rw [validateISOCode_eq T isoCode h0] at h
  by_cases hl : (len (strings.TrimSpace (strings.ToUpper T isoCode)) = 2 ∨
      len (strings.TrimSpace (strings.ToUpper T isoCode)) = 3)
  · by_cases ha : allUpperLetters (strings.TrimSpace (strings.ToUpper T isoCode)) = true
    · simp only [hl, ha, if_true] at h
      have hceq : strings.TrimSpace (strings.ToUpper T isoCode) = c := (Prod.mk.inj h).1
      subst hceq
      exact ⟨h0, rfl, hl, ha⟩
    · have ha' : allUpperLetters (strings.TrimSpace (strings.ToUpper T isoCode)) = false := by
        simpa using ha
      rw [if_pos hl, ha'] at h
      simp only [Bool.false_eq_true, if_false] at h
      split at h <;> simp at h
  · simp [hl] at h

/-- A code of two or three letters `A` to `Z` validates to itself, and so does its
lower-case spelling. -/
theorem validateISOCode_of_code (T : CaseTable) (c : GoString)
    (hl : len c = 2 ∨ len c = 3) (ha : allUpperLetters c = true) :
    ValidateISOCode T c = (c, none) ∧ ValidateISOCode T (strings.ToLower T c) = (c, none) := by
  have hfacts := (allUpperLetters_iff c).mp ha
  have hup : strings.ToUpper T c = c := by
    unfold strings.ToUpper
    conv_rhs => rw [← List.map_id c]
    exact List.map_congr_left (fun r hr => (upper_letter_facts T r (hfacts r hr)).2.1)
  have hupl : strings.ToUpper T (strings.ToLower T c) = c := by
    unfold strings.ToUpper strings.ToLower
    rw [List.map_map]
    conv_rhs => rw [← List.map_id c]
    exact List.map_congr_left (fun r hr => (upper_letter_facts T r (hfacts r hr)).1)
  have htrim : strings.TrimSpace c = c :=
    strings.trimSpace_of_no_space c (fun r hr => (upper_letter_facts T r (hfacts r hr)).2.2.1)
  have hne : c ≠ [] := by
    intro h0
    subst h0
    simp [len] at hl
  have hne2 : strings.ToLower T c ≠ [] := by
    simpa [strings.ToLower] using hne
  constructor
  · rw [validateISOCode_eq T c hne, hup, htrim]
    simp [hl, ha]
  · rw [validateISOCode_eq T _ hne2, hupl, htrim]
    simp [hl, ha]

/-- Inputs with the same upper-case form validate alike. -/
theorem validateISOCode_congr (T : CaseTable) (a b : GoString)
    (h : strings.ToUpper T a = strings.ToUpper T b) :
    ValidateISOCode T a = ValidateISOCode T b := by
  have hlen : a.length = b.length := by
    have := congrArg List.length h
    simpa [strings.ToUpper] using this
  by_cases ha : a = []
  · subst ha
    have hb : b = [] := List.length_eq_zero.mp (by simpa using hlen.symm)
    rw [hb]
  · have hb : b ≠ [] := by
      intro hb
      subst hb
      exact ha (List.length_eq_zero.mp (by simpa using hlen))
    rw [validateISOCode_eq T a ha, validateISOCode_eq T b hb, h]

theorem findFromIsoCode_congr (T : CaseTable) (w : LoadOutcome) (a b : GoString)
    (h : ValidateISOCode T a = ValidateISOCode T b) :
    FindFromIsoCode T w a = FindFromIsoCode T w b := by
  unfold FindFromIsoCode
  rw [h]

/-- C3. For every dataset that loaded without error and every code that
`ValidateISOCode` accepts with a non-empty code `c`, `FindFromIsoCode` returns no error
and exactly the records, in dataset order, whose ISO2 or ISO3 field equals `c` ignoring
letter case; any spelling of
the input that differs in letter case only, the validated code itself and its lower-case
spelling return the same records. -/
theorem C3_findFromIsoCode (T : CaseTable) (w : LoadOutcome)
    (hload : w.loadError = none) (isoCode : GoString)
    (hvalid : (ValidateISOCode T isoCode).2 = none)
    (hnonempty : (ValidateISOCode T isoCode).1 ≠ []) :
    (FindFromIsoCode T w isoCode).2 = none ∧
    (FindFromIsoCode T w isoCode).1.toList =
      w.cityData.toList.filter (fun r =>
        decide (strings.ToLower T r.ISO2 = strings.ToLower T (ValidateISOCode T isoCode).1 ∨
          strings.ToLower T r.ISO3 = strings.ToLower T (ValidateISOCode T isoCode).1)) ∧
    (∀ spelling : GoString, strings.ToUpper T spelling = strings.ToUpper T isoCode →
      FindFromIsoCode T w spelling
        = FindFromIsoCode T w isoCode) ∧
    FindFromIsoCode T w (ValidateISOCode T isoCode).1
      = FindFromIsoCode T w isoCode ∧
    FindFromIsoCode T w (strings.ToLower T (ValidateISOCode T isoCode).1)
      = FindFromIsoCode T w isoCode := by
  obtain ⟨c, e, hv⟩ : ∃ c e, ValidateISOCode T isoCode = (c, e) := ⟨_, _, rfl⟩
  rw [hv] at hvalid hnonempty
  simp only at hvalid hnonempty
  subst hvalid
  obtain ⟨_, _, hl, ha⟩ := validateISOCode_ok T isoCode c hv hnonempty
  obtain ⟨hself, hlower⟩ := validateISOCode_of_code T c hl ha
  refine ⟨?_, ?_, ?_, ?_, ?_⟩
  · simp [FindFromIsoCode, hv, hnonempty, LoadCityData, hload]
  · simp only [FindFromIsoCode, hv, hnonempty, LoadCityData, hload, if_false,
      collect_null_toList, GoSlice.toList_items]
    apply List.filter_congr
    intro r _
    rw [Bool.eq_iff_iff]
    simp
  · intro spelling hs
    exact findFromIsoCode_congr T _ _ _ (validateISOCode_congr T _ _ hs)
  · rw [hv]
    exact findFromIsoCode_congr T _ _ _ (hself.trans hv.symm)
  · rw [hv]
    exact findFromIsoCode_congr T _ _ _ (hlower.trans hv.symm)

/-- C3, at the input `" deu "` on the sample dataset. -/
theorem C3_findFromIsoCode_witness :
    (FindFromIsoCode CaseTable.caseless (.loaded sampleCities) " deu ".toList).2 = none ∧
    (FindFromIsoCode CaseTable.caseless (.loaded sampleCities) " deu ".toList).1.toList =
      sampleCities.filter (fun r =>
        decide (strings.ToLower CaseTable.caseless r.ISO2
            = strings.ToLower CaseTable.caseless
                (ValidateISOCode CaseTable.caseless " deu ".toList).1 ∨
          strings.ToLower CaseTable.caseless r.ISO3
            = strings.ToLower CaseTable.caseless
                (ValidateISOCode CaseTable.caseless " deu ".toList).1)) ∧
    (∀ spelling : GoString,
      strings.ToUpper CaseTable.caseless spelling
        = strings.ToUpper CaseTable.caseless " deu ".toList →
      FindFromIsoCode CaseTable.caseless (.loaded sampleCities) spelling
        = FindFromIsoCode CaseTable.caseless (.loaded sampleCities) " deu ".toList) ∧
    FindFromIsoCode CaseTable.caseless (.loaded sampleCities)
        (ValidateISOCode CaseTable.caseless " deu ".toList).1
      = FindFromIsoCode CaseTable.caseless (.loaded sampleCities) " deu ".toList ∧
    FindFromIsoCode CaseTable.caseless (.loaded sampleCities)
        (strings.ToLower CaseTable.caseless
          (ValidateISOCode CaseTable.caseless " deu ".toList).1)
      = FindFromIsoCode CaseTable.caseless (.loaded sampleCities) " deu ".toList :=
  C3_findFromIsoCode CaseTable.caseless (.loaded sampleCities) rfl " deu ".toList
    (by decide) (by decide)

end city

/-! ### The generic matcher -/

namespace city

theorem matchesField_iff (T : CaseTable) (query : GoString) (options : SearchOptions)
    (field : GoString) :
    matchesField T query options field = true ↔
      (if options.ExactMatch = true then
        (if options.CaseSensitive = true then field else strings.ToLower T field) = query
      else
        query <:+: (if options.CaseSensitive = true then field else strings.ToLower T field)) := by
  unfold matchesField
  cases hcs : options.CaseSensitive <;> cases hex : options.ExactMatch <;>
    simp [strings.contains_iff]

/-- C4. For every dataset that loaded without error, every non-empty query and every
`SearchOptions` value, `SearchCities` returns no error and exactly the records, in
dataset order, for which at least one of the seven fields City, CityASCII, StateANSI,
Province, Country,
ISO2, ISO3 equals the query (when `ExactMatch`) or contains it as a substring
(otherwise), field and query both lowercased unless `CaseSensitive` is set. -/
theorem C4_searchCities (T : CaseTable) (w : LoadOutcome) (hload : w.loadError = none)
    (query : GoString) (options : SearchOptions) (hquery : query ≠ []) :
    (SearchCities T w query options).2 = none ∧
    (SearchCities T w query options).1.toList =
      w.cityData.toList.filter (fun (c : CityData) =>
        decide (∃ field ∈ [c.City, c.CityASCII, c.StateANSI, c.Province, c.Country,
            c.ISO2, c.ISO3],
          if options.ExactMatch = true then
            (if options.CaseSensitive = true then field else strings.ToLower T field)
              = (if options.CaseSensitive = true then query else strings.ToLower T query)
          else
            (if options.CaseSensitive = true then query else strings.ToLower T query)
              <:+: (if options.CaseSensitive = true then field
                    else strings.ToLower T field))) := by
  constructor
  · simp [SearchCities, hquery, LoadCityData, hload]
  · simp only [SearchCities, hquery, LoadCityData, hload, if_false,
      collect_null_toList, GoSlice.toList_items]
    apply List.filter_congr
    intro c _
    rw [Bool.eq_iff_iff]
    unfold matchesCity
    rw [List.any_eq_true, decide_eq_true_iff]
    constructor
    · rintro ⟨field, hmem, hm⟩
      refine ⟨field, hmem, ?_⟩
      rw [matchesField_iff] at hm
      cases hcs : options.CaseSensitive <;> simpa [hcs] using hm
    · rintro ⟨field, hmem, hm⟩
      refine ⟨field, hmem, ?_⟩
      rw [matchesField_iff]
      cases hcs : options.CaseSensitive <;> simpa [hcs] using hm

/-- C4, at the query `"IL"` with a case-sensitive exact match on the sample dataset. -/
theorem C4_searchCities_witness :
    (SearchCities CaseTable.caseless (.loaded sampleCities) "IL".toList
        { CaseSensitive := true, ExactMatch := true }).2 = none ∧
    (SearchCities CaseTable.caseless (.loaded sampleCities) "IL".toList
        { CaseSensitive := true, ExactMatch := true }).1.toList =
      sampleCities.filter (fun (c : CityData) =>
        decide (∃ field ∈ [c.City, c.CityASCII, c.StateANSI, c.Province, c.Country,
            c.ISO2, c.ISO3],
          if (true = true) then
            (if (true = true) then field else strings.ToLower CaseTable.caseless field)
              = (if (true = true) then "IL".toList
                 else strings.ToLower CaseTable.caseless "IL".toList)
          else
            (if (true = true) then "IL".toList
              else strings.ToLower CaseTable.caseless "IL".toList)
              <:+: (if (true = true) then field
                    else strings.ToLower CaseTable.caseless field))) :=
  C4_searchCities CaseTable.caseless (.loaded sampleCities) rfl "IL".toList
    { CaseSensitive := true, ExactMatch := true } (by decide)

end city

/-! ### Validation of search input -/

namespace strings

/-- The shape of `TrimSpace s`: `s` is a run of white space, then `TrimSpace s`, then a
run of white space, and `TrimSpace s` neither starts nor ends with white space. -/
theorem trimSpace_shape (s : GoString) :
    ∃ l t : GoString, s = l ++ TrimSpace s ++ t ∧
      (∀ c ∈ l, unicode.IsSpace c = true) ∧ (∀ c ∈ t, unicode.IsSpace c = true) ∧
      (∀ c, (TrimSpace s).head? = some c → unicode.IsSpace c = false) ∧
      (∀ c, (TrimSpace s).getLast? = some c → unicode.IsSpace c = false) := by
  have hd : (List.dropWhile unicode.IsSpace s).reverse =
      List.takeWhile unicode.IsSpace (List.dropWhile unicode.IsSpace s).reverse ++
        List.dropWhile unicode.IsSpace (List.dropWhile unicode.IsSpace s).reverse :=
    (List.takeWhile_append_dropWhile unicode.IsSpace _).symm
  have hd2 : List.dropWhile unicode.IsSpace s =
      TrimSpace s ++
        (List.takeWhile unicode.IsSpace (List.dropWhile unicode.IsSpace s).reverse).reverse := by
    have := congrArg List.reverse hd
    rw [List.reverse_reverse, List.reverse_append] at this
    exact this
  refine ⟨List.takeWhile unicode.IsSpace s,
    (List.takeWhile unicode.IsSpace (List.dropWhile unicode.IsSpace s).reverse).reverse,
    ?_, ?_, ?_, ?_, ?_⟩
  · rw [List.append_assoc, ← hd2, List.takeWhile_append_dropWhile]
  · intro c hc
    exact List.mem_takeWhile_imp hc
  · intro c hc
    exact List.mem_takeWhile_imp (List.mem_reverse.mp hc)
  · intro c hc
    have hhead : (List.dropWhile unicode.IsSpace s).head? = some c := by
      rw [hd2, List.head?_append, hc]
      rfl
    have := List.head?_dropWhile_not unicode.IsSpace s
    rw [hhead] at this
    exact this
  · intro c hc
    have hlast : (List.dropWhile unicode.IsSpace
        (List.dropWhile unicode.IsSpace s).reverse).head? = some c := by
      have : (TrimSpace s).getLast? = (List.dropWhile unicode.IsSpace
          (List.dropWhile unicode.IsSpace s).reverse).head? := by
        unfold TrimSpace List.rdropWhile
        exact List.getLast?_reverse _
      rw [← this]
      exact hc
    have := List.head?_dropWhile_not unicode.IsSpace (List.dropWhile unicode.IsSpace s).reverse
    rw [hlast] at this
    exact this

end strings

namespace city

theorem containsSuspiciousPatterns_iff (T : CaseTable) (s : GoString) :
    containsSuspiciousPatterns T s = true ↔
      ∃ p ∈ suspicious, p <:+: strings.ToLower T s := by
  unfold containsSuspiciousPatterns
  simp only [List.any_eq_true, strings.contains_iff]

theorem suspicious_ne_nil (p : GoString) (hp : p ∈ suspicious) : p ≠ [] := by
  intro h
  subst h
  revert hp
  decide

/-- What `ValidateSearchInput` does on an input within the length bound. -/
theorem validateSearchInput_within (T : CaseTable) (input : GoString) (maxLength : Int)
    (hlen : (len input : Int) ≤ maxLength) :
    ValidateSearchInput T input maxLength =
      if containsSuspiciousPatterns T (strings.TrimSpace input) then
        ([], some (.validation
          { Field := "input".toList,
            Message := "input contains potentially suspicious patterns".toList,
            Value := none }))
      else (strings.TrimSpace input, none) := by
  by_cases h0 : input = []
  · subst h0
    have h1 : strings.TrimSpace [] = [] := by simp [strings.TrimSpace, List.rdropWhile]
    rw [h1, containsSuspiciousPatterns_nil]
    simp [ValidateSearchInput]
  · have h1 : ¬ (len input : Int) > maxLength := by omega
    unfold ValidateSearchInput
    simp only [h0, h1, if_false, utf8.ValidString, Bool.not_true, Bool.false_eq_true]

/-- C5. For every input within the length bound, `ValidateSearchInput` fails with the
`ValidationError` on field `"input"` whenever the lowercased trimmed input contains one
of the eleven denylisted substrings; and a string that `ValidateSearchInput` returns
successfully contains none of them in any letter case. -/
theorem C5_suspicious_patterns_rejected (T : CaseTable) (input : GoString)
    (maxLength : Int) :
    suspicious = [ "../".toList, "..\\".toList, "..%2f".toList, "..%5c".toList,
      "<script".toList, "</script>".toList, "javascript:".toList, "data:".toList,
      "eval(".toList, "exec(".toList, "system(".toList ] ∧
    ((len input : Int) ≤ maxLength →
      (∃ p ∈ suspicious, p <:+: strings.ToLower T (strings.TrimSpace input)) →
      ValidateSearchInput T input maxLength =
        ([], some (.validation
          { Field := "input".toList,
            Message := "input contains potentially suspicious patterns".toList,
            Value := none }))) ∧
    (∀ r : GoString, ValidateSearchInput T input maxLength = (r, none) →
      ∀ p ∈ suspicious, ∀ spelling : GoString, strings.ToLower T spelling = p →
        ¬ spelling <:+: r) := by
  refine ⟨rfl, ?_, ?_⟩
  · intro hlen hp
    rw [validateSearchInput_within T input maxLength hlen,
      (containsSuspiciousPatterns_iff T _).mpr hp]
    rfl
  · intro r hr p hp spelling hsp hin
    have hno := (validateSearchInput_ok T input maxLength r hr).2.1
    have hyes : containsSuspiciousPatterns T r = true := by
      rw [containsSuspiciousPatterns_iff]
      refine ⟨p, hp, ?_⟩
      rw [← hsp]
      exact List.IsInfix.map (unicode.ToLower T) hin
    rw [hno] at hyes
    exact Bool.false_ne_true hyes

/-- C5, at the input `" <SCRIPT>x "` with bound 100. -/
theorem C5_suspicious_patterns_rejected_witness :
    ((len " <SCRIPT>x ".toList : Int) ≤ 100 ∧
      ∃ p ∈ suspicious,
        p <:+: strings.ToLower CaseTable.caseless (strings.TrimSpace " <SCRIPT>x ".toList)) ∧
    ValidateSearchInput CaseTable.caseless " <SCRIPT>x ".toList 100 =
        ([], some (.validation
          { Field := "input".toList,
            Message := "input contains potentially suspicious patterns".toList,
            Value := none })) :=
  ⟨⟨by decide, "<script".toList, by decide, by decide⟩,
    (C5_suspicious_patterns_rejected CaseTable.caseless " <SCRIPT>x ".toList 100).2.1
      (by decide) ⟨"<script".toList, by decide, by decide⟩⟩

/-- C6. For every non-empty input whose byte length exceeds `maxLength`,
`ValidateSearchInput` returns `""` with the "input too long" `ValidationError` on field
`"input"`, whatever the length of the trimmed input; an input whose byte length is
exactly `maxLength` is accepted with its trimmed form, or rejected for a suspicious
pattern, never for its length. -/
theorem C6_too_long_rejected (T : CaseTable) (input : GoString) (maxLength : Int) :
    (input ≠ [] → (len input : Int) > maxLength →
      ValidateSearchInput T input maxLength =
        ([], some (.validation
          { Field := "input".toList,
            Message := "input too long: ".toList ++ strconv.Itoa (len input)
              ++ " characters (max: ".toList ++ strconv.Itoa maxLength ++ ")".toList,
            Value := none }))) ∧
    ((len input : Int) = maxLength →
      ValidateSearchInput T input maxLength = (strings.TrimSpace input, none) ∨
      ValidateSearchInput T input maxLength =
        ([], some (.validation
          { Field := "input".toList,
            Message := "input contains potentially suspicious patterns".toList,
            Value := none }))) := by
  constructor
  · intro h0 hlen
    unfold ValidateSearchInput
    simp only [h0, hlen, if_false, if_true]
  · intro hlen
    rw [validateSearchInput_within T input maxLength (le_of_eq hlen)]
    cases containsSuspiciousPatterns T (strings.TrimSpace input)
    · exact Or.inl rfl
    · exact Or.inr rfl

/-- C6, at the six-byte input `"  ab  "`: with bound 4 it is rejected although its
trimmed form has two bytes, with bound 6 it is accepted. -/
theorem C6_too_long_rejected_witness :
    ("  ab  ".toList ≠ [] ∧ (len "  ab  ".toList : Int) > 4 ∧
      (len (strings.TrimSpace "  ab  ".toList) : Int) ≤ 4 ∧
      ValidateSearchInput CaseTable.caseless "  ab  ".toList 4 =
        ([], some (.validation
          { Field := "input".toList,
            Message := "input too long: 6 characters (max: 4)".toList,
            Value := none }))) ∧
    ((len "  ab  ".toList : Int) = 6 ∧
      (ValidateSearchInput CaseTable.caseless "  ab  ".toList 6
          = (strings.TrimSpace "  ab  ".toList, none) ∨
        ValidateSearchInput CaseTable.caseless "  ab  ".toList 6 =
          ([], some (.validation
            { Field := "input".toList,
              Message := "input contains potentially suspicious patterns".toList,
              Value := none })))) :=
  ⟨⟨by decide, by decide, by decide,
      (C6_too_long_rejected CaseTable.caseless "  ab  ".toList 4).1 (by decide) (by decide)⟩,
    ⟨by decide,
      (C6_too_long_rejected CaseTable.caseless "  ab  ".toList 6).2 (by decide)⟩⟩

/-- C7. For every input on which `ValidateSearchInput` succeeds, the returned string is
the input without its leading and trailing white space: the input is a run of white
space, then the returned string unchanged, then a run of white space, and the returned
string neither starts nor ends with white space. -/
theorem C7_normalized_is_trimmed (T : CaseTable) (input : GoString) (maxLength : Int)
    (r : GoString) (h : ValidateSearchInput T input maxLength = (r, none)) :
    r = strings.TrimSpace input ∧
    ∃ l t : GoString, input = l ++ r ++ t ∧
      (∀ c ∈ l, unicode.IsSpace c = true) ∧ (∀ c ∈ t, unicode.IsSpace c = true) ∧
      (∀ c, r.head? = some c → unicode.IsSpace c = false) ∧
      (∀ c, r.getLast? = some c → unicode.IsSpace c = false) := by
  have hr := (validateSearchInput_ok T input maxLength r h).1
  subst hr
  exact ⟨rfl, strings.trimSpace_shape input⟩

/-- C7, at the input `"  New  York \t"` with bound 100. -/
theorem C7_normalized_is_trimmed_witness :
    ValidateSearchInput CaseTable.caseless "  New  York \t".toList 100
      = ("New  York".toList, none) ∧
    ("New  York".toList = strings.TrimSpace "  New  York \t".toList ∧
    ∃ l t : GoString, "  New  York \t".toList = l ++ "New  York".toList ++ t ∧
      (∀ c ∈ l, unicode.IsSpace c = true) ∧ (∀ c ∈ t, unicode.IsSpace c = true) ∧
      (∀ c, "New  York".toList.head? = some c → unicode.IsSpace c = false) ∧
      (∀ c, "New  York".toList.getLast? = some c → unicode.IsSpace c = false)) :=
  ⟨by decide,
    C7_normalized_is_trimmed CaseTable.caseless "  New  York \t".toList 100
      "New  York".toList (by decide)⟩

end city

/-! ### Validation of country codes -/

/-- Upper-casing leaves white space unchanged. -/
theorem unicode.toUpper_space (T : CaseTable) (r : Char) (h : unicode.IsSpace r = true) :
    unicode.ToUpper T r = r := by
  unfold unicode.ToUpper
  by_cases hascii : r.toNat ≤ unicode.MaxASCII
  · have ha : 'a'.toNat = 97 := rfl
    have hz : 'z'.toNat = 122 := rfl
    have hnot : ¬ ('a'.toNat ≤ r.toNat ∧ r.toNat ≤ 'z'.toNat) := by
      rw [ha, hz]
      unfold unicode.IsSpace at h
      unfold unicode.MaxASCII at hascii
      have hl : r.toNat ≤ unicode.MaxLatin1 := by
        unfold unicode.MaxLatin1
        omega
      simp only [hl, if_true, Bool.or_eq_true, decide_eq_true_eq] at h
      omega
    simp only [hascii, if_true, hnot, if_false]
  · simp only [hascii, if_false]
    exact T.upper_space r h

namespace city

/-- C8. For every non-empty input, `ValidateISOCode` succeeds if and only if the input,
upper-cased and trimmed, has length 2 or 3 and consists only of the letters `A` to `Z`,
and it then returns exactly that upper-cased trimmed code; the empty input returns `""`
with no error; a non-empty input of white space only is rejected. -/
theorem C8_validateISOCode (T : CaseTable) (isoCode : GoString) :
    (isoCode ≠ [] →
      ((ValidateISOCode T isoCode).2 = none ↔
        ((strings.TrimSpace (strings.ToUpper T isoCode)).length = 2 ∨
          (strings.TrimSpace (strings.ToUpper T isoCode)).length = 3) ∧
        ∀ r ∈ strings.TrimSpace (strings.ToUpper T isoCode),
          'A'.toNat ≤ r.toNat ∧ r.toNat ≤ 'Z'.toNat) ∧
      ((ValidateISOCode T isoCode).2 = none →
        (ValidateISOCode T isoCode).1 = strings.TrimSpace (strings.ToUpper T isoCode))) ∧
    ValidateISOCode T [] = ([], none) ∧
    (isoCode ≠ [] → (∀ c ∈ isoCode, unicode.IsSpace c = true) →
      ValidateISOCode T isoCode =
        ([], some (.validation
          { Field := "isoCode".toList,
            Message := "ISO code must be 2 or 3 characters".toList,
            Value := none }))) := by
  refine ⟨?_, rfl, ?_⟩
  · intro h0
    rw [validateISOCode_eq T isoCode h0]
    by_cases hl : (len (strings.TrimSpace (strings.ToUpper T isoCode)) = 2 ∨
        len (strings.TrimSpace (strings.ToUpper T isoCode)) = 3)
    · by_cases ha : allUpperLetters (strings.TrimSpace (strings.ToUpper T isoCode)) = true
      · have hlen := len_of_upper_letters _ ha
        simp only [hl, ha, if_true, true_iff, true_implies, and_true]
        exact ⟨by rw [← hlen]; exact hl, (allUpperLetters_iff _).mp ha⟩
      · have ha' : allUpperLetters (strings.TrimSpace (strings.ToUpper T isoCode)) = false := by
          simpa using ha
        rw [if_pos hl, ha']
        have hno : ¬ ∀ r ∈ strings.TrimSpace (strings.ToUpper T isoCode),
            'A'.toNat ≤ r.toNat ∧ r.toNat ≤ 'Z'.toNat :=
          fun hall => ha ((allUpperLetters_iff _).mpr hall)
        simp only [Bool.false_eq_true, if_false]
        by_cases h2 : len (strings.TrimSpace (strings.ToUpper T isoCode)) = 2
        · simp only [h2, if_true]
          exact ⟨⟨fun hnone => by simp at hnone, fun hyes => absurd hyes.2 hno⟩,
            fun hnone => by simp at hnone⟩
        · simp only [h2, if_false]
          exact ⟨⟨fun hnone => by simp at hnone, fun hyes => absurd hyes.2 hno⟩,
            fun hnone => by simp at hnone⟩
    · rw [if_neg hl]
      constructor
      · constructor
        · intro hnone
          simp at hnone
        · rintro ⟨hlen, hall⟩
          have ha := (allUpperLetters_iff _).mpr hall
          rw [← len_of_upper_letters _ ha] at hlen
          exact absurd hlen hl
      · intro hnone
        simp at hnone
  · intro h0 hsp
    have hup : strings.ToUpper T isoCode = isoCode := by
      unfold strings.ToUpper
      conv_rhs => rw [← List.map_id isoCode]
      exact List.map_congr_left (fun r hr => unicode.toUpper_space T r (hsp r hr))
    have htrim : strings.TrimSpace isoCode = [] := by
      unfold strings.TrimSpace
      have : List.dropWhile unicode.IsSpace isoCode = [] :=
        List.dropWhile_eq_nil_iff.mpr hsp
      rw [this]
      rfl
    rw [validateISOCode_eq T isoCode h0, hup, htrim]
    rfl

/-- C8, at the inputs `" uS "` (accepted) and `" "` (rejected). -/
theorem C8_validateISOCode_witness :
    (" uS ".toList ≠ [] ∧ ValidateISOCode CaseTable.caseless " uS ".toList
        = ("US".toList, none)) ∧
    (" ".toList ≠ [] ∧ (∀ c ∈ " ".toList, unicode.IsSpace c = true) ∧
      ValidateISOCode CaseTable.caseless " ".toList =
        ([], some (.validation
          { Field := "isoCode".toList,
            Message := "ISO code must be 2 or 3 characters".toList,
            Value := none }))) :=
  ⟨⟨by decide, Prod.ext
      (((C8_validateISOCode CaseTable.caseless " uS ".toList).1 (by decide)).2 (by decide))
      (by decide)⟩,
    ⟨by decide, by decide,
      (C8_validateISOCode CaseTable.caseless " ".toList).2.2 (by decide) (by decide)⟩⟩

end city

/-! ### The rate limiter -/

namespace city

/-- The negation of a duration is exact for every duration but the least one. -/
theorem negDuration_of_ne (d : Duration) (h : d ≠ minInt64) : negDuration d = -d := by
  unfold negDuration
  rw [if_neg h]

/-- The negation of a duration that is not negative is exact. -/
theorem negDuration_of_nonneg (d : Duration) (h : 0 ≤ d) : negDuration d = -d := by
  apply negDuration_of_ne
  intro hd
  rw [hd] at h
  exact absurd h (by decide)

/-- A value of an `int64` is left as it is by the wrap-around. -/
theorem wrapInt64_of_range (i : Int) (hmin : minInt64 ≤ i) (hmax : i ≤ maxInt64) :
    wrapInt64 i = i := by
  unfold wrapInt64
  unfold minInt64 at hmin
  unfold maxInt64 at hmax
  omega

/-- On the values of an `int64` the negation of a duration is the two's complement
negation. -/
theorem negDuration_eq_wrap (d : Int) (hmin : minInt64 ≤ d) (hmax : d ≤ maxInt64) :
    negDuration d = wrapInt64 (-d) := by
  by_cases h : d = minInt64
  · rw [h]
    decide
  · rw [negDuration_of_ne d h]
    have h1 : minInt64 ≤ -d := by
      unfold minInt64 at hmin h ⊢
      unfold maxInt64 at hmax
      omega
    have h2 : -d ≤ maxInt64 := by
      unfold minInt64 at hmin h
      unfold maxInt64 at hmax ⊢
      omega
    exact (wrapInt64_of_range (-d) h1 h2).symm

/-- The wrap-around yields a value of an `int64`. -/
theorem wrapInt64_range (i : Int) : minInt64 ≤ wrapInt64 i ∧ wrapInt64 i ≤ maxInt64 := by
  unfold wrapInt64 minInt64 maxInt64
  omega

theorem cleanOld_toList (cutoff : Time) (l : List Time) (validRequests : GoSlice Time) :
    (cleanOld cutoff l validRequests).toList
      = validRequests.toList ++ l.filter (fun req => decide (req > cutoff)) := by
  induction l generalizing validRequests with
  | nil => simp [cleanOld]
  | cons req rest ih =>
    by_cases h : req > cutoff
    · simp [cleanOld, h, ih]
    · simp [cleanOld, h, ih]

theorem RateLimiter.stored_store_same (rl : RateLimiter) (key : GoString) (v : GoSlice Time) :
    RateLimiter.stored { rl with requests := rl.requests.store key v } key = v := by
  simp [RateLimiter.stored, GoMap.lookup_store_same]

theorem RateLimiter.stored_store_other (rl : RateLimiter) (key other : GoString)
    (v : GoSlice Time) (hne : other ≠ key) :
    RateLimiter.stored { rl with requests := rl.requests.store key v } other
      = rl.stored other := by
  simp [RateLimiter.stored, GoMap.lookup_store_other _ _ _ _ hne]

end city

namespace city

theorem RateLimiter.cleaned_limit (rl : RateLimiter) (now : Time) (key : GoString) :
    (rl.cleaned now key).limit = rl.limit ∧ (rl.cleaned now key).window = rl.window := by
  unfold RateLimiter.cleaned
  cases rl.requests.lookup key <;> exact ⟨rfl, rfl⟩

/-- After the cleaning block the key holds its requests made after the cutoff. -/
theorem RateLimiter.cleaned_stored (rl : RateLimiter) (now : Time) (key : GoString) :
    ((rl.cleaned now key).stored key).toList
      = (rl.stored key).toList.filter (fun req => decide (req > now + negDuration rl.window)) := by
  unfold RateLimiter.cleaned
  cases hlook : rl.requests.lookup key with
  | none => simp [RateLimiter.stored, hlook]
  | some requests =>
    simp only [RateLimiter.stored_store_same, cleanOld_toList, GoSlice.toList_null,
      List.nil_append]
    simp [RateLimiter.stored, hlook]

theorem RateLimiter.cleaned_stored_other (rl : RateLimiter) (now : Time)
    (key other : GoString) (hne : other ≠ key) :
    (rl.cleaned now key).stored other = rl.stored other := by
  unfold RateLimiter.cleaned
  cases hlook : rl.requests.lookup key with
  | none => rfl
  | some requests => exact RateLimiter.stored_store_other rl key other _ hne

/-- The answer of `Allow`. -/
theorem RateLimiter.allow_fst (rl : RateLimiter) (now : Time) (key : GoString) :
    (rl.Allow now key).1 = decide
      ((((rl.stored key).toList.filter
          (fun req => decide (req > now + negDuration rl.window))).length
        : Int) < rl.limit) := by
  unfold RateLimiter.Allow
  simp only [GoSlice.len, RateLimiter.cleaned_stored, (RateLimiter.cleaned_limit rl now key).1]
  split <;> simp_all

/-- The requests stored for the key after `Allow`. -/
theorem RateLimiter.allow_stored (rl : RateLimiter) (now : Time) (key : GoString) :
    ((rl.Allow now key).2.stored key).toList =
      if (rl.Allow now key).1 = true then
        (rl.stored key).toList.filter
            (fun req => decide (req > now + negDuration rl.window)) ++ [now]
      else (rl.stored key).toList.filter
          (fun req => decide (req > now + negDuration rl.window)) := by
  unfold RateLimiter.Allow
  simp only []
  split
  · simp only [if_true, RateLimiter.stored_store_same, GoSlice.toList_append,
      RateLimiter.cleaned_stored]
  · simp only [Bool.false_eq_true, if_false, RateLimiter.cleaned_stored]

theorem RateLimiter.allow_limit (rl : RateLimiter) (now : Time) (key : GoString) :
    (rl.Allow now key).2.limit = rl.limit ∧ (rl.Allow now key).2.window = rl.window := by
  unfold RateLimiter.Allow
  simp only []
  split
  · exact RateLimiter.cleaned_limit rl now key
  · exact RateLimiter.cleaned_limit rl now key

/-- C9, amended. For every limiter state whose window is not the least duration, every
key and every instant `now`, `Allow` returns true if and only if the number of
timestamps stored for the key that are strictly later than `now - window` is less than
`limit`; when it returns true the stored sequence of the key becomes those surviving
timestamps followed by `now`, and when it returns false it becomes exactly the surviving
timestamps. -/
theorem C9_allow (rl : RateLimiter) (now : Time) (key : GoString)
    (hwindow : rl.window ≠ minInt64) :
    ((rl.Allow now key).1 = true ↔
      (((rl.stored key).toList.filter (fun req => decide (req > now - rl.window))).length
        : Int) < rl.limit) ∧
    ((rl.Allow now key).1 = true →
      ((rl.Allow now key).2.stored key).toList =
        (rl.stored key).toList.filter (fun req => decide (req > now - rl.window)) ++ [now]) ∧
    ((rl.Allow now key).1 = false →
      ((rl.Allow now key).2.stored key).toList =
        (rl.stored key).toList.filter (fun req => decide (req > now - rl.window))) := by
  have hcut : now + negDuration rl.window = now - rl.window := by
    rw [negDuration_of_ne rl.window hwindow]
    ring
  refine ⟨?_, ?_, ?_⟩
  · rw [RateLimiter.allow_fst, decide_eq_true_iff, hcut]
  · intro h
    rw [RateLimiter.allow_stored, if_pos h, hcut]
  · intro h
    rw [RateLimiter.allow_stored, if_neg (by simp [h]), hcut]

/-- C9, amended, on a limiter with limit 2 and window 10 holding the timestamps 1, 5 and
8 for `"ip"`: at instant 12 the timestamp 1 is dropped and the call is rejected; at
instant 15 the timestamps 1 and 5 are dropped and the call is admitted. -/
theorem C9_allow_witness :
    (((RateLimiter.Allow
        { requests := ⟨[("ip".toList, .items [1, 5, 8])]⟩, limit := 2, window := 10 }
        12 "ip".toList).1 = false ∧
      ((RateLimiter.Allow
        { requests := ⟨[("ip".toList, .items [1, 5, 8])]⟩, limit := 2, window := 10 }
        12 "ip".toList).2.stored "ip".toList).toList = [5, 8]) ∧
    ((RateLimiter.Allow
        { requests := ⟨[("ip".toList, .items [1, 5, 8])]⟩, limit := 2, window := 10 }
        15 "ip".toList).1 = true ∧
      ((RateLimiter.Allow
        { requests := ⟨[("ip".toList, .items [1, 5, 8])]⟩, limit := 2, window := 10 }
        15 "ip".toList).2.stored "ip".toList).toList = [8, 15])) :=
  ⟨⟨by decide,
      ((C9_allow { requests := ⟨[("ip".toList, .items [1, 5, 8])]⟩, limit := 2, window := 10 }
        12 "ip".toList (by decide)).2.2 (by decide)).trans (by decide)⟩,
    ⟨by decide,
      ((C9_allow { requests := ⟨[("ip".toList, .items [1, 5, 8])]⟩, limit := 2, window := 10 }
        15 "ip".toList (by decide)).2.1 (by decide)).trans (by decide)⟩⟩

/-- C9, as stated, fails at the least duration, whose negation wraps around to itself: on
a limiter with limit 1 and window `-2^63` holding the timestamp 0 for `"ip"`, no stored
timestamp is later than `5 - window`, and yet `Allow` at the instant 5 returns false,
because the cutoff it computes is `5 + (-2^63)`, which the timestamp 0 is later than. -/
theorem C9_counterexample :
    (((RateLimiter.stored
        { requests := ⟨[("ip".toList, .items [0])]⟩, limit := 1, window := minInt64 }
        "ip".toList).toList.filter (fun req => decide (req > 5 - minInt64))).length : Int)
      < 1 ∧
    (RateLimiter.Allow
      { requests := ⟨[("ip".toList, .items [0])]⟩, limit := 1, window := minInt64 }
      5 "ip".toList).1 = false := by
  decide

end city

namespace city

theorem RateLimiter.allowAll_append (rl : RateLimiter) (key : GoString) (a b : List Time) :
    rl.allowAll key (a ++ b) =
      ((rl.allowAll key a).1 ++ ((rl.allowAll key a).2.allowAll key b).1,
        ((rl.allowAll key a).2.allowAll key b).2) := by
  induction a generalizing rl with
  | nil => simp [RateLimiter.allowAll]
  | cons now rest ih => simp [RateLimiter.allowAll, ih]

theorem RateLimiter.allowAll_singleton (rl : RateLimiter) (key : GoString) (now : Time) :
    rl.allowAll key [now] = ([(rl.Allow now key).1], (rl.Allow now key).2) := rfl

/-- While fewer than `limit` requests are stored, calls are admitted, and the key holds
a part of the earlier timestamps and of the instants of these calls. -/
theorem RateLimiter.allowAll_admits (key : GoString) (calls : List Time) :
    ∀ (rl : RateLimiter) (earlier : List Time),
      (rl.stored key).toList.Sublist earlier →
      ((earlier.length + calls.length : Nat) : Int) ≤ rl.limit →
      (rl.allowAll key calls).1 = List.replicate calls.length true ∧
      ((rl.allowAll key calls).2.stored key).toList.Sublist (earlier ++ calls) ∧
      (rl.allowAll key calls).2.limit = rl.limit ∧
      (rl.allowAll key calls).2.window = rl.window := by
  induction calls with
  | nil =>
    intro rl earlier hsub _
    simpa [RateLimiter.allowAll] using hsub
  | cons now rest ih =>
    intro rl earlier hsub hlen
    have hfilter : ((rl.stored key).toList.filter
        (fun req => decide (req > now + negDuration rl.window))).Sublist earlier :=
      (List.filter_sublist _).trans hsub
    have hadmit : (rl.Allow now key).1 = true := by
      rw [RateLimiter.allow_fst, decide_eq_true_iff]
      have := hfilter.length_le
      simp only [List.length_cons] at hlen
      push_cast at hlen ⊢
      omega
    have hstored : ((rl.Allow now key).2.stored key).toList.Sublist (earlier ++ [now]) := by
      rw [RateLimiter.allow_stored, if_pos hadmit]
      exact List.Sublist.append hfilter (List.Sublist.refl _)
    have hlen2 : (((earlier ++ [now]).length + rest.length : Nat) : Int)
        ≤ (rl.Allow now key).2.limit := by
      rw [(RateLimiter.allow_limit rl now key).1]
      simp only [List.length_cons, List.length_append, List.length_nil] at hlen ⊢
      push_cast at hlen ⊢
      omega
    obtain ⟨h1, h2, h3, h4⟩ := ih (rl.Allow now key).2 (earlier ++ [now]) hstored hlen2
    refine ⟨?_, ?_, ?_, ?_⟩
    · simp [RateLimiter.allowAll, hadmit, h1, List.replicate_succ]
    · simpa [RateLimiter.allowAll] using h2
    · simp [RateLimiter.allowAll, h3, (RateLimiter.allow_limit rl now key).1]
    · simp [RateLimiter.allowAll, h4, (RateLimiter.allow_limit rl now key).2]

/-- While fewer than `limit` requests are stored and no stored timestamp ages out, calls
are admitted and the key holds the earlier timestamps followed by the instants of these
calls. -/
theorem RateLimiter.allowAll_admits_all (key : GoString) (calls : List Time) :
    ∀ (rl : RateLimiter) (earlier : List Time) (bound : Time),
      (rl.stored key).toList = earlier →
      ((earlier.length + calls.length : Nat) : Int) ≤ rl.limit →
      (∀ x ∈ earlier ++ calls, bound < x) →
      (∀ u ∈ calls, u + negDuration rl.window ≤ bound) →
      (rl.allowAll key calls).1 = List.replicate calls.length true ∧
      ((rl.allowAll key calls).2.stored key).toList = earlier ++ calls ∧
      (rl.allowAll key calls).2.limit = rl.limit ∧
      (rl.allowAll key calls).2.window = rl.window := by
  induction calls with
  | nil =>
    intro rl earlier bound hst _ _ _
    simpa [RateLimiter.allowAll] using hst
  | cons now rest ih =>
    intro rl earlier bound hst hlen hlow hcut
    have hkeep : (rl.stored key).toList.filter
        (fun req => decide (req > now + negDuration rl.window))
        = earlier := by
      rw [hst, List.filter_eq_self]
      intro x hx
      have h1 := hlow x (List.mem_append_left _ hx)
      have h2 := hcut now (List.mem_cons_self now rest)
      simp only [gt_iff_lt, decide_eq_true_eq]
      linarith
    have hadmit : (rl.Allow now key).1 = true := by
      rw [RateLimiter.allow_fst, decide_eq_true_iff, hkeep]
      simp only [List.length_cons] at hlen
      push_cast at hlen ⊢
      omega
    have hstored : ((rl.Allow now key).2.stored key).toList = earlier ++ [now] := by
      rw [RateLimiter.allow_stored, if_pos hadmit, hkeep]
    have hlen2 : (((earlier ++ [now]).length + rest.length : Nat) : Int)
        ≤ (rl.Allow now key).2.limit := by
      rw [(RateLimiter.allow_limit rl now key).1]
      simp only [List.length_cons, List.length_append, List.length_nil] at hlen ⊢
      push_cast at hlen ⊢
      omega
    have hlow2 : ∀ x ∈ (earlier ++ [now]) ++ rest, bound < x := by
      intro x hx
      exact hlow x (by simpa using hx)
    have hcut2 : ∀ u ∈ rest, u + negDuration (rl.Allow now key).2.window ≤ bound := by
      intro u hu
      rw [(RateLimiter.allow_limit rl now key).2]
      exact hcut u (List.mem_cons_of_mem now hu)
    obtain ⟨h1, h2, h3, h4⟩ :=
      ih (rl.Allow now key).2 (earlier ++ [now]) bound hstored hlen2 hlow2 hcut2
    refine ⟨?_, ?_, ?_, ?_⟩
    · simp [RateLimiter.allowAll, hadmit, h1, List.replicate_succ]
    · simpa [RateLimiter.allowAll] using h2
    · simp [RateLimiter.allowAll, h3, (RateLimiter.allow_limit rl now key).1]
    · simp [RateLimiter.allowAll, h4, (RateLimiter.allow_limit rl now key).2]

/-- While `limit` requests are stored and none of them ages out, calls are rejected and
the stored timestamps stay as they are. -/
theorem RateLimiter.allowAll_rejects (key : GoString) (calls : List Time) :
    ∀ (rl : RateLimiter) (held : List Time) (bound : Time),
      (rl.stored key).toList = held →
      rl.limit ≤ (held.length : Int) →
      (∀ x ∈ held, bound < x) →
      (∀ u ∈ calls, u + negDuration rl.window ≤ bound) →
      (rl.allowAll key calls).1 = List.replicate calls.length false ∧
      ((rl.allowAll key calls).2.stored key).toList = held ∧
      (rl.allowAll key calls).2.limit = rl.limit ∧
      (rl.allowAll key calls).2.window = rl.window := by
  induction calls with
  | nil =>
    intro rl held bound hst _ _ _
    simpa [RateLimiter.allowAll] using hst
  | cons now rest ih =>
    intro rl held bound hst hfull hlow hcut
    have hkeep : (rl.stored key).toList.filter
        (fun req => decide (req > now + negDuration rl.window))
        = held := by
      rw [hst, List.filter_eq_self]
      intro x hx
      have h1 := hlow x hx
      have h2 := hcut now (List.mem_cons_self now rest)
      simp only [gt_iff_lt, decide_eq_true_eq]
      linarith
    have hreject : (rl.Allow now key).1 = false := by
      rw [RateLimiter.allow_fst, decide_eq_false_iff_not, hkeep]
      omega
    have hstored : ((rl.Allow now key).2.stored key).toList = held := by
      rw [RateLimiter.allow_stored, if_neg (by simp [hreject]), hkeep]
    have hfull2 : (rl.Allow now key).2.limit ≤ (held.length : Int) := by
      rw [(RateLimiter.allow_limit rl now key).1]
      exact hfull
    have hcut2 : ∀ u ∈ rest, u + negDuration (rl.Allow now key).2.window ≤ bound := by
      intro u hu
      rw [(RateLimiter.allow_limit rl now key).2]
      exact hcut u (List.mem_cons_of_mem now hu)
    obtain ⟨h1, h2, h3, h4⟩ := ih (rl.Allow now key).2 held bound hstored hfull2 hlow hcut2
    refine ⟨?_, ?_, ?_, ?_⟩
    · simp [RateLimiter.allowAll, hreject, h1, List.replicate_succ]
    · simpa [RateLimiter.allowAll] using h2
    · simp [RateLimiter.allowAll, h3, (RateLimiter.allow_limit rl now key).1]
    · simp [RateLimiter.allowAll, h4, (RateLimiter.allow_limit rl now key).2]

/-- Once the first of the admitted timestamps has aged out, the next call is admitted. -/
theorem RateLimiter.allow_after_window (rl : RateLimiter) (key : GoString)
    (t1 : Time) (ts : List Time) (t : Time)
    (hsub : (rl.stored key).toList.Sublist (t1 :: ts))
    (hlimit : rl.limit = ((t1 :: ts).length : Int))
    (ht : t1 ≤ t + negDuration rl.window) : (rl.Allow t key).1 = true := by
  rw [RateLimiter.allow_fst, decide_eq_true_iff, hlimit]
  have h1 : ((rl.stored key).toList.filter
      (fun req => decide (req > t + negDuration rl.window))).Sublist
      ((t1 :: ts).filter (fun req => decide (req > t + negDuration rl.window))) :=
    List.Sublist.filter _ hsub
  have h2 : (t1 :: ts).filter (fun req => decide (req > t + negDuration rl.window))
      = ts.filter (fun req => decide (req > t + negDuration rl.window)) := by
    have : ¬ t1 > t + negDuration rl.window := by
      intro hgt
      linarith
    simp [List.filter_cons, this]
  rw [h2] at h1
  have h3 := h1.length_le
  have h4 := List.length_filter_le (fun req => decide (req > t + negDuration rl.window)) ts
  simp only [List.length_cons]
  push_cast
  omega

/-- C10, amended. On a fresh limiter with limit `n ≥ 1` and a window other than the least
duration, under a non-decreasing clock, the first `n` calls of `Allow` for a key, at the
instants `t1 ≤ ... ≤ tn`, are admitted; every following call made before `t1 + window`
is rejected; and the first following call made at an instant `t ≥ t1 + window`, the
instant `t1 + window` itself included, is admitted. -/
theorem C10_rate_limiter_boundary (n : Nat) (window : Duration) (key : GoString)
    (hwindow : window ≠ minInt64)
    (t1 : Time) (ts later : List Time) (t : Time)
    (hn : (t1 :: ts).length = n)
    (hclock : List.Pairwise (fun a b => a ≤ b) (t1 :: ts ++ later ++ [t]))
    (hlater : ∀ u ∈ later, u < t1 + window)
    (ht : t1 + window ≤ t) :
    ((NewRateLimiter n window).allowAll key (t1 :: ts ++ later ++ [t])).1
      = List.replicate n true ++ List.replicate later.length false ++ [true] := by
  have hfresh : ((NewRateLimiter n window).stored key).toList = [] := rfl
  have hlim : (NewRateLimiter n window).limit = (n : Int) := rfl
  have hwin : (NewRateLimiter n window).window = window := rfl
  have hneg : negDuration window = -window := negDuration_of_ne window hwindow
  rw [RateLimiter.allowAll_append, RateLimiter.allowAll_append]
  simp only []
  -- the first n calls
  have hA := RateLimiter.allowAll_admits key (t1 :: ts) (NewRateLimiter n window) []
    (by rw [hfresh]) (by rw [hlim, ← hn]; simp)
  obtain ⟨hA1, hA2, hA3, hA4⟩ := hA
  rw [hlim] at hA3
  rw [hwin] at hA4
  simp only [List.nil_append] at hA2
  rw [hA1, hn]
  -- the calls before t1 + window
  have hB : (((NewRateLimiter n window).allowAll key (t1 :: ts)).2.allowAll key later).1
        = List.replicate later.length false ∧
      ((((NewRateLimiter n window).allowAll key (t1 :: ts)).2.allowAll key later).2.stored
          key).toList.Sublist (t1 :: ts) ∧
      (((NewRateLimiter n window).allowAll key (t1 :: ts)).2.allowAll key later).2.limit = n ∧
      (((NewRateLimiter n window).allowAll key (t1 :: ts)).2.allowAll key later).2.window
        = window := by
    cases hL : later with
    | nil => exact ⟨rfl, hA2, hA3, hA4⟩
    | cons u rest =>
      rw [← hL]
      -- the last call before t1 + window bounds every cutoff so far
      obtain ⟨m, hm, hmax⟩ : ∃ m ∈ later, ∀ v ∈ (t1 :: ts) ++ later, v ≤ m := by
        have hne : later ≠ [] := by rw [hL]; exact List.cons_ne_nil u rest
        refine ⟨later.getLast hne, List.getLast_mem hne, ?_⟩
        intro v hv
        have hsplit : later = later.dropLast ++ [later.getLast hne] :=
          (List.dropLast_append_getLast hne).symm
        have hpw : List.Pairwise (fun a b => a ≤ b) ((t1 :: ts) ++ later) :=
          (List.pairwise_append.mp hclock).1
        rw [hsplit, ← List.append_assoc] at hpw
        rw [hsplit, ← List.append_assoc, List.mem_append, List.mem_singleton] at hv
        rcases hv with hv | hv
        · exact (List.pairwise_append.mp hpw).2.2 v hv _ (List.mem_singleton_self _)
        · exact le_of_eq hv
      have hmlt := hlater m hm
      have hfirst : ∀ x ∈ (t1 :: ts) ++ later, t1 ≤ x := by
        intro x hx
        have hpw : List.Pairwise (fun a b => a ≤ b) (t1 :: (ts ++ later)) := by
          have := (List.pairwise_append.mp hclock).1
          simpa using this
        rw [List.cons_append, List.mem_cons] at hx
        rcases hx with hx | hx
        · exact le_of_eq hx.symm
        · exact (List.pairwise_cons.mp hpw).1 x hx
      have hA' := RateLimiter.allowAll_admits_all key (t1 :: ts) (NewRateLimiter n window) []
        (m - window) hfresh (by rw [hlim, ← hn]; simp)
        (by
          intro x hx
          have := hfirst x (List.mem_append_left _ (by simpa using hx))
          linarith)
        (by
          intro v hv
          have := hmax v (List.mem_append_left _ hv)
          rw [hwin, hneg]
          linarith)
      obtain ⟨_, hA2', _, _⟩ := hA'
      simp only [List.nil_append] at hA2'
      have hR := RateLimiter.allowAll_rejects key later
        ((NewRateLimiter n window).allowAll key (t1 :: ts)).2 (t1 :: ts) (m - window) hA2'
        (by rw [hA3, ← hn])
        (by
          intro x hx
          have := hfirst x (List.mem_append_left _ hx)
          linarith)
        (by
          intro v hv
          have := hmax v (List.mem_append_right _ hv)
          rw [hA4, hneg]
          linarith)
      obtain ⟨hR1, hR2, hR3, hR4⟩ := hR
      exact ⟨hR1, by rw [hR2], hR3.trans hA3, hR4.trans hA4⟩
  obtain ⟨hB1, hB2, hB3, hB4⟩ := hB
  rw [hB1]
  -- the first call at or after t1 + window
  have hC := RateLimiter.allow_after_window
    (((NewRateLimiter n window).allowAll key (t1 :: ts)).2.allowAll key later).2 key t1 ts t
    hB2 (by rw [hB3, hn]) (by rw [hB4, hneg]; linarith)
  rw [RateLimiter.allowAll_singleton, hC, List.append_assoc]

/-- C10, amended, with limit 2 and window 10: calls at 0 and 3 are admitted, calls at 5
and 9 are rejected, and the call at 10, the instant the first timestamp ages out, is
admitted. -/
theorem C10_rate_limiter_boundary_witness :
    ((NewRateLimiter 2 10).allowAll "ip".toList [0, 3, 5, 9, 10]).1
      = [true, true, false, false, true] :=
  C10_rate_limiter_boundary 2 10 "ip".toList (by decide) 0 [3] [5, 9] 10 (by decide)
    (by decide) (by decide) (by decide)

/-- C10, as stated, fails at the least duration: on a fresh limiter with limit 1 and window
`-2^63` the call at 0 is admitted, no call follows before `0 + window`, and the call at
5, made at an instant not earlier than `0 + window`, is rejected: the cutoff computed
from the wrapped negation is `5 + (-2^63)`, which the timestamp 0 is later than. -/
theorem C10_counterexample :
    List.Pairwise (fun a b => a ≤ b) ((0 : Time) :: [] ++ [] ++ [5]) ∧
    (0 : Time) + minInt64 ≤ 5 ∧
    ((NewRateLimiter 1 minInt64).allowAll "ip".toList ((0 : Time) :: [] ++ [] ++ [5])).1
      = [true, false] ∧
    ((NewRateLimiter 1 minInt64).allowAll "ip".toList ((0 : Time) :: [] ++ [] ++ [5])).1
      ≠ List.replicate 1 true ++ List.replicate ([] : List Time).length false ++ [true] := by
  decide


end city

/-! ### The rate limiter: windows, rejected calls, independent keys -/

namespace city

/-- A call of `Allow` for one key leaves the requests stored for another key alone. -/
theorem RateLimiter.allow_stored_other (rl : RateLimiter) (now : Time)
    (key other : GoString) (hne : other ≠ key) :
    (rl.Allow now key).2.stored other = rl.stored other := by
  unfold RateLimiter.Allow
  simp only []
  split
  · rw [RateLimiter.stored_store_other _ _ _ _ hne]
    exact RateLimiter.cleaned_stored_other rl now key other hne
  · exact RateLimiter.cleaned_stored_other rl now key other hne

theorem RateLimiter.run_append (rl : RateLimiter) (a b : List (GoString × Time)) :
    rl.run (a ++ b) = ((rl.run a).1 ++ ((rl.run a).2.run b).1, ((rl.run a).2.run b).2) := by
  induction a generalizing rl with
  | nil => simp [RateLimiter.run]
  | cons call rest ih => simp [RateLimiter.run, ih]

theorem RateLimiter.run_singleton (rl : RateLimiter) (call : GoString × Time) :
    rl.run [call] = ([(rl.Allow call.2 call.1).1], (rl.Allow call.2 call.1).2) := rfl

theorem RateLimiter.run_limit (calls : List (GoString × Time)) :
    ∀ rl : RateLimiter, (rl.run calls).2.limit = rl.limit ∧
      (rl.run calls).2.window = rl.window := by
  induction calls with
  | nil => intro rl; exact ⟨rfl, rfl⟩
  | cons call rest ih =>
    intro rl
    have h := ih (rl.Allow call.2 call.1).2
    have h2 := RateLimiter.allow_limit rl call.2 call.1
    exact ⟨h.1.trans h2.1, h.2.trans h2.2⟩

/-- After a call at `now`, no stored timestamp of any key is later than `now`, provided
none was later than an earlier instant `t`. -/
theorem RateLimiter.allow_stored_le (rl : RateLimiter) (t now : Time) (key : GoString)
    (hle : t ≤ now) (h : ∀ k, ∀ x ∈ (rl.stored k).toList, x ≤ t) :
    ∀ k, ∀ x ∈ ((rl.Allow now key).2.stored k).toList, x ≤ now := by
  intro k x hx
  by_cases hk : k = key
  · subst hk
    rw [RateLimiter.allow_stored] at hx
    have hold : ∀ y ∈ (rl.stored k).toList.filter
        (fun req => decide (req > now + negDuration rl.window)),
        y ≤ now := by
      intro y hy
      have := h k y (List.mem_filter.mp hy).1
      linarith
    split at hx
    · rcases List.mem_append.mp hx with hx | hx
      · exact hold x hx
      · exact le_of_eq (List.mem_singleton.mp hx)
    · exact hold x hx
  · rw [RateLimiter.allow_stored_other rl now key k hk] at hx
    have := h k x hx
    linarith

/-- Under a non-decreasing clock no stored timestamp is later than the last call. -/
theorem RateLimiter.run_stored_le (calls : List (GoString × Time)) :
    ∀ (rl : RateLimiter) (t u : Time),
      (∀ k, ∀ x ∈ (rl.stored k).toList, x ≤ t) →
      List.Pairwise (fun a b => a ≤ b) (t :: calls.map (fun call => call.2) ++ [u]) →
      ∀ k, ∀ x ∈ ((rl.run calls).2.stored k).toList, x ≤ u := by
  induction calls with
  | nil =>
    intro rl t u h hclock k x hx
    have htu : t ≤ u := by
      have := (List.pairwise_cons.mp hclock).1 u (by simp)
      exact this
    have := h k x hx
    linarith
  | cons call rest ih =>
    intro rl t u h hclock k x hx
    have hcons := List.pairwise_cons.mp hclock
    have htc : t ≤ call.2 := hcons.1 call.2 (by simp)
    have hrest : List.Pairwise (fun a b => a ≤ b)
        (call.2 :: rest.map (fun call => call.2) ++ [u]) := by
      simpa using hcons.2
    exact ih (rl.Allow call.2 call.1).2 call.2 u
      (RateLimiter.allow_stored_le rl t call.2 call.1 htc h) hrest k x hx

/-- C11, amended. On a limiter with a non-negative window, under a non-decreasing clock,
after every call `Allow(key)` made at `now` every timestamp stored for that key lies
within `[now - window, now]`; the count compared with the limit is the count after the
cleaning block, which holds only timestamps later than `now - window`. -/
theorem C11_window_invariant (limit : Int) (window : Duration) (hwindow : 0 ≤ window)
    (calls : List (GoString × Time)) (key : GoString) (now : Time)
    (hclock : List.Pairwise (fun a b => a ≤ b)
      ((calls ++ [(key, now)]).map (fun call => call.2))) :
    (∀ x ∈ (((NewRateLimiter limit window).run (calls ++ [(key, now)])).2.stored key).toList,
      now - window ≤ x ∧ x ≤ now) ∧
    (∀ x ∈ (((((NewRateLimiter limit window).run calls).2).cleaned now key).stored key).toList,
      now - window < x) ∧
    ((((NewRateLimiter limit window).run calls).2).Allow now key).1 =
      decide ((((((NewRateLimiter limit window).run calls).2).cleaned now key).stored key).len
        < ((NewRateLimiter limit window).run calls).2.limit) := by
  have hwin : ((NewRateLimiter limit window).run calls).2.window = window :=
    (RateLimiter.run_limit calls (NewRateLimiter limit window)).2
  have hcut : now + negDuration window = now - window := by
    rw [negDuration_of_nonneg window hwindow]
    ring
  have hbefore : ∀ k, ∀ x ∈ (((NewRateLimiter limit window).run calls).2.stored k).toList,
      x ≤ now := by
    cases hc : calls with
    | nil =>
      intro k x hx
      simp [RateLimiter.run, RateLimiter.stored, NewRateLimiter, GoMap.lookup, GoMap.empty,
        GoMap.lookupIn] at hx
    | cons call rest =>
      rw [← hc]
      have hcl : List.Pairwise (fun a b => a ≤ b)
          (call.2 :: rest.map (fun call => call.2) ++ [now]) := by
        rw [hc] at hclock
        simpa using hclock
      have hfirst : call.2 ≤ call.2 := le_refl _
      have := RateLimiter.run_stored_le calls (NewRateLimiter limit window) call.2 now
        (by
          intro k x hx
          simp [RateLimiter.stored, NewRateLimiter, GoMap.lookup, GoMap.empty,
            GoMap.lookupIn] at hx)
        (by
          rw [hc]
          simp only [List.map_cons, List.cons_append]
          exact List.pairwise_cons.mpr
            ⟨fun y hy => by
              rcases List.mem_cons.mp hy with hy | hy
              · exact le_of_eq hy.symm
              · exact (List.pairwise_cons.mp hcl).1 y hy, hcl⟩)
      exact this
  refine ⟨?_, ?_, ?_⟩
  · intro x hx
    rw [RateLimiter.run_append, RateLimiter.run_singleton] at hx
    simp only [] at hx
    rw [RateLimiter.allow_stored, hwin, hcut] at hx
    have hold : ∀ y ∈ (((NewRateLimiter limit window).run calls).2.stored key).toList.filter
        (fun req => decide (req > now - window)), now - window ≤ y ∧ y ≤ now := by
      intro y hy
      have h1 := hbefore key y (List.mem_filter.mp hy).1
      have h2 := of_decide_eq_true (List.mem_filter.mp hy).2
      exact ⟨le_of_lt h2, h1⟩
    split at hx
    · rcases List.mem_append.mp hx with hx | hx
      · exact hold x hx
      · have := List.mem_singleton.mp hx
        subst this
        constructor
        · linarith
        · exact le_refl _
    · exact hold x hx
  · intro x hx
    rw [RateLimiter.cleaned_stored, hwin, hcut] at hx
    exact of_decide_eq_true (List.mem_filter.mp hx).2
  · unfold RateLimiter.Allow
    simp only [(RateLimiter.cleaned_limit _ now key).1]
    split <;> simp_all

/-- C11, amended, with limit 2 and window 10 and calls for two keys at 0, 3, 4 and 12. -/
theorem C11_window_invariant_witness :
    (∀ x ∈ (((NewRateLimiter 2 10).run
        ([("a".toList, 0), ("b".toList, 3), ("a".toList, 4)] ++ [("a".toList, 12)])).2.stored
          "a".toList).toList,
      12 - 10 ≤ x ∧ x ≤ 12) ∧
    (∀ x ∈ (((((NewRateLimiter 2 10).run
        [("a".toList, 0), ("b".toList, 3), ("a".toList, 4)]).2).cleaned 12
          "a".toList).stored "a".toList).toList,
      12 - 10 < x) ∧
    ((((NewRateLimiter 2 10).run
        [("a".toList, 0), ("b".toList, 3), ("a".toList, 4)]).2).Allow 12 "a".toList).1 =
      decide ((((((NewRateLimiter 2 10).run
          [("a".toList, 0), ("b".toList, 3), ("a".toList, 4)]).2).cleaned 12
            "a".toList).stored "a".toList).len
        < ((NewRateLimiter 2 10).run
          [("a".toList, 0), ("b".toList, 3), ("a".toList, 4)]).2.limit) :=
  C11_window_invariant 2 10 (by decide)
    [("a".toList, 0), ("b".toList, 3), ("a".toList, 4)] "a".toList 12 (by decide)

/-- C11, as stated, fails for a negative window: on a fresh limiter with limit 1 and
window -1 the call at instant 0 stores the timestamp 0, which does not lie within
`[0 - (-1), 0]`. -/
theorem C11_counterexample :
    ¬ (∀ x ∈ (((NewRateLimiter 1 (-1)).run [("ip".toList, 0)]).2.stored "ip".toList).toList,
      0 - (-1) ≤ x ∧ x ≤ 0) := by
  decide

end city

namespace city

/-- A call of `Allow` keeps the number of timestamps stored for each key within the
limit. -/
theorem RateLimiter.allow_count (rl : RateLimiter) (now : Time) (key : GoString)
    (h : ∀ k, ((rl.stored k).toList.length : Int) ≤ max rl.limit 0) :
    ∀ k, (((rl.Allow now key).2.stored k).toList.length : Int)
      ≤ max (rl.Allow now key).2.limit 0 := by
  intro k
  rw [(RateLimiter.allow_limit rl now key).1]
  by_cases hk : k = key
  · subst hk
    rw [RateLimiter.allow_stored]
    have hlen := List.length_filter_le (fun req => decide (req > now + negDuration rl.window))
      (rl.stored k).toList
    have hk := h k
    split
    · rename_i hadmit
      rw [RateLimiter.allow_fst, decide_eq_true_iff] at hadmit
      simp only [List.length_append, List.length_singleton]
      push_cast
      have := le_max_left rl.limit 0
      omega
    · have : (((rl.stored k).toList.filter
          (fun req => decide (req > now + negDuration rl.window))).length : Int)
          ≤ ((rl.stored k).toList.length : Int) := by exact_mod_cast hlen
      omega
  · rw [RateLimiter.allow_stored_other rl now key k hk]
    exact h k

/-- In every state reachable from a fresh limiter each key holds at most `limit`
timestamps. -/
theorem RateLimiter.run_count (calls : List (GoString × Time)) :
    ∀ rl : RateLimiter, (∀ k, ((rl.stored k).toList.length : Int) ≤ max rl.limit 0) →
      ∀ k, (((rl.run calls).2.stored k).toList.length : Int)
        ≤ max (rl.run calls).2.limit 0 := by
  induction calls with
  | nil => intro rl h; exact h
  | cons call rest ih =>
    intro rl h
    exact ih (rl.Allow call.2 call.1).2 (RateLimiter.allow_count rl call.2 call.1 h)

/-- C12. In every state reachable from a freshly constructed limiter by calls of `Allow`,
a call of `Allow` that returns false leaves the timestamps stored for every key, the key
asked about included, as they were before the call. -/
theorem C12_rejected_call_changes_nothing (limit : Int) (window : Duration)
    (calls : List (GoString × Time)) (now : Time) (key : GoString)
    (hreject : ((((NewRateLimiter limit window).run calls).2).Allow now key).1 = false) :
    ∀ k, ((((NewRateLimiter limit window).run calls).2.Allow now key).2.stored k).toList
      = (((NewRateLimiter limit window).run calls).2.stored k).toList := by
  intro k
  have hcount := RateLimiter.run_count calls (NewRateLimiter limit window)
    (by
      intro k
      simp [RateLimiter.stored, NewRateLimiter, GoMap.lookup, GoMap.empty, GoMap.lookupIn])
    key
  by_cases hk : k = key
  · subst hk
    rw [RateLimiter.allow_stored, if_neg (by simp [hreject])]
    rw [RateLimiter.allow_fst, decide_eq_false_iff_not] at hreject
    have hsub : ((((NewRateLimiter limit window).run calls).2.stored k).toList.filter
        (fun req =>
          decide (req > now
            + negDuration ((NewRateLimiter limit window).run calls).2.window))).Sublist
        (((NewRateLimiter limit window).run calls).2.stored k).toList :=
      List.filter_sublist _
    apply hsub.eq_of_length_le
    have hlen := hsub.length_le
    rcases le_or_lt ((NewRateLimiter limit window).run calls).2.limit 0 with hl | hl
    · rw [max_eq_right hl] at hcount
      omega
    · rw [max_eq_left (le_of_lt hl)] at hcount
      omega
  · rw [RateLimiter.allow_stored_other _ now key k hk]

/-- C12, with limit 1 and window 10: after a call at 0 the call at 5 is rejected, and
the timestamps of the key asked about and of another key are as before. -/
theorem C12_rejected_call_changes_nothing_witness :
    (((NewRateLimiter 1 10).run [("ip".toList, 0)]).2.Allow 5 "ip".toList).1 = false ∧
    ((((NewRateLimiter 1 10).run [("ip".toList, 0)]).2.Allow 5 "ip".toList).2.stored
        "ip".toList).toList
      = (((NewRateLimiter 1 10).run [("ip".toList, 0)]).2.stored "ip".toList).toList ∧
    ((((NewRateLimiter 1 10).run [("ip".toList, 0)]).2.Allow 5 "ip".toList).2.stored
        "other".toList).toList
      = (((NewRateLimiter 1 10).run [("ip".toList, 0)]).2.stored "other".toList).toList :=
  ⟨by decide,
    C12_rejected_call_changes_nothing 1 10 [("ip".toList, 0)] 5 "ip".toList (by decide)
      "ip".toList,
    C12_rejected_call_changes_nothing 1 10 [("ip".toList, 0)] 5 "ip".toList (by decide)
      "other".toList⟩

end city

namespace city

/-- The answers to the calls for one key depend on the timestamps stored for that key,
the limit and the window only: a run with calls for other keys interleaved answers them
as a run without. -/
theorem RateLimiter.run_answersFor (key : GoString) (calls : List (GoString × Time)) :
    ∀ rl alone : RateLimiter,
      (rl.stored key).toList = (alone.stored key).toList →
      rl.limit = alone.limit → rl.window = alone.window →
      answersFor key calls (rl.run calls).1 = (alone.allowAll key (callsFor key calls)).1 := by
  induction calls with
  | nil =>
    intro rl alone _ _ _
    rfl
  | cons call rest ih =>
    intro rl alone hst hlim hwin
    by_cases hk : call.1 = key
    · have hfst : (rl.Allow call.2 call.1).1 = (alone.Allow call.2 key).1 := by
        rw [hk, RateLimiter.allow_fst, RateLimiter.allow_fst, hst, hlim, hwin]
      have hst2 : ((rl.Allow call.2 call.1).2.stored key).toList
          = ((alone.Allow call.2 key).2.stored key).toList := by
        rw [hk, RateLimiter.allow_stored, RateLimiter.allow_stored]
        rw [hk] at hfst
        rw [hfst, hst, hwin]
      have hlim2 : (rl.Allow call.2 call.1).2.limit = (alone.Allow call.2 key).2.limit := by
        rw [(RateLimiter.allow_limit rl call.2 call.1).1,
          (RateLimiter.allow_limit alone call.2 key).1, hlim]
      have hwin2 : (rl.Allow call.2 call.1).2.window = (alone.Allow call.2 key).2.window := by
        rw [(RateLimiter.allow_limit rl call.2 call.1).2,
          (RateLimiter.allow_limit alone call.2 key).2, hwin]
      have := ih (rl.Allow call.2 call.1).2 (alone.Allow call.2 key).2 hst2 hlim2 hwin2
      simp only [answersFor, callsFor, RateLimiter.run, List.zip_cons_cons, List.filter_cons,
        hk, decide_True, if_true, List.map_cons, RateLimiter.allowAll] at this ⊢
      rw [this, ← hk, hfst, hk]
    · have hst2 : ((rl.Allow call.2 call.1).2.stored key).toList
          = (alone.stored key).toList := by
        rw [RateLimiter.allow_stored_other rl call.2 call.1 key (fun h => hk h.symm), hst]
      have hlim2 : (rl.Allow call.2 call.1).2.limit = alone.limit := by
        rw [(RateLimiter.allow_limit rl call.2 call.1).1, hlim]
      have hwin2 : (rl.Allow call.2 call.1).2.window = alone.window := by
        rw [(RateLimiter.allow_limit rl call.2 call.1).2, hwin]
      have := ih (rl.Allow call.2 call.1).2 alone hst2 hlim2 hwin2
      simp only [answersFor, callsFor, RateLimiter.run, List.zip_cons_cons, List.filter_cons,
        hk, decide_False, Bool.false_eq_true, if_false] at this ⊢
      exact this

/-- C13. For distinct keys `k1` and `k2`, `Allow(k1)` leaves the timestamps stored for
`k2` unchanged; and in every run of calls, the answers given to the calls for `k2` are
those of the run made of the calls for `k2` alone, whatever calls for other keys are
interleaved with them. -/
theorem C13_keys_are_independent (rl : RateLimiter) (k1 k2 : GoString) (hne : k1 ≠ k2) :
    (∀ now : Time, (rl.Allow now k1).2.stored k2 = rl.stored k2) ∧
    (∀ calls : List (GoString × Time),
      answersFor k2 calls (rl.run calls).1 = (rl.allowAll k2 (callsFor k2 calls)).1) := by
  constructor
  · intro now
    exact RateLimiter.allow_stored_other rl now k1 k2 (fun h => hne h.symm)
  · intro calls
    exact RateLimiter.run_answersFor k2 calls rl rl rfl rfl rfl

/-- C13, with limit 1 and window 10: the calls for `"b"` at 1 and 4 get the answers true
and false with or without the calls for `"a"` at 0, 2 and 5. -/
theorem C13_keys_are_independent_witness :
    (∀ now : Time, ((NewRateLimiter 1 10).Allow now "a".toList).2.stored "b".toList
        = (NewRateLimiter 1 10).stored "b".toList) ∧
    answersFor "b".toList
        [("a".toList, 0), ("b".toList, 1), ("a".toList, 2), ("b".toList, 4), ("a".toList, 5)]
        ((NewRateLimiter 1 10).run
          [("a".toList, 0), ("b".toList, 1), ("a".toList, 2), ("b".toList, 4),
            ("a".toList, 5)]).1
      = [true, false] ∧
    ((NewRateLimiter 1 10).allowAll "b".toList [1, 4]).1 = [true, false] :=
  ⟨(C13_keys_are_independent (NewRateLimiter 1 10) "a".toList "b".toList (by decide)).1,
    by decide, by decide⟩

end city

/-! ### The resource manager -/

namespace city

/-- What `Allocate` does, in one expression: the sum is the 64-bit sum. -/
theorem ResourceManager.allocate_eq (rm : ResourceManager) (memoryMB : Int) :
    rm.Allocate memoryMB =
      if wrapInt64 (rm.currentMB + memoryMB) ≤ rm.maxMemoryMB
          ∧ rm.activeSearch < rm.maxSearches then
        (true, { rm with currentMB := wrapInt64 (rm.currentMB + memoryMB),
                         activeSearch := wrapInt64 (rm.activeSearch + 1) })
      else (false, rm) := by
  unfold ResourceManager.Allocate
  by_cases h1 : wrapInt64 (rm.currentMB + memoryMB) ≤ rm.maxMemoryMB
  · by_cases h2 : rm.activeSearch < rm.maxSearches
    · have h1' : ¬ wrapInt64 (rm.currentMB + memoryMB) > rm.maxMemoryMB := not_lt.mpr h1
      have h2' : ¬ rm.activeSearch ≥ rm.maxSearches := not_le.mpr h2
      simp [h1, h2, h1', h2']
    · have h2' : rm.activeSearch ≥ rm.maxSearches := not_lt.mp h2
      simp [h2, h2']
  · have h1' : wrapInt64 (rm.currentMB + memoryMB) > rm.maxMemoryMB := not_le.mp h1
    simp [h1, h1']

/-- What `Allocate` does when neither of its additions overflows. -/
theorem ResourceManager.allocate_exact (rm : ResourceManager) (memoryMB : Int)
    (hlow : minInt64 ≤ rm.currentMB + memoryMB) (hhigh : rm.currentMB + memoryMB ≤ maxInt64)
    (hactive : minInt64 ≤ rm.activeSearch + 1) (hsearches : rm.maxSearches ≤ maxInt64) :
    rm.Allocate memoryMB =
      if rm.currentMB + memoryMB ≤ rm.maxMemoryMB ∧ rm.activeSearch < rm.maxSearches then
        (true, { rm with currentMB := rm.currentMB + memoryMB,
                         activeSearch := rm.activeSearch + 1 })
      else (false, rm) := by
  rw [ResourceManager.allocate_eq, wrapInt64_of_range _ hlow hhigh]
  by_cases h : rm.currentMB + memoryMB ≤ rm.maxMemoryMB ∧ rm.activeSearch < rm.maxSearches
  · rw [if_pos h, if_pos h, wrapInt64_of_range _ hactive (by have := h.2; omega)]
  · rw [if_neg h, if_neg h]

/-- What `Release` does to the two counters: the differences are the 64-bit ones. -/
theorem ResourceManager.release_eq (rm : ResourceManager) (memoryMB : Int) :
    (rm.Release memoryMB).currentMB
        = (if rm.currentMB ≥ memoryMB then wrapInt64 (rm.currentMB - memoryMB)
           else rm.currentMB) ∧
    (rm.Release memoryMB).activeSearch
        = (if rm.activeSearch > 0 then wrapInt64 (rm.activeSearch - 1)
           else rm.activeSearch) ∧
    (rm.Release memoryMB).maxMemoryMB = rm.maxMemoryMB ∧
    (rm.Release memoryMB).maxSearches = rm.maxSearches := by
  unfold ResourceManager.Release
  by_cases h1 : rm.currentMB ≥ memoryMB <;> by_cases h2 : rm.activeSearch > 0 <;>
    simp [h1, h2]

/-- What `Release` does to the two counters when its subtractions do not overflow. -/
theorem ResourceManager.release_exact (rm : ResourceManager) (memoryMB : Int)
    (hfit : rm.currentMB - memoryMB ≤ maxInt64) (hactive : rm.activeSearch ≤ maxInt64 + 1) :
    (rm.Release memoryMB).currentMB
        = (if rm.currentMB ≥ memoryMB then rm.currentMB - memoryMB else rm.currentMB) ∧
    (rm.Release memoryMB).activeSearch
        = (if rm.activeSearch > 0 then rm.activeSearch - 1 else rm.activeSearch) ∧
    (rm.Release memoryMB).maxMemoryMB = rm.maxMemoryMB ∧
    (rm.Release memoryMB).maxSearches = rm.maxSearches := by
  obtain ⟨e1, e2, e3, e4⟩ := ResourceManager.release_eq rm memoryMB
  refine ⟨?_, ?_, e3, e4⟩
  · rw [e1]
    by_cases h : rm.currentMB ≥ memoryMB
    · rw [if_pos h, if_pos h]
      exact wrapInt64_of_range _ (by unfold minInt64; omega) hfit
    · rw [if_neg h, if_neg h]
  · rw [e2]
    by_cases h : rm.activeSearch > 0
    · rw [if_pos h, if_pos h]
      exact wrapInt64_of_range _ (by unfold minInt64; omega) (by omega)
    · rw [if_neg h, if_neg h]

/-- C14, amended. `Allocate(m)` returns true if and only if the 64-bit sum of `currentMB`
and `m` is at most `maxMemoryMB` and `activeSearch < maxSearches`; when it returns true
it sets `currentMB` to that sum, adds 1 to `activeSearch` and changes nothing else, and
when it returns false it leaves the manager unchanged. Whenever `currentMB + m` lies in
the range of `int` (with `activeSearch` and `maxSearches` in that range), the 64-bit sum
is `currentMB + m`: `Allocate(m)` returns true if and only if
`currentMB + m <= maxMemoryMB` and `activeSearch < maxSearches`, and then adds `m` to
`currentMB` and 1 to `activeSearch`. -/
theorem C14_allocate (rm : ResourceManager) (m : Int) :
    ((rm.Allocate m).1 = true ↔
      wrapInt64 (rm.currentMB + m) ≤ rm.maxMemoryMB ∧ rm.activeSearch < rm.maxSearches) ∧
    ((rm.Allocate m).1 = true →
      (rm.Allocate m).2 =
        { maxMemoryMB := rm.maxMemoryMB, currentMB := wrapInt64 (rm.currentMB + m),
          activeSearch := wrapInt64 (rm.activeSearch + 1),
          maxSearches := rm.maxSearches }) ∧
    ((rm.Allocate m).1 = false → (rm.Allocate m).2 = rm) ∧
    (minInt64 ≤ rm.currentMB + m → rm.currentMB + m ≤ maxInt64 →
      minInt64 ≤ rm.activeSearch + 1 → rm.maxSearches ≤ maxInt64 →
      ((rm.Allocate m).1 = true ↔
        rm.currentMB + m ≤ rm.maxMemoryMB ∧ rm.activeSearch < rm.maxSearches) ∧
      ((rm.Allocate m).1 = true →
        (rm.Allocate m).2 =
          { maxMemoryMB := rm.maxMemoryMB, currentMB := rm.currentMB + m,
            activeSearch := rm.activeSearch + 1, maxSearches := rm.maxSearches })) := by
  refine ⟨?_, ?_, ?_, ?_⟩
  · rw [ResourceManager.allocate_eq]
    by_cases h : wrapInt64 (rm.currentMB + m) ≤ rm.maxMemoryMB
        ∧ rm.activeSearch < rm.maxSearches
    · simp [h]
    · simp [h]
  · rw [ResourceManager.allocate_eq]
    by_cases h : wrapInt64 (rm.currentMB + m) ≤ rm.maxMemoryMB
        ∧ rm.activeSearch < rm.maxSearches
    · simp [h]
    · simp [h]
  · rw [ResourceManager.allocate_eq]
    by_cases h : wrapInt64 (rm.currentMB + m) ≤ rm.maxMemoryMB
        ∧ rm.activeSearch < rm.maxSearches
    · simp [h]
    · simp [h]
  · intro hlow hhigh hactive hsearches
    rw [ResourceManager.allocate_exact rm m hlow hhigh hactive hsearches]
    by_cases h : rm.currentMB + m ≤ rm.maxMemoryMB ∧ rm.activeSearch < rm.maxSearches
    · simp [h]
    · simp [h]

/-- C14, amended, on a manager with 1000 MB and 2 searches holding 400 MB and 1 search:
`Allocate(600)` succeeds and `Allocate(601)` fails. -/
theorem C14_allocate_witness :
    ((ResourceManager.Allocate
        { maxMemoryMB := 1000, currentMB := 400, activeSearch := 1, maxSearches := 2 } 600).1
        = true ∧
      (ResourceManager.Allocate
        { maxMemoryMB := 1000, currentMB := 400, activeSearch := 1, maxSearches := 2 } 600).2
        = { maxMemoryMB := 1000, currentMB := 400 + 600, activeSearch := 1 + 1,
            maxSearches := 2 }) ∧
    ((ResourceManager.Allocate
        { maxMemoryMB := 1000, currentMB := 400, activeSearch := 1, maxSearches := 2 } 601).1
        = false ∧
      (ResourceManager.Allocate
        { maxMemoryMB := 1000, currentMB := 400, activeSearch := 1, maxSearches := 2 } 601).2
        = { maxMemoryMB := 1000, currentMB := 400, activeSearch := 1, maxSearches := 2 }) :=
  ⟨⟨by decide,
      ((C14_allocate
        { maxMemoryMB := 1000, currentMB := 400, activeSearch := 1, maxSearches := 2 }
        600).2.2.2 (by decide) (by decide) (by decide) (by decide)).2 (by decide)⟩,
    ⟨by decide,
      (C14_allocate
        { maxMemoryMB := 1000, currentMB := 400, activeSearch := 1, maxSearches := 2 }
        601).2.2.1 (by decide)⟩⟩

/-- C14, as stated, fails when the sum overflows: on a manager with 500 MB holding 1 MB,
`Allocate(2^63 - 1)` returns true and leaves `currentMB` at `-2^63`, although
`currentMB + m` exceeds `maxMemoryMB`. -/
theorem C14_counterexample :
    (ResourceManager.Allocate
        { maxMemoryMB := 500, currentMB := 1, activeSearch := 1, maxSearches := 50 }
        maxInt64).1 = true ∧
    ¬ ((1 : Int) + maxInt64 ≤ 500 ∧ (1 : Int) < 50) ∧
    (ResourceManager.Allocate
        { maxMemoryMB := 500, currentMB := 1, activeSearch := 1, maxSearches := 50 }
        maxInt64).2.currentMB = minInt64 ∧
    (ResourceManager.Allocate
        { maxMemoryMB := 500, currentMB := 1, activeSearch := 1, maxSearches := 50 }
        maxInt64).2.currentMB ≠ 1 + maxInt64 := by
  decide

/-- One call with a non-negative amount that cannot make the sum overflow keeps both
counters within their bounds. -/
theorem ResourceManager.call_bounds (rm : ResourceManager) (c : ResourceCall)
    (hamount : 0 ≤ c.amount ∧ c.amount ≤ maxInt64 - rm.maxMemoryMB)
    (hsearches : rm.maxSearches ≤ maxInt64)
    (h : 0 ≤ rm.currentMB ∧ rm.currentMB ≤ rm.maxMemoryMB ∧
      0 ≤ rm.activeSearch ∧ rm.activeSearch ≤ rm.maxSearches) :
    (0 ≤ (rm.call c).currentMB ∧ (rm.call c).currentMB ≤ (rm.call c).maxMemoryMB ∧
      0 ≤ (rm.call c).activeSearch ∧ (rm.call c).activeSearch ≤ (rm.call c).maxSearches) ∧
    (rm.call c).maxMemoryMB = rm.maxMemoryMB ∧ (rm.call c).maxSearches = rm.maxSearches := by
  obtain ⟨h1, h2, h3, h4⟩ := h
  cases c with
  | allocate m =>
    simp only [ResourceCall.amount] at hamount
    simp only [ResourceManager.call]
    rw [ResourceManager.allocate_exact rm m (by unfold minInt64; omega) (by omega)
      (by unfold minInt64; omega) hsearches]
    by_cases hc : rm.currentMB + m ≤ rm.maxMemoryMB ∧ rm.activeSearch < rm.maxSearches
    · rw [if_pos hc]
      refine ⟨⟨?_, hc.1, ?_, ?_⟩, rfl, rfl⟩
      · show 0 ≤ rm.currentMB + m
        omega
      · show 0 ≤ rm.activeSearch + 1
        omega
      · show rm.activeSearch + 1 ≤ rm.maxSearches
        omega
    · rw [if_neg hc]
      exact ⟨⟨h1, h2, h3, h4⟩, rfl, rfl⟩
  | release m =>
    simp only [ResourceCall.amount] at hamount
    obtain ⟨e1, e2, e3, e4⟩ := ResourceManager.release_exact rm m (by omega) (by omega)
    simp only [ResourceManager.call]
    rw [e1, e2, e3, e4]
    refine ⟨⟨?_, ?_, ?_, ?_⟩, rfl, rfl⟩
    · split <;> omega
    · split <;> omega
    · split <;> omega
    · split <;> omega

/-- C15, amended. For a `ResourceManager` constructed with non-negative maxima, after
every sequence of `Allocate` and `Release` calls with non-negative amounts none of which
exceeds `MaxInt64 - maxMemoryMB`, so that no sum overflows,
`0 <= currentMB <= maxMemoryMB` and `0 <= activeSearch <= maxSearches`. -/
theorem C15_counters_within_bounds (maxMemoryMB maxSearches : Int)
    (hmem : 0 ≤ maxMemoryMB) (hsearch : 0 ≤ maxSearches)
    (hsearchInt : maxSearches ≤ maxInt64) (history : List ResourceCall)
    (hamounts : ∀ c ∈ history, 0 ≤ c.amount ∧ c.amount ≤ maxInt64 - maxMemoryMB) :
    0 ≤ ((NewResourceManager maxMemoryMB maxSearches).calls history).currentMB ∧
    ((NewResourceManager maxMemoryMB maxSearches).calls history).currentMB ≤ maxMemoryMB ∧
    0 ≤ ((NewResourceManager maxMemoryMB maxSearches).calls history).activeSearch ∧
    ((NewResourceManager maxMemoryMB maxSearches).calls history).activeSearch
      ≤ maxSearches := by
  have key : ∀ (history : List ResourceCall) (rm : ResourceManager),
      (∀ c ∈ history, 0 ≤ c.amount ∧ c.amount ≤ maxInt64 - rm.maxMemoryMB) →
      rm.maxSearches ≤ maxInt64 →
      (0 ≤ rm.currentMB ∧ rm.currentMB ≤ rm.maxMemoryMB ∧
        0 ≤ rm.activeSearch ∧ rm.activeSearch ≤ rm.maxSearches) →
      (0 ≤ (rm.calls history).currentMB ∧ (rm.calls history).currentMB ≤ rm.maxMemoryMB ∧
        0 ≤ (rm.calls history).activeSearch ∧
        (rm.calls history).activeSearch ≤ rm.maxSearches) := by
    intro history
    induction history with
    | nil => intro rm _ _ h; exact h
    | cons c rest ih =>
      intro rm hamounts hS h
      obtain ⟨hb, hm, hs⟩ := ResourceManager.call_bounds rm c
        (hamounts c (List.mem_cons_self c rest)) hS h
      have := ih (rm.call c)
        (fun d hd => by rw [hm]; exact hamounts d (List.mem_cons_of_mem c hd))
        (by rw [hs]; exact hS) hb
      rw [hm, hs] at this
      exact this
  exact key history (NewResourceManager maxMemoryMB maxSearches) hamounts hsearchInt
    ⟨le_refl 0, hmem, le_refl 0, hsearch⟩

/-- C15, amended, on a manager with 500 MB and 2 searches and a history of five calls. -/
theorem C15_counters_within_bounds_witness :
    0 ≤ ((NewResourceManager 500 2).calls
      [.allocate 300, .allocate 300, .release 400, .allocate 200, .release 0]).currentMB ∧
    ((NewResourceManager 500 2).calls
      [.allocate 300, .allocate 300, .release 400, .allocate 200, .release 0]).currentMB
        ≤ 500 ∧
    0 ≤ ((NewResourceManager 500 2).calls
      [.allocate 300, .allocate 300, .release 400, .allocate 200, .release 0]).activeSearch ∧
    ((NewResourceManager 500 2).calls
      [.allocate 300, .allocate 300, .release 400, .allocate 200, .release 0]).activeSearch
        ≤ 2 :=
  C15_counters_within_bounds 500 2 (by decide) (by decide) (by decide)
    [.allocate 300, .allocate 300, .release 400, .allocate 200, .release 0] (by decide)

/-- C15, as stated, fails when a sum overflows: on a fresh manager with the maxima 500
and 50, after `Allocate(1)` the call `Allocate(2^63 - 1)`, whose amount is not negative,
succeeds and leaves `currentMB` at `-2^63`, below zero. -/
theorem C15_counterexample :
    (∀ c ∈ [ResourceCall.allocate 1, ResourceCall.allocate maxInt64], 0 ≤ c.amount) ∧
    ((NewResourceManager 500 50).calls
      [.allocate 1, .allocate maxInt64]).currentMB = minInt64 ∧
    ¬ (0 ≤ ((NewResourceManager 500 50).calls
      [.allocate 1, .allocate maxInt64]).currentMB) := by
  decide

end city

namespace city

/-- C16, amended. `Release(m)` lowers `currentMB` by `m` when `m <= currentMB`, the
difference being the 64-bit one, and leaves `currentMB` unchanged otherwise. Whenever
`currentMB - m` does not exceed the greatest `int`, as for every `m >= 0`, the difference
is `currentMB - m`: a non-negative `currentMB` never drops below zero, the result is
`max(0, old currentMB - m)` whenever `m <= old currentMB`, and releasing more than is
currently allocated leaves `currentMB` as it was. -/
theorem C16_release (rm : ResourceManager) (m : Int) :
    (rm.Release m).currentMB
      = (if m ≤ rm.currentMB then wrapInt64 (rm.currentMB - m) else rm.currentMB) ∧
    (rm.currentMB < m → (rm.Release m).currentMB = rm.currentMB) ∧
    (rm.currentMB - m ≤ maxInt64 →
      (rm.Release m).currentMB
        = (if m ≤ rm.currentMB then rm.currentMB - m else rm.currentMB) ∧
      (0 ≤ rm.currentMB → 0 ≤ (rm.Release m).currentMB) ∧
      (m ≤ rm.currentMB → (rm.Release m).currentMB = max 0 (rm.currentMB - m))) := by
  have h := (ResourceManager.release_eq rm m).1
  refine ⟨h, ?_, ?_⟩
  · intro hlt
    rw [h, if_neg (by omega)]
  · intro hfit
    have hx : (rm.Release m).currentMB
        = (if m ≤ rm.currentMB then rm.currentMB - m else rm.currentMB) := by
      rw [h]
      by_cases hle : m ≤ rm.currentMB
      · rw [if_pos hle, if_pos hle]
        exact wrapInt64_of_range _ (by unfold minInt64; omega) hfit
      · rw [if_neg hle, if_neg hle]
    refine ⟨hx, ?_, ?_⟩
    · intro h0
      rw [hx]
      split <;> omega
    · intro hle
      rw [hx, if_pos hle]
      have : (0 : Int) ≤ rm.currentMB - m := by omega
      exact (max_eq_right this).symm

/-- C16, amended, on a manager holding 5 MB: `Release(3)` leaves 2 MB and `Release(10)`
leaves 5 MB. -/
theorem C16_release_witness :
    (ResourceManager.Release
        { maxMemoryMB := 500, currentMB := 5, activeSearch := 1, maxSearches := 50 }
        3).currentMB = max 0 (5 - 3) ∧
    (ResourceManager.Release
        { maxMemoryMB := 500, currentMB := 5, activeSearch := 1, maxSearches := 50 }
        10).currentMB = 5 :=
  ⟨((C16_release
      { maxMemoryMB := 500, currentMB := 5, activeSearch := 1, maxSearches := 50 }
      3).2.2 (by decide)).2.2 (by decide),
    (C16_release
      { maxMemoryMB := 500, currentMB := 5, activeSearch := 1, maxSearches := 50 }
      10).2.1 (by decide)⟩

/-- C16, as stated, fails: after `Allocate(5)` on a fresh manager, `Release(10)` leaves
`currentMB` at 5, whereas `max(0, 5 - 10)` is 0. -/
theorem C16_counterexample :
    (((NewResourceManager 500 50).Allocate 5).2.Release 10).currentMB = 5 ∧
    (((NewResourceManager 500 50).Allocate 5).2.Release 10).currentMB
      ≠ max 0 (((NewResourceManager 500 50).Allocate 5).2.currentMB - 10) := by
  decide

/-- The manager after `Allocate`, by its answer, when neither addition overflows. -/
theorem ResourceManager.allocate_state (rm : ResourceManager) (m : Int)
    (hlow : minInt64 ≤ rm.currentMB + m) (hhigh : rm.currentMB + m ≤ maxInt64)
    (hactive : minInt64 ≤ rm.activeSearch + 1) (hsearches : rm.maxSearches ≤ maxInt64) :
    ((rm.Allocate m).1 = true →
      (rm.currentMB + m ≤ rm.maxMemoryMB ∧ rm.activeSearch < rm.maxSearches) ∧
      (rm.Allocate m).2 =
        { maxMemoryMB := rm.maxMemoryMB, currentMB := rm.currentMB + m,
          activeSearch := rm.activeSearch + 1, maxSearches := rm.maxSearches }) ∧
    ((rm.Allocate m).1 = false → (rm.Allocate m).2 = rm) := by
  rw [ResourceManager.allocate_exact rm m hlow hhigh hactive hsearches]
  by_cases h : rm.currentMB + m ≤ rm.maxMemoryMB ∧ rm.activeSearch < rm.maxSearches
  · simp [h]
  · simp [h]

/-- The amounts still to be released add up to at least each of them. -/
theorem le_sum_of_mem (pending : List Int) (hpending : ∀ x ∈ pending, 0 ≤ x) (m : Int)
    (hm : m ∈ pending) : m ≤ pending.sum ∧ 0 ≤ (pending.erase m).sum ∧
      m + (pending.erase m).sum = pending.sum := by
  induction pending with
  | nil => simp at hm
  | cons a rest ih =>
    have ha : 0 ≤ a := hpending a (List.mem_cons_self a rest)
    have hrest : ∀ x ∈ rest, 0 ≤ x := fun x hx => hpending x (List.mem_cons_of_mem a hx)
    have hsum : 0 ≤ rest.sum := List.sum_nonneg hrest
    by_cases hma : a = m
    · subst hma
      rw [List.erase_cons_head, List.sum_cons]
      exact ⟨by omega, hsum, rfl⟩
    · have hmr : m ∈ rest := by
        rcases List.mem_cons.mp hm with h | h
        · exact absurd h.symm hma
        · exact h
      obtain ⟨h1, h2, h3⟩ := ih hrest hmr
      have hbeq : (a == m) = false := by simpa using hma
      simp only [List.erase_cons, hbeq, Bool.false_eq_true, if_false, List.sum_cons]
      omega

/-- A history in which every release answers a pending allocation takes the pending
amounts and searches off the counters, as long as no amount can make a sum overflow:
`bound` is a value that `currentMB` and `maxMemoryMB` do not exceed. -/
theorem ResourceManager.calls_answered (history : List ResourceCall) :
    ∀ (rm : ResourceManager) (pending : List Int) (bound : Int),
      (∀ x ∈ pending, 0 ≤ x) →
      pending.sum ≤ rm.currentMB → (pending.length : Int) ≤ rm.activeSearch →
      rm.currentMB ≤ bound → rm.maxMemoryMB ≤ bound → bound ≤ maxInt64 →
      rm.activeSearch ≤ maxInt64 → rm.maxSearches ≤ maxInt64 →
      (∀ c ∈ history, bound + c.amount ≤ maxInt64) →
      rm.answered pending history = true →
      (rm.calls history).currentMB = rm.currentMB - pending.sum ∧
      (rm.calls history).activeSearch = rm.activeSearch - pending.length ∧
      (rm.calls history).maxMemoryMB = rm.maxMemoryMB ∧
      (rm.calls history).maxSearches = rm.maxSearches := by
  induction history with
  | nil =>
    intro rm pending bound _ _ _ _ _ _ _ _ _ hans
    have : pending = [] := by simpa [ResourceManager.answered] using hans
    subst this
    simp [ResourceManager.calls]
  | cons c rest ih =>
    intro rm pending bound hpending hsum hlen hcur hmem hbound hact hsearches hfit hans
    have hsum0 : 0 ≤ pending.sum := List.sum_nonneg hpending
    have hrestfit : ∀ d ∈ rest, bound + d.amount ≤ maxInt64 :=
      fun d hd => hfit d (List.mem_cons_of_mem c hd)
    cases c with
    | allocate m =>
      have hm := hfit (.allocate m) (List.mem_cons_self _ rest)
      simp only [ResourceCall.amount] at hm
      simp only [ResourceManager.answered] at hans
      simp only [ResourceManager.calls, ResourceManager.call]
      by_cases hok : (rm.Allocate m).1 = true
      · rw [if_pos hok, Bool.and_eq_true, decide_eq_true_iff] at hans
        obtain ⟨hcond, hstate⟩ := (ResourceManager.allocate_state rm m
          (by unfold minInt64; omega) (by omega) (by unfold minInt64; omega) hsearches).1 hok
        have hrec := ih (rm.Allocate m).2 (m :: pending) bound
          (by
            intro x hx
            rcases List.mem_cons.mp hx with h | h
            · rw [h]; exact hans.1
            · exact hpending x h)
          (by rw [hstate]; simp only [List.sum_cons]; omega)
          (by rw [hstate]; simp only [List.length_cons]; push_cast; omega)
          (by rw [hstate]; show rm.currentMB + m ≤ bound; omega)
          (by rw [hstate]; exact hmem)
          hbound
          (by rw [hstate]; show rm.activeSearch + 1 ≤ maxInt64; omega)
          (by rw [hstate]; exact hsearches)
          hrestfit hans.2
        rw [hstate] at hrec
        simp only [List.sum_cons, List.length_cons] at hrec
        rw [hstate]
        refine ⟨by rw [hrec.1]; omega, by rw [hrec.2.1]; push_cast; omega, hrec.2.2.1,
          hrec.2.2.2⟩
      · rw [if_neg hok] at hans
        have hsame : (rm.Allocate m).2 = rm := by
          rw [ResourceManager.allocate_eq] at hok ⊢
          by_cases hc : wrapInt64 (rm.currentMB + m) ≤ rm.maxMemoryMB
              ∧ rm.activeSearch < rm.maxSearches
          · rw [if_pos hc] at hok
            exact absurd rfl hok
          · rw [if_neg hc]
        rw [hsame]
        exact ih rm pending bound hpending hsum hlen hcur hmem hbound hact hsearches
          hrestfit hans
    | release m =>
      simp only [ResourceManager.answered, Bool.and_eq_true, decide_eq_true_iff] at hans
      simp only [ResourceManager.calls, ResourceManager.call]
      obtain ⟨hmemp, hrest⟩ := hans
      obtain ⟨h1, h2, h3⟩ := le_sum_of_mem pending hpending m hmemp
      have hm0 : 0 ≤ m := hpending m hmemp
      obtain ⟨e1, e2, e3, e4⟩ := ResourceManager.release_exact rm m (by omega) (by omega)
      have hpos : 0 < pending.length := List.length_pos_of_mem hmemp
      have hcurm : rm.currentMB ≥ m := by omega
      have hactive : rm.activeSearch > 0 := by omega
      rw [if_pos hcurm] at e1
      rw [if_pos hactive] at e2
      have hlen' : (pending.erase m).length = pending.length - 1 :=
        List.length_erase_of_mem hmemp
      have hrec := ih (rm.Release m) (pending.erase m) bound
        (fun x hx => hpending x (List.mem_of_mem_erase hx))
        (by rw [e1]; omega)
        (by rw [e2, hlen']; omega)
        (by rw [e1]; omega)
        (by rw [e3]; exact hmem)
        hbound
        (by rw [e2]; omega)
        (by rw [e4]; exact hsearches)
        hrestfit hrest
      rw [e1, e2, e3, e4, hlen'] at hrec
      refine ⟨by rw [hrec.1]; omega, by rw [hrec.2.1]; omega, hrec.2.2.1, hrec.2.2.2⟩

/-- C17, amended. Starting from a state with non-negative counters, any history of
`Allocate` and `Release` calls in which every `Release(m)` answers one earlier successful
`Allocate(m)` of the same non-negative amount, every successful `Allocate` is answered
exactly once, and no amount exceeds `MaxInt64 - max(currentMB, maxMemoryMB)`, so that no
sum overflows, ends in the starting state; in particular a successful `Allocate(m)` with
such an `m >= 0` followed directly by `Release(m)` restores the state. -/
theorem C17_conservation (rm : ResourceManager)
    (hmem : 0 ≤ rm.currentMB) (hsearch : 0 ≤ rm.activeSearch)
    (hmemInt : rm.currentMB ≤ maxInt64) (hsearchInt : rm.activeSearch ≤ maxInt64)
    (hmaxInt : rm.maxMemoryMB ≤ maxInt64) (hsearchesInt : rm.maxSearches ≤ maxInt64) :
    (∀ history : List ResourceCall,
      (∀ c ∈ history, max rm.currentMB rm.maxMemoryMB + c.amount ≤ maxInt64) →
      rm.answered [] history = true → rm.calls history = rm) ∧
    (∀ m : Int, 0 ≤ m → max rm.currentMB rm.maxMemoryMB + m ≤ maxInt64 →
      (rm.Allocate m).1 = true → (rm.Allocate m).2.Release m = rm) := by
  have hall : ∀ history : List ResourceCall,
      (∀ c ∈ history, max rm.currentMB rm.maxMemoryMB + c.amount ≤ maxInt64) →
      rm.answered [] history = true → rm.calls history = rm := by
    intro history hfit hans
    obtain ⟨h1, h2, h3, h4⟩ := ResourceManager.calls_answered history rm []
      (max rm.currentMB rm.maxMemoryMB)
      (by simp) (by simpa using hmem) (by simpa using hsearch)
      (le_max_left _ _) (le_max_right _ _) (max_le hmemInt hmaxInt) hsearchInt
      hsearchesInt hfit hans
    simp only [List.sum_nil, sub_zero, List.length_nil, Int.ofNat_zero, Nat.cast_zero] at h1 h2
    cases hrm : rm.calls history with
    | mk a b c d =>
      rw [hrm] at h1 h2 h3 h4
      simp only at h1 h2 h3 h4
      cases rm
      simp only at h1 h2 h3 h4
      subst h1 h2 h3 h4
      rfl
  refine ⟨hall, ?_⟩
  intro m hm hfit hok
  have := hall [.allocate m, .release m]
    (by
      intro c hc
      simp only [List.mem_cons, List.mem_singleton, List.not_mem_nil, or_false] at hc
      rcases hc with hc | hc <;> (rw [hc]; exact hfit))
    (by simp [ResourceManager.answered, hok, hm])
  simpa [ResourceManager.calls, ResourceManager.call] using this

/-- C17, amended, on a manager with 500 MB and 3 searches holding 100 MB and 1 search:
two allocations, a failed allocation and the two releases, in the other order. -/
theorem C17_conservation_witness :
    ResourceManager.calls
        { maxMemoryMB := 500, currentMB := 100, activeSearch := 1, maxSearches := 3 }
        [.allocate 200, .allocate 50, .allocate 900, .release 200, .release 50]
      = { maxMemoryMB := 500, currentMB := 100, activeSearch := 1, maxSearches := 3 } :=
  (C17_conservation
    { maxMemoryMB := 500, currentMB := 100, activeSearch := 1, maxSearches := 3 }
    (by decide) (by decide) (by decide) (by decide) (by decide) (by decide)).1
    [.allocate 200, .allocate 50, .allocate 900, .release 200, .release 50] (by decide)
    (by decide)

/-- C17, as stated, fails when a sum overflows: on a manager with 500 MB and 50 searches
holding 1 MB, `Allocate(2^63 - 1)` succeeds, since the 64-bit sum is `-2^63`, and the
`Release(2^63 - 1)` that answers it finds `currentMB` below the amount and skips the
subtraction: the history ends with `currentMB` at `-2^63`, not at 1. -/
theorem C17_counterexample :
    (0 : Int) ≤ 1 ∧
    ResourceManager.answered
        { maxMemoryMB := 500, currentMB := 1, activeSearch := 0, maxSearches := 50 } []
        [.allocate maxInt64, .release maxInt64] = true ∧
    (ResourceManager.calls
        { maxMemoryMB := 500, currentMB := 1, activeSearch := 0, maxSearches := 50 }
        [.allocate maxInt64, .release maxInt64]).currentMB = minInt64 ∧
    ResourceManager.calls
        { maxMemoryMB := 500, currentMB := 1, activeSearch := 0, maxSearches := 50 }
        [.allocate maxInt64, .release maxInt64]
      ≠ { maxMemoryMB := 500, currentMB := 1, activeSearch := 0, maxSearches := 50 } := by
  decide

end city

namespace city

/-- C18. `CanAllocate` returns true if and only if `currentMB < maxMemoryMB` and
`activeSearch < maxSearches`, and it leaves the manager, both counters included, as it
was. -/
theorem C18_canAllocate (rm : ResourceManager) :
    ((rm.CanAllocate).1 = true ↔
      rm.currentMB < rm.maxMemoryMB ∧ rm.activeSearch < rm.maxSearches) ∧
    (rm.CanAllocate).2 = rm ∧
    (rm.CanAllocate).2.currentMB = rm.currentMB ∧
    (rm.CanAllocate).2.activeSearch = rm.activeSearch := by
  refine ⟨?_, rfl, rfl, rfl⟩
  simp [ResourceManager.CanAllocate]

/-- C19, amended. When the sum `currentMB + m` does not overflow (it lies in the range of
`int`, as do `activeSearch + 1` and `maxSearches`), `Allocate` never succeeds when it would
push `currentMB` above `maxMemoryMB` or `activeSearch` above `maxSearches`: after a
successful call both counters are within their maxima; a successful call may bring
`activeSearch` to exactly `maxSearches`, and does so whenever `activeSearch` was one below
it. -/
theorem C19_allocate_respects_maxima (rm : ResourceManager) (m : Int)
    (hlow : minInt64 ≤ rm.currentMB + m) (hhigh : rm.currentMB + m ≤ maxInt64)
    (hactive : minInt64 ≤ rm.activeSearch + 1) (hsearches : rm.maxSearches ≤ maxInt64) :
    (rm.currentMB + m > rm.maxMemoryMB ∨ rm.activeSearch + 1 > rm.maxSearches →
      rm.Allocate m = (false, rm)) ∧
    ((rm.Allocate m).1 = true →
      (rm.Allocate m).2.currentMB ≤ rm.maxMemoryMB ∧
      (rm.Allocate m).2.activeSearch ≤ rm.maxSearches) ∧
    (rm.currentMB + m ≤ rm.maxMemoryMB → rm.activeSearch + 1 = rm.maxSearches →
      (rm.Allocate m).1 = true ∧ (rm.Allocate m).2.activeSearch = rm.maxSearches) := by
  rw [ResourceManager.allocate_exact rm m hlow hhigh hactive hsearches]
  refine ⟨?_, ?_, ?_⟩
  · intro h
    rw [if_neg (by omega)]
  · intro hok
    by_cases hc : rm.currentMB + m ≤ rm.maxMemoryMB ∧ rm.activeSearch < rm.maxSearches
    · rw [if_pos hc]
      exact ⟨hc.1, by show rm.activeSearch + 1 ≤ rm.maxSearches; omega⟩
    · rw [if_neg hc] at hok
      simp at hok
  · intro h1 h2
    have hc : rm.currentMB + m ≤ rm.maxMemoryMB ∧ rm.activeSearch < rm.maxSearches :=
      ⟨h1, by omega⟩
    rw [if_pos hc]
    exact ⟨rfl, h2⟩

/-- C19, amended, on a manager with 500 MB and 1 search: `Allocate(600)` fails, and
after `Allocate(100)` a second `Allocate(100)` fails. -/
theorem C19_allocate_respects_maxima_witness :
    (NewResourceManager 500 1).Allocate 600 = (false, NewResourceManager 500 1) ∧
    ((NewResourceManager 500 1).Allocate 100).2.Allocate 100
      = (false, ((NewResourceManager 500 1).Allocate 100).2) :=
  ⟨(C19_allocate_respects_maxima (NewResourceManager 500 1) 600 (by decide) (by decide)
      (by decide) (by decide)).1 (Or.inl (by decide)),
    (C19_allocate_respects_maxima ((NewResourceManager 500 1).Allocate 100).2 100
      (by decide) (by decide) (by decide) (by decide)).1 (Or.inr (by decide))⟩

/-- C19, as stated, fails: on a fresh manager with 1000 MB and 1 search, `Allocate(500)`
succeeds although it pushes `activeSearch` to `maxSearches`. -/
theorem C19_counterexample :
    (NewResourceManager 1000 1).activeSearch + 1 = (NewResourceManager 1000 1).maxSearches ∧
    ((NewResourceManager 1000 1).Allocate 500).1 = true ∧
    ((NewResourceManager 1000 1).Allocate 500).2.activeSearch
      = ((NewResourceManager 1000 1).Allocate 500).2.maxSearches := by
  decide

end city

/-! ### The cache -/

namespace city

theorem SearchCache.lookup_op (c : SearchCache) (o : CacheOp) (key : GoString) :
    (c.op o).cache.lookup key = lastSet key (c.cache.lookup key) [o] := by
  cases o with
  | set k result =>
    by_cases hk : k = key
    · subst hk
      simp [SearchCache.op, SearchCache.Set, lastSet, GoMap.lookup_store_same]
    · simp [SearchCache.op, SearchCache.Set, lastSet, hk,
        GoMap.lookup_store_other _ _ _ _ (fun h => hk h.symm)]
  | get k => rfl
  | clear => rfl
  | size => rfl

theorem lastSet_cons (key : GoString) (current : Option (GoSlice CityData)) (o : CacheOp)
    (rest : List CacheOp) :
    lastSet key current (o :: rest) = lastSet key (lastSet key current [o]) rest := by
  cases o with
  | set k result =>
    by_cases hk : k = key
    · simp [lastSet, hk]
    · simp [lastSet, hk]
  | get k => rfl
  | clear => rfl
  | size => rfl

/-- The entry of a key after a sequence of operations. -/
theorem SearchCache.lookup_ops (history : List CacheOp) :
    ∀ (c : SearchCache) (key : GoString),
      (c.ops history).cache.lookup key = lastSet key (c.cache.lookup key) history := by
  induction history with
  | nil => intro c key; rfl
  | cons o rest ih =>
    intro c key
    rw [lastSet_cons, ← SearchCache.lookup_op]
    exact ih (c.op o) key

/-- C20. For every sequence of `Set`, `Get`, `Clear` and `Size` operations on a new
`SearchCache`, `Get(k)` returns `(v, true)` where `v` is the value of the most recent
`Set(k, v)` since the last `Clear`, and `(nil, false)` when there is no such `Set`; `Set`
on one key never changes what `Get` returns for a different key; and no operation but
`Clear` removes an entry. -/
theorem C20_cache_get (history : List CacheOp) (key : GoString) :
    (NewSearchCache.ops history).Get key =
      (match lastSet key none history with
        | some v => (v, true)
        | none => (.null, false)) ∧
    (∀ (c : SearchCache) (other : GoString) (v : GoSlice CityData), other ≠ key →
      (c.Set other v).Get key = c.Get key) ∧
    (∀ (c : SearchCache) (o : CacheOp), o ≠ .clear → (c.Get key).2 = true →
      ((c.op o).Get key).2 = true) := by
  refine ⟨?_, ?_, ?_⟩
  · unfold SearchCache.Get
    rw [SearchCache.lookup_ops]
    rfl
  · intro c other v hne
    unfold SearchCache.Get SearchCache.Set
    simp only []
    rw [GoMap.lookup_store_other _ _ _ _ (fun h => hne h.symm)]
  · intro c o ho hfound
    cases o with
    | set k result =>
      by_cases hk : k = key
      · subst hk
        simp [SearchCache.op, SearchCache.Set, SearchCache.Get, GoMap.lookup_store_same]
      · unfold SearchCache.op SearchCache.Get SearchCache.Set
        simp only []
        rw [GoMap.lookup_store_other _ _ _ _ (fun h => hk h.symm)]
        exact hfound
    | get k => exact hfound
    | clear => exact absurd rfl ho
    | size => exact hfound

/-- C20, on a new cache: after `Set("a", v1)`, `Set("b", v2)`, `Get("a")`, `Set("a", v3)`
and `Size`, `Get("a")` returns `v3`; after a further `Clear` it finds nothing. -/
theorem C20_cache_get_witness :
    (NewSearchCache.ops
        [.set "a".toList (.items []), .set "b".toList .null, .get "a".toList,
          .set "a".toList (.items sampleCities), .size]).Get "a".toList
      = (.items sampleCities, true) ∧
    (NewSearchCache.ops
        [.set "a".toList (.items []), .set "b".toList .null, .get "a".toList,
          .set "a".toList (.items sampleCities), .size, .clear]).Get "a".toList
      = (.null, false) :=
  ⟨(C20_cache_get
      [.set "a".toList (.items []), .set "b".toList .null, .get "a".toList,
        .set "a".toList (.items sampleCities), .size] "a".toList).1,
    (C20_cache_get
      [.set "a".toList (.items []), .set "b".toList .null, .get "a".toList,
        .set "a".toList (.items sampleCities), .size, .clear] "a".toList).1⟩

end city

/-! ### The cache: size -/

namespace GoMap

theorem lookupIn_eq_none_iff {κ ν : Type} [DecidableEq κ] (k : κ) (l : List (κ × ν)) :
    lookupIn k l = none ↔ k ∉ l.map (fun e => e.1) := by
  induction l with
  | nil => simp [lookupIn]
  | cons e rest ih =>
    obtain ⟨k', v'⟩ := e
    by_cases h : k' = k
    · simp [lookupIn, h]
    · have h' : ¬ k = k' := fun e => h e.symm
      simp [lookupIn, h, h', ih]

/-- The keys of a map after `m[k] = v`: the same keys when `k` is present, the keys
followed by `k` when it is not. -/
theorem keys_storeIn {κ ν : Type} [DecidableEq κ] (k : κ) (v : ν) (l : List (κ × ν)) :
    (k ∈ l.map (fun e => e.1) → (storeIn k v l).map (fun e => e.1) = l.map (fun e => e.1)) ∧
    (k ∉ l.map (fun e => e.1) →
      (storeIn k v l).map (fun e => e.1) = l.map (fun e => e.1) ++ [k]) := by
  induction l with
  | nil => simp [storeIn]
  | cons e rest ih =>
    obtain ⟨k', v'⟩ := e
    by_cases h : k' = k
    · subst h
      simp [storeIn]
    · have h' : ¬ k = k' := fun e => h e.symm
      simp only [storeIn, h, if_false, List.map_cons, List.mem_cons, h', false_or,
        List.cons_append, List.cons.injEq, true_and]
      exact ih

end GoMap

namespace city

theorem keysSet_nodup (history : List CacheOp) :
    ∀ current : List GoString, current.Nodup → (keysSet current history).Nodup := by
  induction history with
  | nil => intro current h; exact h
  | cons o rest ih =>
    intro current h
    cases o with
    | set k result =>
      apply ih
      by_cases hk : k ∈ current
      · rw [if_pos hk]; exact h
      · rw [if_neg hk]
        exact List.Nodup.append h (List.nodup_singleton k)
          (by
            intro x hx hx2
            rw [List.mem_singleton.mp hx2] at hx
            exact hk hx)
    | get k => exact ih current h
    | clear => exact ih [] List.nodup_nil
    | size => exact ih current h

/-- The keys of the cache after a sequence of operations. -/
theorem SearchCache.keys_ops (history : List CacheOp) :
    ∀ c : SearchCache, (c.ops history).cache.entries.map (fun e => e.1)
      = keysSet (c.cache.entries.map (fun e => e.1)) history := by
  induction history with
  | nil => intro c; rfl
  | cons o rest ih =>
    intro c
    cases o with
    | set k result =>
      have := ih (c.Set k result)
      simp only [SearchCache.ops, SearchCache.op, keysSet]
      rw [this]
      by_cases hk : k ∈ c.cache.entries.map (fun e => e.1)
      · rw [if_pos hk]
        exact congrArg (fun l => keysSet l rest)
          ((GoMap.keys_storeIn k result c.cache.entries).1 hk)
      · rw [if_neg hk]
        exact congrArg (fun l => keysSet l rest)
          ((GoMap.keys_storeIn k result c.cache.entries).2 hk)
    | get k => exact ih c
    | clear => exact ih c.Clear
    | size => exact ih c

/-- C21. `Size()` equals the number of distinct keys set since construction or the last
`Clear`: it is 0 for a new cache and directly after `Clear`, grows by one on `Set` of a
key not present, and is unchanged by `Set` on a key already present and by `Get`. -/
theorem C21_cache_size (c : SearchCache) (key : GoString) (result : GoSlice CityData) :
    NewSearchCache.Size = 0 ∧
    c.Clear.Size = 0 ∧
    ((c.Get key).2 = false → (c.Set key result).Size = c.Size + 1) ∧
    ((c.Get key).2 = true → (c.Set key result).Size = c.Size) ∧
    (c.op (.get key)).Size = c.Size ∧
    (∀ history : List CacheOp,
      (NewSearchCache.ops history).Size = (keysSet [] history).length ∧
      (keysSet [] history).Nodup ∧
      ∀ k, k ∈ keysSet [] history ↔ ((NewSearchCache.ops history).Get k).2 = true) := by
  have hkeys := GoMap.keys_storeIn key result c.cache.entries
  have hfound : ∀ (d : SearchCache) (k : GoString),
      (d.Get k).2 = true ↔ k ∈ d.cache.entries.map (fun e => e.1) := by
    intro d k
    unfold SearchCache.Get
    cases hl : d.cache.lookup k with
    | none =>
      have := (GoMap.lookupIn_eq_none_iff k d.cache.entries).mp hl
      simp [this]
    | some v =>
      have : ¬ GoMap.lookupIn k d.cache.entries = none := by
        have hl' : GoMap.lookupIn k d.cache.entries = some v := hl
        rw [hl']
        exact Option.some_ne_none v
      rw [GoMap.lookupIn_eq_none_iff] at this
      simp only [true_iff]
      exact not_not.mp this
  refine ⟨rfl, rfl, ?_, ?_, rfl, ?_⟩
  · intro hmiss
    have hnot : key ∉ c.cache.entries.map (fun e => e.1) := by
      intro hin
      have := (hfound c key).mpr hin
      rw [hmiss] at this
      exact Bool.false_ne_true this
    have := congrArg List.length (hkeys.2 hnot)
    simpa [SearchCache.Size, SearchCache.Set, GoMap.store, GoMap.len] using this
  · intro hhit
    have := congrArg List.length (hkeys.1 ((hfound c key).mp hhit))
    simpa [SearchCache.Size, SearchCache.Set, GoMap.store, GoMap.len] using this
  · intro history
    have hk := SearchCache.keys_ops history NewSearchCache
    have hnew : NewSearchCache.cache.entries.map (fun e => e.1) = [] := rfl
    rw [hnew] at hk
    refine ⟨?_, keysSet_nodup history [] List.nodup_nil, ?_⟩
    · have := congrArg List.length hk
      simpa [SearchCache.Size, GoMap.len] using this
    · intro k
      rw [hfound, hk]

/-- C21, on a new cache: after `Set("a")`, `Set("b")`, `Set("a")` and `Get("c")` the size
is 2; `Set("c")` makes it 3 and a further `Set("a")` leaves it at 3. -/
theorem C21_cache_size_witness :
    (NewSearchCache.ops
      [.set "a".toList .null, .set "b".toList .null, .set "a".toList (.items []),
        .get "c".toList]).Size = 2 ∧
    ((NewSearchCache.ops
      [.set "a".toList .null, .set "b".toList .null, .set "a".toList (.items []),
        .get "c".toList]).Set "c".toList .null).Size = 2 + 1 ∧
    ((NewSearchCache.ops
      [.set "a".toList .null, .set "b".toList .null, .set "a".toList (.items []),
        .get "c".toList]).Set "a".toList .null).Size = 2 :=
  ⟨by decide,
    ((C21_cache_size (NewSearchCache.ops
      [.set "a".toList .null, .set "b".toList .null, .set "a".toList (.items []),
        .get "c".toList]) "c".toList .null).2.2.1 (by decide)).trans (by decide),
    ((C21_cache_size (NewSearchCache.ops
      [.set "a".toList .null, .set "b".toList .null, .set "a".toList (.items []),
        .get "c".toList]) "a".toList .null).2.2.2.1 (by decide)).trans (by decide)⟩

end city

/-! ### Exact lookup and the cache -/

namespace city

/-- An error of `ValidateSearchInput` is a `ValidationError` on field `"input"`. -/
theorem validateSearchInput_error (T : CaseTable) (input : GoString) (maxLength : Int)
    (e : GoError) (h : (ValidateSearchInput T input maxLength).2 = some e) :
    (ValidateSearchInput T input maxLength).1 = [] ∧
    ∃ message, e = .validation
      { Field := "input".toList, Message := message, Value := none } := by
  unfold ValidateSearchInput at h ⊢
  by_cases h0 : input = []
  · simp [h0] at h
  · simp only [h0, if_false] at h ⊢
    by_cases h1 : (len input : Int) > maxLength
    · simp only [h1, if_true] at h ⊢
      exact ⟨trivial, _, (Option.some.inj h).symm⟩
    · simp only [h1, if_false, utf8.ValidString, Bool.not_true, Bool.false_eq_true] at h ⊢
      by_cases h2 : containsSuspiciousPatterns T (strings.TrimSpace input) = true
      · simp only [h2, if_true] at h ⊢
        exact ⟨trivial, _, (Option.some.inj h).symm⟩
      · simp [h2] at h

/-- `LookupViaCity` on an input that validation rejects. -/
theorem lookupViaCity_invalid (T : CaseTable) (w : LoadOutcome) (searchCache : SearchCache)
    (q : GoString) (e : GoError) (h : (ValidateSearchInput T q 100).2 = some e) :
    LookupViaCity T w searchCache q
      = ((.null, some (fmt.Errorf "invalid input: ".toList e)), searchCache) := by
  obtain ⟨v, e', hv⟩ : ∃ v e', ValidateSearchInput T q 100 = (v, e') := ⟨_, _, rfl⟩
  rw [hv] at h
  simp only at h
  subst h
  simp only [LookupViaCity, hv]

/-- `LookupViaCity` on an input that normalizes to the empty string. -/
theorem lookupViaCity_empty (T : CaseTable) (w : LoadOutcome) (searchCache : SearchCache)
    (q : GoString) (h : ValidateSearchInput T q 100 = ([], none)) :
    LookupViaCity T w searchCache q = ((.items [], none), searchCache) := by
  simp only [LookupViaCity, h, if_true]

/-- `LookupViaCity` on a valid input with a non-empty normalized form whose key is in
the cache. -/
theorem lookupViaCity_hit (T : CaseTable) (w : LoadOutcome) (searchCache : SearchCache)
    (q v : GoString) (stored : GoSlice CityData)
    (h : ValidateSearchInput T q 100 = (v, none)) (hv : v ≠ [])
    (hhit : searchCache.cache.lookup ("city:".toList ++ strings.ToLower T v) = some stored) :
    LookupViaCity T w searchCache q = ((stored, none), searchCache) := by
  have hget : searchCache.Get ("city:".toList ++ strings.ToLower T v) = (stored, true) := by
    unfold SearchCache.Get
    rw [hhit]
  simp only [LookupViaCity, h, hv, if_false, hget]

/-- `LookupViaCity` on a valid input with a non-empty normalized form whose key is not
in the cache. -/
theorem lookupViaCity_miss (T : CaseTable) (w : LoadOutcome) (searchCache : SearchCache)
    (q v : GoString)
    (h : ValidateSearchInput T q 100 = (v, none)) (hv : v ≠ [])
    (hmiss : searchCache.cache.lookup ("city:".toList ++ strings.ToLower T v) = none) :
    (∀ err, w.loadError = some err →
      LookupViaCity T w searchCache q = ((.null, some err), searchCache)) ∧
    (w.loadError = none →
      LookupViaCity T w searchCache q =
        ((collect (fun city => decide (strings.ToLower T city.City = strings.ToLower T v))
            w.cityData.toList .null, none),
          searchCache.Set ("city:".toList ++ strings.ToLower T v)
            (collect (fun city => decide (strings.ToLower T city.City = strings.ToLower T v))
              w.cityData.toList .null))) := by
  have hget : searchCache.Get ("city:".toList ++ strings.ToLower T v) = (.null, false) := by
    unfold SearchCache.Get
    rw [hmiss]
  constructor
  · intro err herr
    simp only [LookupViaCity, h, hv, if_false, hget, LoadCityData, herr]
  · intro hload
    simp only [LookupViaCity, h, hv, if_false, hget, LoadCityData, hload]

/-- C22. After `LookupViaCity(q)` succeeds on a query with a non-empty normalized form,
the cache maps the key `"city:" + lowercase(trim(q))` to the returned sequence, empty or
not, and no other cache entry has changed; a call that hits the cache returns the stored
sequence and leaves the cache as it is; a call that fails validation or normalizes to
the empty string leaves the cache as it is. -/
theorem C22_lookup_and_cache (T : CaseTable) (w : LoadOutcome) (searchCache : SearchCache)
    (q : GoString) :
    ((ValidateSearchInput T q 100).2 = none → (ValidateSearchInput T q 100).1 ≠ [] →
      (LookupViaCity T w searchCache q).1.2 = none →
      (LookupViaCity T w searchCache q).2.Get
          ("city:".toList ++ strings.ToLower T (strings.TrimSpace q))
        = ((LookupViaCity T w searchCache q).1.1, true) ∧
      ∀ other, other ≠ "city:".toList ++ strings.ToLower T (strings.TrimSpace q) →
        (LookupViaCity T w searchCache q).2.Get other = searchCache.Get other) ∧
    ((ValidateSearchInput T q 100).2 = none → (ValidateSearchInput T q 100).1 ≠ [] →
      ∀ stored, searchCache.Get ("city:".toList ++ strings.ToLower T (strings.TrimSpace q))
          = (stored, true) →
        LookupViaCity T w searchCache q = ((stored, none), searchCache)) ∧
    ((ValidateSearchInput T q 100).2 ≠ none ∨ (ValidateSearchInput T q 100).1 = [] →
      (LookupViaCity T w searchCache q).2 = searchCache) := by
  obtain ⟨v, e, hv⟩ : ∃ v e, ValidateSearchInput T q 100 = (v, e) := ⟨_, _, rfl⟩
  refine ⟨?_, ?_, ?_⟩
  · intro hvalid hne hok
    rw [hv] at hvalid hne
    simp only at hvalid hne
    subst hvalid
    have htrim := (validateSearchInput_ok T q 100 v hv).1
    subst htrim
    cases hlook : searchCache.cache.lookup
        ("city:".toList ++ strings.ToLower T (strings.TrimSpace q)) with
    | some stored =>
      rw [lookupViaCity_hit T w searchCache q _ stored hv hne hlook]
      refine ⟨?_, fun other _ => rfl⟩
      unfold SearchCache.Get
      rw [hlook]
    | none =>
      cases hload : w.loadError with
      | some err =>
        rw [(lookupViaCity_miss T w searchCache q _ hv hne hlook).1 err hload] at hok
        simp at hok
      | none =>
        rw [(lookupViaCity_miss T w searchCache q _ hv hne hlook).2 hload]
        refine ⟨?_, ?_⟩
        · unfold SearchCache.Get SearchCache.Set
          simp only []
          rw [GoMap.lookup_store_same]
        · intro other hother
          unfold SearchCache.Get SearchCache.Set
          simp only []
          rw [GoMap.lookup_store_other _ _ _ _ hother]
  · intro hvalid hne stored hget
    rw [hv] at hvalid hne
    simp only at hvalid hne
    subst hvalid
    have htrim := (validateSearchInput_ok T q 100 v hv).1
    subst htrim
    have hlook : searchCache.cache.lookup
        ("city:".toList ++ strings.ToLower T (strings.TrimSpace q)) = some stored := by
      unfold SearchCache.Get at hget
      cases hl : searchCache.cache.lookup
          ("city:".toList ++ strings.ToLower T (strings.TrimSpace q)) with
      | none => rw [hl] at hget; simp at hget
      | some s =>
        rw [hl] at hget
        simp only [Prod.mk.injEq, and_true] at hget
        rw [hget]
    exact lookupViaCity_hit T w searchCache q _ stored hv hne hlook
  · intro h
    rcases h with h | h
    · cases he : (ValidateSearchInput T q 100).2 with
      | none => exact absurd he h
      | some err => rw [lookupViaCity_invalid T w searchCache q err he]
    · cases he : (ValidateSearchInput T q 100).2 with
      | none =>
        have : ValidateSearchInput T q 100 = ([], none) := Prod.ext h he
        rw [lookupViaCity_empty T w searchCache q this]
      | some err => rw [lookupViaCity_invalid T w searchCache q err he]

/-- C22, on the sample dataset: the query `" Atlantis "` matches nothing and is cached
with its empty result; asked again, it is answered from the cache. -/
theorem C22_lookup_and_cache_witness :
    (LookupViaCity CaseTable.caseless (.loaded sampleCities) NewSearchCache
        " Atlantis ".toList).2.Get "city:atlantis".toList
      = ((LookupViaCity CaseTable.caseless (.loaded sampleCities) NewSearchCache
        " Atlantis ".toList).1.1, true) ∧
    LookupViaCity CaseTable.caseless (.loaded sampleCities)
        (LookupViaCity CaseTable.caseless (.loaded sampleCities) NewSearchCache
          " Atlantis ".toList).2 " Atlantis ".toList
      = ((.null, none),
          (LookupViaCity CaseTable.caseless (.loaded sampleCities) NewSearchCache
            " Atlantis ".toList).2) :=
  ⟨((C22_lookup_and_cache CaseTable.caseless (.loaded sampleCities) NewSearchCache
      " Atlantis ".toList).1 (by decide) (by decide) (by decide)).1,
    (C22_lookup_and_cache CaseTable.caseless (.loaded sampleCities)
      (LookupViaCity CaseTable.caseless (.loaded sampleCities) NewSearchCache
        " Atlantis ".toList).2 " Atlantis ".toList).2.1 (by decide) (by decide) .null
      (by decide)⟩

end city

/-! ### Search entry points: empty queries and errors -/

namespace strings

/-- A string of white space only trims to the empty string. -/
theorem trimSpace_of_spaces (s : GoString) (h : ∀ c ∈ s, unicode.IsSpace c = true) :
    TrimSpace s = [] := by
  unfold TrimSpace
  have : List.dropWhile unicode.IsSpace s = [] := List.dropWhile_eq_nil_iff.mpr h
  rw [this]
  rfl

end strings

namespace city

/-- A string of white space only within the length bound validates to the empty
string. -/
theorem validateSearchInput_spaces (T : CaseTable) (q : GoString) (maxLength : Int)
    (hspace : ∀ c ∈ q, unicode.IsSpace c = true) (hlen : (len q : Int) ≤ maxLength) :
    ValidateSearchInput T q maxLength = ([], none) := by
  rw [validateSearchInput_within T q maxLength hlen, strings.trimSpace_of_spaces q hspace,
    containsSuspiciousPatterns_nil]
  rfl

/-- `FindFromCityStateProvince` on an input that validation rejects. -/
theorem findFromCityStateProvince_invalid (T : CaseTable) (w : LoadOutcome) (q : GoString)
    (e : GoError) (h : (ValidateSearchInput T q 200).2 = some e) :
    FindFromCityStateProvince T w q
      = (.null, some (fmt.Errorf "invalid input: ".toList e)) := by
  obtain ⟨v, e', hv⟩ : ∃ v e', ValidateSearchInput T q 200 = (v, e') := ⟨_, _, rfl⟩
  rw [hv] at h
  simp only at h
  subst h
  simp only [FindFromCityStateProvince, hv]

/-- `FindFromCityStateProvince` on an input that normalizes to the empty string. -/
theorem findFromCityStateProvince_empty (T : CaseTable) (w : LoadOutcome) (q : GoString)
    (h : ValidateSearchInput T q 200 = ([], none)) :
    FindFromCityStateProvince T w q = (.items [], none) := by
  simp only [FindFromCityStateProvince, h, if_true]

/-- `FindFromCityStateProvince` on a valid input with a non-empty normalized form. -/
theorem findFromCityStateProvince_valid (T : CaseTable) (w : LoadOutcome) (q v : GoString)
    (h : ValidateSearchInput T q 200 = (v, none)) (hv : v ≠ []) :
    (∀ err, w.loadError = some err →
      FindFromCityStateProvince T w q = (.null, some err)) ∧
    (w.loadError = none →
      FindFromCityStateProvince T w q =
        (collect (fun city => findPartialMatch T city (strings.Fields (strings.ToLower T v)))
          w.cityData.toList .null, none)) := by
  constructor
  · intro err herr
    simp only [FindFromCityStateProvince, h, hv, if_false, LoadCityData, herr]
  · intro hload
    simp only [FindFromCityStateProvince, h, hv, if_false, LoadCityData, hload]

/-- An error of `ValidateISOCode` is a `ValidationError` on field `"isoCode"`. -/
theorem validateISOCode_error (T : CaseTable) (isoCode : GoString) (e : GoError)
    (h : (ValidateISOCode T isoCode).2 = some e) :
    (ValidateISOCode T isoCode).1 = [] ∧
    ∃ message, e = .validation
      { Field := "isoCode".toList, Message := message, Value := none } := by
  by_cases h0 : isoCode = []
  · subst h0
    simp [ValidateISOCode] at h
  · rw [validateISOCode_eq T isoCode h0] at h ⊢
    split at h
    · split at h
      · simp at h
      · split at h
        · rename_i h1 h2 h3
          rw [if_pos h1, if_neg h2, if_pos h3]
          exact ⟨rfl, _, (Option.some.inj h).symm⟩
        · rename_i h1 h2 h3
          rw [if_pos h1, if_neg h2, if_neg h3]
          exact ⟨rfl, _, (Option.some.inj h).symm⟩
    · rename_i h1
      rw [if_neg h1]
      exact ⟨rfl, _, (Option.some.inj h).symm⟩

/-- `FindFromIsoCode` on an input that validation rejects. -/
theorem findFromIsoCode_invalid (T : CaseTable) (w : LoadOutcome) (isoCode : GoString)
    (e : GoError) (h : (ValidateISOCode T isoCode).2 = some e) :
    FindFromIsoCode T w isoCode
      = (.null, some (fmt.Errorf "invalid ISO code: ".toList e)) := by
  obtain ⟨v, e', hv⟩ : ∃ v e', ValidateISOCode T isoCode = (v, e') := ⟨_, _, rfl⟩
  rw [hv] at h
  simp only at h
  subst h
  simp only [FindFromIsoCode, hv]

/-- `FindFromIsoCode` on a valid input with a non-empty code. -/
theorem findFromIsoCode_valid (T : CaseTable) (w : LoadOutcome) (isoCode v : GoString)
    (h : ValidateISOCode T isoCode = (v, none)) (hv : v ≠ []) :
    (∀ err, w.loadError = some err → FindFromIsoCode T w isoCode = (.null, some err)) ∧
    (w.loadError = none →
      FindFromIsoCode T w isoCode =
        (collect (fun city => decide (strings.ToLower T city.ISO2 = strings.ToLower T v)
            || decide (strings.ToLower T city.ISO3 = strings.ToLower T v))
          w.cityData.toList .null, none)) := by
  constructor
  · intro err herr
    simp only [FindFromIsoCode, h, hv, if_false, LoadCityData, herr]
  · intro hload
    simp only [FindFromIsoCode, h, hv, if_false, LoadCityData, hload]

/-- `SearchCities` on a non-empty query. -/
theorem searchCities_nonempty (T : CaseTable) (w : LoadOutcome) (query : GoString)
    (options : SearchOptions) (hq : query ≠ []) :
    (∀ err, w.loadError = some err → SearchCities T w query options = (.null, some err)) ∧
    (w.loadError = none →
      SearchCities T w query options =
        (collect (fun city => matchesCity T city
            (if !options.CaseSensitive then strings.ToLower T query else query) options)
          w.cityData.toList .null, none)) := by
  constructor
  · intro err herr
    simp only [SearchCities, hq, if_false, LoadCityData, herr]
  · intro hload
    simp only [SearchCities, hq, if_false, LoadCityData, hload]

/-- C23. An empty normalized query gives an empty result and never an error: for the
empty string and for every string of white space only within the length bound,
validation succeeds with `""`, and `LookupViaCity` and `FindFromCityStateProvince` return
a non-nil empty sequence and no error, whatever the dataset and the cache hold, and
leave the cache as it is; `FindFromIsoCode("")` and `SearchCities("", options)` return an
empty sequence and no error. -/
theorem C23_empty_query (T : CaseTable) (w : LoadOutcome) (searchCache : SearchCache)
    (q : GoString) (options : SearchOptions)
    (hspace : ∀ c ∈ q, unicode.IsSpace c = true) :
    ((len q : Int) ≤ 100 →
      ValidateSearchInput T q 100 = ([], none) ∧
      LookupViaCity T w searchCache q = ((.items [], none), searchCache)) ∧
    ((len q : Int) ≤ 200 →
      ValidateSearchInput T q 200 = ([], none) ∧
      FindFromCityStateProvince T w q = (.items [], none)) ∧
    ValidateSearchInput T [] 100 = ([], none) ∧
    LookupViaCity T w searchCache [] = ((.items [], none), searchCache) ∧
    FindFromCityStateProvince T w [] = (.items [], none) ∧
    FindFromIsoCode T w [] = (.items [], none) ∧
    SearchCities T w [] options = (.items [], none) := by
  refine ⟨?_, ?_, rfl, rfl, rfl, rfl, rfl⟩
  · intro hlen
    have hv := validateSearchInput_spaces T q 100 hspace hlen
    exact ⟨hv, lookupViaCity_empty T w searchCache q hv⟩
  · intro hlen
    have hv := validateSearchInput_spaces T q 200 hspace hlen
    exact ⟨hv, findFromCityStateProvince_empty T w q hv⟩

/-- C23, at the query of a space, a tab and a space, with a dataset that
failed to load. -/
theorem C23_empty_query_witness :
    ValidateSearchInput CaseTable.caseless " \t ".toList 100 = ([], none) ∧
    LookupViaCity CaseTable.caseless
        { cityData := .null, loadError := some (.errorString "no data".toList) }
        NewSearchCache " \t ".toList
      = ((.items [], none), NewSearchCache) ∧
    FindFromCityStateProvince CaseTable.caseless
        { cityData := .null, loadError := some (.errorString "no data".toList) }
        " \t ".toList
      = (.items [], none) :=
  ⟨((C23_empty_query CaseTable.caseless
      { cityData := .null, loadError := some (.errorString "no data".toList) }
      NewSearchCache " \t ".toList DefaultSearchOptions (by decide)).1 (by decide)).1,
    ((C23_empty_query CaseTable.caseless
      { cityData := .null, loadError := some (.errorString "no data".toList) }
      NewSearchCache " \t ".toList DefaultSearchOptions (by decide)).1 (by decide)).2,
    ((C23_empty_query CaseTable.caseless
      { cityData := .null, loadError := some (.errorString "no data".toList) }
      NewSearchCache " \t ".toList DefaultSearchOptions (by decide)).2.1
        (by decide)).2⟩

end city

namespace city

/-- With a dataset that loaded, `LookupViaCity` returns no error on an input that
validation accepts. -/
theorem lookupViaCity_no_error (T : CaseTable) (w : LoadOutcome) (hload : w.loadError = none)
    (searchCache : SearchCache) (q : GoString)
    (h : (ValidateSearchInput T q 100).2 = none) :
    (LookupViaCity T w searchCache q).1.2 = none := by
  obtain ⟨v, e, hv⟩ : ∃ v e, ValidateSearchInput T q 100 = (v, e) := ⟨_, _, rfl⟩
  rw [hv] at h
  simp only at h
  subst h
  by_cases hne : v = []
  · subst hne
    rw [lookupViaCity_empty T w searchCache q hv]
  · cases hlook : searchCache.cache.lookup ("city:".toList ++ strings.ToLower T v) with
    | some stored => rw [lookupViaCity_hit T w searchCache q v stored hv hne hlook]
    | none => rw [(lookupViaCity_miss T w searchCache q v hv hne hlook).2 hload]

/-- With a dataset that loaded, `FindFromCityStateProvince` returns no error on an input
that validation accepts. -/
theorem findFromCityStateProvince_no_error (T : CaseTable) (w : LoadOutcome)
    (hload : w.loadError = none) (q : GoString)
    (h : (ValidateSearchInput T q 200).2 = none) :
    (FindFromCityStateProvince T w q).2 = none := by
  obtain ⟨v, e, hv⟩ : ∃ v e, ValidateSearchInput T q 200 = (v, e) := ⟨_, _, rfl⟩
  rw [hv] at h
  simp only at h
  subst h
  by_cases hne : v = []
  · subst hne
    rw [findFromCityStateProvince_empty T w q hv]
  · rw [(findFromCityStateProvince_valid T w q v hv hne).2 hload]

/-- With a dataset that loaded, `FindFromIsoCode` returns no error on an input that
validation accepts. -/
theorem findFromIsoCode_no_error (T : CaseTable) (w : LoadOutcome)
    (hload : w.loadError = none) (isoCode : GoString)
    (h : (ValidateISOCode T isoCode).2 = none) :
    (FindFromIsoCode T w isoCode).2 = none := by
  obtain ⟨v, e, hv⟩ : ∃ v e, ValidateISOCode T isoCode = (v, e) := ⟨_, _, rfl⟩
  rw [hv] at h
  simp only at h
  subst h
  by_cases hne : v = []
  · subst hne
    simp only [FindFromIsoCode, hv, if_true]
  · rw [(findFromIsoCode_valid T w isoCode v hv hne).2 hload]

/-- C24. Given a dataset that loaded, `LookupViaCity` (bound 100 bytes),
`FindFromCityStateProvince` (bound 200 bytes) and `FindFromIsoCode` return an error
exactly when their validator rejects the input; that error is made by `fmt.Errorf` and
wraps the validator's `ValidationError`, and the result returned with it is nil. -/
theorem C24_errors_are_validation_errors (T : CaseTable) (w : LoadOutcome)
    (hload : w.loadError = none) (searchCache : SearchCache) (q : GoString) :
    (((LookupViaCity T w searchCache q).1.2 ≠ none
        ↔ (ValidateSearchInput T q 100).2 ≠ none) ∧
      ∀ e, (ValidateSearchInput T q 100).2 = some e →
        (LookupViaCity T w searchCache q).1
          = (.null, some (fmt.Errorf "invalid input: ".toList e)) ∧
        (fmt.Errorf "invalid input: ".toList e).Unwrap = some e ∧
        ∃ ve : ValidationError, e = .validation ve) ∧
    (((FindFromCityStateProvince T w q).2 ≠ none ↔ (ValidateSearchInput T q 200).2 ≠ none) ∧
      ∀ e, (ValidateSearchInput T q 200).2 = some e →
        FindFromCityStateProvince T w q
          = (.null, some (fmt.Errorf "invalid input: ".toList e)) ∧
        (fmt.Errorf "invalid input: ".toList e).Unwrap = some e ∧
        ∃ ve : ValidationError, e = .validation ve) ∧
    (((FindFromIsoCode T w q).2 ≠ none ↔ (ValidateISOCode T q).2 ≠ none) ∧
      ∀ e, (ValidateISOCode T q).2 = some e →
        FindFromIsoCode T w q
          = (.null, some (fmt.Errorf "invalid ISO code: ".toList e)) ∧
        (fmt.Errorf "invalid ISO code: ".toList e).Unwrap = some e ∧
        ∃ ve : ValidationError, e = .validation ve) := by
  refine ⟨⟨?_, ?_⟩, ⟨?_, ?_⟩, ⟨?_, ?_⟩⟩
  · constructor
    · intro herr hval
      exact herr (lookupViaCity_no_error T w hload searchCache q hval)
    · intro hval
      cases he : (ValidateSearchInput T q 100).2 with
      | none => exact absurd he hval
      | some e =>
        rw [lookupViaCity_invalid T w searchCache q e he]
        simp
  · intro e he
    refine ⟨?_, rfl, ?_⟩
    · rw [lookupViaCity_invalid T w searchCache q e he]
    · obtain ⟨_, message, hm⟩ := validateSearchInput_error T q 100 e he
      exact ⟨_, hm⟩
  · constructor
    · intro herr hval
      exact herr (findFromCityStateProvince_no_error T w hload q hval)
    · intro hval
      cases he : (ValidateSearchInput T q 200).2 with
      | none => exact absurd he hval
      | some e =>
        rw [findFromCityStateProvince_invalid T w q e he]
        simp
  · intro e he
    refine ⟨findFromCityStateProvince_invalid T w q e he, rfl, ?_⟩
    obtain ⟨_, message, hm⟩ := validateSearchInput_error T q 200 e he
    exact ⟨_, hm⟩
  · constructor
    · intro herr hval
      exact herr (findFromIsoCode_no_error T w hload q hval)
    · intro hval
      cases he : (ValidateISOCode T q).2 with
      | none => exact absurd he hval
      | some e =>
        rw [findFromIsoCode_invalid T w q e he]
        simp
  · intro e he
    refine ⟨findFromIsoCode_invalid T w q e he, rfl, ?_⟩
    obtain ⟨_, message, hm⟩ := validateISOCode_error T q e he
    exact ⟨_, hm⟩

/-- C24, on the sample dataset at the input `"<script>"`, which both validators
reject. -/
theorem C24_errors_are_validation_errors_witness :
    (LookupViaCity CaseTable.caseless (.loaded sampleCities) NewSearchCache
        "<script>".toList).1
      = (.null, some (.wrapError
          ("invalid input: validation error for field 'input': ".toList
            ++ "input contains potentially suspicious patterns".toList)
          (.validation
            { Field := "input".toList,
              Message := "input contains potentially suspicious patterns".toList,
              Value := none }))) ∧
    FindFromIsoCode CaseTable.caseless (.loaded sampleCities) "<script>".toList
      = (.null, some (.wrapError
          ("invalid ISO code: validation error for field 'isoCode': ".toList
            ++ "ISO code must be 2 or 3 characters".toList)
          (.validation
            { Field := "isoCode".toList,
              Message := "ISO code must be 2 or 3 characters".toList,
              Value := none }))) :=
  ⟨(((C24_errors_are_validation_errors CaseTable.caseless (.loaded sampleCities) rfl
      NewSearchCache "<script>".toList).1.2
        (.validation
          { Field := "input".toList,
            Message := "input contains potentially suspicious patterns".toList,
            Value := none })
        (by decide)).1).trans (by decide),
    (((C24_errors_are_validation_errors CaseTable.caseless (.loaded sampleCities) rfl
      NewSearchCache "<script>".toList).2.2.2
        (.validation
          { Field := "isoCode".toList,
            Message := "ISO code must be 2 or 3 characters".toList,
            Value := none })
        (by decide)).1).trans (by decide)⟩

end city

namespace city

/-- On an input that validation accepts, an error of `LookupViaCity` is the error of the
load. -/
theorem lookupViaCity_error_of_valid (T : CaseTable) (w : LoadOutcome)
    (searchCache : SearchCache) (q : GoString) (err : GoError)
    (h : (ValidateSearchInput T q 100).2 = none)
    (herr : (LookupViaCity T w searchCache q).1.2 = some err) : w.loadError = some err := by
  cases hload : w.loadError with
  | none =>
    rw [lookupViaCity_no_error T w hload searchCache q h] at herr
    exact absurd herr (by simp)
  | some e =>
    obtain ⟨v, e', hv⟩ : ∃ v e', ValidateSearchInput T q 100 = (v, e') := ⟨_, _, rfl⟩
    rw [hv] at h
    simp only at h
    subst h
    by_cases hne : v = []
    · subst hne
      rw [lookupViaCity_empty T w searchCache q hv] at herr
      exact absurd herr (by simp)
    · cases hlook : searchCache.cache.lookup ("city:".toList ++ strings.ToLower T v) with
      | some stored =>
        rw [lookupViaCity_hit T w searchCache q v stored hv hne hlook] at herr
        exact absurd herr (by simp)
      | none =>
        rw [(lookupViaCity_miss T w searchCache q v hv hne hlook).1 e hload] at herr
        exact herr

/-- On an input that validation accepts, an error of `FindFromCityStateProvince` is the
error of the load. -/
theorem findFromCityStateProvince_error_of_valid (T : CaseTable) (w : LoadOutcome)
    (q : GoString) (err : GoError)
    (h : (ValidateSearchInput T q 200).2 = none)
    (herr : (FindFromCityStateProvince T w q).2 = some err) : w.loadError = some err := by
  cases hload : w.loadError with
  | none =>
    rw [findFromCityStateProvince_no_error T w hload q h] at herr
    exact absurd herr (by simp)
  | some e =>
    obtain ⟨v, e', hv⟩ : ∃ v e', ValidateSearchInput T q 200 = (v, e') := ⟨_, _, rfl⟩
    rw [hv] at h
    simp only at h
    subst h
    by_cases hne : v = []
    · subst hne
      rw [findFromCityStateProvince_empty T w q hv] at herr
      exact absurd herr (by simp)
    · rw [(findFromCityStateProvince_valid T w q v hv hne).1 e hload] at herr
      exact herr

/-- On an input that validation accepts, an error of `FindFromIsoCode` is the error of
the load. -/
theorem findFromIsoCode_error_of_valid (T : CaseTable) (w : LoadOutcome)
    (isoCode : GoString) (err : GoError)
    (h : (ValidateISOCode T isoCode).2 = none)
    (herr : (FindFromIsoCode T w isoCode).2 = some err) : w.loadError = some err := by
  cases hload : w.loadError with
  | none =>
    rw [findFromIsoCode_no_error T w hload isoCode h] at herr
    exact absurd herr (by simp)
  | some e =>
    obtain ⟨v, e', hv⟩ : ∃ v e', ValidateISOCode T isoCode = (v, e') := ⟨_, _, rfl⟩
    rw [hv] at h
    simp only at h
    subst h
    by_cases hne : v = []
    · subst hne
      simp only [FindFromIsoCode, hv, if_true] at herr
      exact absurd herr (by simp)
    · rw [(findFromIsoCode_valid T w isoCode v hv hne).1 e hload] at herr
      exact herr

/-- An error of `SearchCities` is the error of the load. -/
theorem searchCities_error (T : CaseTable) (w : LoadOutcome) (query : GoString)
    (options : SearchOptions) (err : GoError)
    (herr : (SearchCities T w query options).2 = some err) : w.loadError = some err := by
  by_cases hq : query = []
  · subst hq
    simp [SearchCities] at herr
  · cases hload : w.loadError with
    | none =>
      rw [(searchCities_nonempty T w query options hq).2 hload] at herr
      exact absurd herr (by simp)
    | some e =>
      rw [(searchCities_nonempty T w query options hq).1 e hload] at herr
      exact herr

/-- C25, amended. Every error returned by `LookupViaCity`, `FindFromCityStateProvince` or
`FindFromIsoCode` is either, when validation failed, the error built by `fmt.Errorf`
from the text `"invalid input: "` or `"invalid ISO code: "` that wraps the underlying
`ValidationError`, or, when validation passed and the dataset could not be loaded, the
error of `LoadCityData` as it is; every error returned by `SearchCities` is the error of
`LoadCityData` as it is; an error built by `fmt.Errorf` is not a `SearchError`. -/
theorem C25_errors_returned (T : CaseTable) (w : LoadOutcome) (searchCache : SearchCache)
    (q : GoString) (options : SearchOptions) (err : GoError) :
    ((LookupViaCity T w searchCache q).1.2 = some err →
      (∃ e ve, (ValidateSearchInput T q 100).2 = some e ∧ e = .validation ve ∧
        err = fmt.Errorf "invalid input: ".toList e ∧ err.Unwrap = some e) ∨
      ((ValidateSearchInput T q 100).2 = none ∧ w.loadError = some err)) ∧
    ((FindFromCityStateProvince T w q).2 = some err →
      (∃ e ve, (ValidateSearchInput T q 200).2 = some e ∧ e = .validation ve ∧
        err = fmt.Errorf "invalid input: ".toList e ∧ err.Unwrap = some e) ∨
      ((ValidateSearchInput T q 200).2 = none ∧ w.loadError = some err)) ∧
    ((FindFromIsoCode T w q).2 = some err →
      (∃ e ve, (ValidateISOCode T q).2 = some e ∧ e = .validation ve ∧
        err = fmt.Errorf "invalid ISO code: ".toList e ∧ err.Unwrap = some e) ∨
      ((ValidateISOCode T q).2 = none ∧ w.loadError = some err)) ∧
    ((SearchCities T w q options).2 = some err → w.loadError = some err) ∧
    (∀ (text : GoString) (e : GoError) (query operation : GoString) (cause : GoError),
      fmt.Errorf text e ≠ .search query operation cause) := by
  refine ⟨?_, ?_, ?_, searchCities_error T w q options err, ?_⟩
  · intro herr
    cases he : (ValidateSearchInput T q 100).2 with
    | none => exact Or.inr ⟨rfl, lookupViaCity_error_of_valid T w searchCache q err he herr⟩
    | some e =>
      obtain ⟨_, message, hm⟩ := validateSearchInput_error T q 100 e he
      rw [lookupViaCity_invalid T w searchCache q e he] at herr
      have herr' : fmt.Errorf "invalid input: ".toList e = err := Option.some.inj herr
      exact Or.inl ⟨e, _, rfl, hm, herr'.symm, by rw [← herr']; rfl⟩
  · intro herr
    cases he : (ValidateSearchInput T q 200).2 with
    | none => exact Or.inr ⟨rfl, findFromCityStateProvince_error_of_valid T w q err he herr⟩
    | some e =>
      obtain ⟨_, message, hm⟩ := validateSearchInput_error T q 200 e he
      rw [findFromCityStateProvince_invalid T w q e he] at herr
      have herr' : fmt.Errorf "invalid input: ".toList e = err := Option.some.inj herr
      exact Or.inl ⟨e, _, rfl, hm, herr'.symm, by rw [← herr']; rfl⟩
  · intro herr
    cases he : (ValidateISOCode T q).2 with
    | none => exact Or.inr ⟨rfl, findFromIsoCode_error_of_valid T w q err he herr⟩
    | some e =>
      obtain ⟨_, message, hm⟩ := validateISOCode_error T q e he
      rw [findFromIsoCode_invalid T w q e he] at herr
      have herr' : fmt.Errorf "invalid ISO code: ".toList e = err := Option.some.inj herr
      exact Or.inl ⟨e, _, rfl, hm, herr'.symm, by rw [← herr']; rfl⟩
  · intro text e query operation cause h
    unfold fmt.Errorf at h
    cases h

/-- C25, amended, on a dataset that failed to load: `SearchCities` returns the error of
the load as it is. -/
theorem C25_errors_returned_witness :
    (SearchCities CaseTable.caseless
        { cityData := .null,
          loadError := some (.errorString "failed to get current file path".toList) }
        "Chicago".toList DefaultSearchOptions).2
      = some (.errorString "failed to get current file path".toList) ∧
    ({ cityData := .null,
       loadError := some (.errorString "failed to get current file path".toList) }
      : LoadOutcome).loadError
      = some (.errorString "failed to get current file path".toList) :=
  ⟨by decide,
    (C25_errors_returned CaseTable.caseless
      { cityData := .null,
        loadError := some (.errorString "failed to get current file path".toList) }
      NewSearchCache "Chicago".toList DefaultSearchOptions
      (.errorString "failed to get current file path".toList)).2.2.2.1 (by decide)⟩

/-- C25, as stated, fails: the error that `LookupViaCity` returns for `"<script>"` is
the one built by `fmt.Errorf`, not a `SearchError`; and on a dataset that failed to load,
the error that `SearchCities` returns is the error of the load, not a `SearchError`. -/
theorem C25_counterexample :
    ((LookupViaCity CaseTable.caseless (.loaded sampleCities) NewSearchCache
        "<script>".toList).1.2
      = some (.wrapError
          ("invalid input: validation error for field 'input': ".toList
            ++ "input contains potentially suspicious patterns".toList)
          (.validation
            { Field := "input".toList,
              Message := "input contains potentially suspicious patterns".toList,
              Value := none })) ∧
      ¬ ∃ query operation cause,
        (LookupViaCity CaseTable.caseless (.loaded sampleCities) NewSearchCache
          "<script>".toList).1.2 = some (.search query operation cause)) ∧
    ((SearchCities CaseTable.caseless
        { cityData := .null,
          loadError := some (.errorString "failed to get current file path".toList) }
        "Chicago".toList DefaultSearchOptions).2
      = some (.errorString "failed to get current file path".toList) ∧
      ¬ ∃ query operation cause,
        (SearchCities CaseTable.caseless
          { cityData := .null,
            loadError := some (.errorString "failed to get current file path".toList) }
          "Chicago".toList DefaultSearchOptions).2
        = some (.search query operation cause)) := by
  have h1 : (LookupViaCity CaseTable.caseless (.loaded sampleCities) NewSearchCache
        "<script>".toList).1.2
      = some (.wrapError
          ("invalid input: validation error for field 'input': ".toList
            ++ "input contains potentially suspicious patterns".toList)
          (.validation
            { Field := "input".toList,
              Message := "input contains potentially suspicious patterns".toList,
              Value := none })) := by decide
  have h2 : (SearchCities CaseTable.caseless
        { cityData := .null,
          loadError := some (.errorString "failed to get current file path".toList) }
        "Chicago".toList DefaultSearchOptions).2
      = some (.errorString "failed to get current file path".toList) := by decide
  refine ⟨⟨h1, ?_⟩, ⟨h2, ?_⟩⟩
  · rintro ⟨query, operation, cause, h⟩
    rw [h1] at h
    cases h
  · rintro ⟨query, operation, cause, h⟩
    rw [h2] at h
    cases h

end city

/-! ### Search entry points: no matches, term order, raw queries -/

namespace city

/-- The slice that the collecting loop of the search functions returns: `results` as it
was when no record matches, else the non-nil slice of `results` followed by the
matches. -/
theorem collect_eq (p : CityData → Bool) (l : List CityData) :
    ∀ results : GoSlice CityData,
      collect p l results =
        if l.filter p = [] then results else .items (results.toList ++ l.filter p) := by
  induction l with
  | nil => intro results; simp [collect]
  | cons c rest ih =>
    intro results
    by_cases h : p c = true
    · have hne : (c :: rest).filter p ≠ [] := by simp [List.filter_cons, h]
      rw [if_neg hne]
      simp only [collect, h, if_true, ih, GoSlice.toList_append, List.filter_cons]
      split
      · rename_i hnil
        rw [hnil]
        simp [GoSlice.append]
      · simp
    · simp only [collect, h, Bool.false_eq_true, if_false, ih, List.filter_cons]

/-- C26, the failing inputs. On the sample dataset, with validation and loading
succeeding and no record matching, each of `LookupViaCity`, `FindFromCityStateProvince`,
`FindFromIsoCode` and `SearchCities` returns the nil slice; the empty query returns the
non-nil empty slice in each of them. -/
theorem C26_no_match_returns_nil :
    ((LookupViaCity CaseTable.caseless (.loaded sampleCities) NewSearchCache
        "Atlantis".toList).1 = (.null, none) ∧
      FindFromCityStateProvince CaseTable.caseless (.loaded sampleCities) "Atlantis".toList
        = (.null, none) ∧
      FindFromIsoCode CaseTable.caseless (.loaded sampleCities) "ZZ".toList = (.null, none) ∧
      SearchCities CaseTable.caseless (.loaded sampleCities) "Atlantis".toList
        DefaultSearchOptions = (.null, none)) ∧
    (GoSlice.null : GoSlice CityData).isNil = true ∧
    ((LookupViaCity CaseTable.caseless (.loaded sampleCities) NewSearchCache []).1
        = (.items [], none) ∧
      FindFromCityStateProvince CaseTable.caseless (.loaded sampleCities) []
        = (.items [], none) ∧
      FindFromIsoCode CaseTable.caseless (.loaded sampleCities) [] = (.items [], none) ∧
      SearchCities CaseTable.caseless (.loaded sampleCities) [] DefaultSearchOptions
        = (.items [], none)) ∧
    (GoSlice.items ([] : List CityData)).isNil = false := by
  decide

end city

namespace strings

theorem fieldsLoop_ne_nil (s : GoString) :
    ∀ cur : GoString, cur ≠ [] → fieldsLoop s cur ≠ [] := by
  induction s with
  | nil =>
    intro cur hcur
    simp [fieldsLoop, hcur]
  | cons c cs ih =>
    intro cur hcur
    unfold fieldsLoop
    cases hsp : unicode.IsSpace c with
    | true => simp [hcur]
    | false =>
      simp only [Bool.false_eq_true, if_false]
      exact ih (c :: cur) (List.cons_ne_nil c cur)

/-- A non-empty trimmed string has at least one field. -/
theorem fields_trimSpace_ne_nil (T : CaseTable) (q : GoString) (h : TrimSpace q ≠ []) :
    Fields (ToLower T (TrimSpace q)) ≠ [] := by
  rw [fields_toLower]
  obtain ⟨_, _, _, _, _, hhead, _⟩ := trimSpace_shape q
  cases hv : TrimSpace q with
  | nil => exact absurd hv h
  | cons c cs =>
    rw [hv] at hhead
    have hc : unicode.IsSpace c = false := hhead c rfl
    have : Fields (c :: cs) ≠ [] := by
      unfold Fields fieldsLoop
      simp only [hc, Bool.false_eq_true, if_false]
      exact fieldsLoop_ne_nil cs [c] (List.cons_ne_nil c [])
    intro hmap
    exact this (List.map_eq_nil_iff.mp hmap)

end strings

namespace city

/-- C27. `FindFromCityStateProvince` does not depend on the order, repetition or spacing
of the search terms: two queries that validation accepts and whose lowercased
white-space-separated terms form the same set return the same result. -/
theorem C27_term_order_is_irrelevant (T : CaseTable) (w : LoadOutcome) (q1 q2 : GoString)
    (hvalid1 : (ValidateSearchInput T q1 200).2 = none)
    (hvalid2 : (ValidateSearchInput T q2 200).2 = none)
    (hterms : ∀ term, term ∈ strings.Fields (strings.ToLower T (strings.TrimSpace q1)) ↔
      term ∈ strings.Fields (strings.ToLower T (strings.TrimSpace q2))) :
    FindFromCityStateProvince T w q1 = FindFromCityStateProvince T w q2 := by
  obtain ⟨v1, e1, hv1⟩ : ∃ v e, ValidateSearchInput T q1 200 = (v, e) := ⟨_, _, rfl⟩
  obtain ⟨v2, e2, hv2⟩ : ∃ v e, ValidateSearchInput T q2 200 = (v, e) := ⟨_, _, rfl⟩
  rw [hv1] at hvalid1
  rw [hv2] at hvalid2
  simp only at hvalid1 hvalid2
  subst hvalid1 hvalid2
  have ht1 := (validateSearchInput_ok T q1 200 v1 hv1).1
  have ht2 := (validateSearchInput_ok T q2 200 v2 hv2).1
  subst ht1 ht2
  have hempty : strings.TrimSpace q1 = [] ↔ strings.TrimSpace q2 = [] := by
    constructor
    · intro h
      by_contra h2
      have hne := strings.fields_trimSpace_ne_nil T q2 h2
      obtain ⟨t, ht⟩ := List.exists_mem_of_ne_nil _ hne
      have := (hterms t).mpr ht
      rw [h] at this
      simp [strings.ToLower, strings.Fields, strings.fieldsLoop] at this
    · intro h
      by_contra h1
      have hne := strings.fields_trimSpace_ne_nil T q1 h1
      obtain ⟨t, ht⟩ := List.exists_mem_of_ne_nil _ hne
      have := (hterms t).mp ht
      rw [h] at this
      simp [strings.ToLower, strings.Fields, strings.fieldsLoop] at this
  by_cases h1 : strings.TrimSpace q1 = []
  · have h2 := hempty.mp h1
    rw [h1] at hv1
    rw [h2] at hv2
    rw [findFromCityStateProvince_empty T w q1 hv1, findFromCityStateProvince_empty T w q2 hv2]
  · have h2 : strings.TrimSpace q2 ≠ [] := fun h => h1 (hempty.mpr h)
    have hpred : (fun city => findPartialMatch T city
          (strings.Fields (strings.ToLower T (strings.TrimSpace q1))))
        = (fun city => findPartialMatch T city
          (strings.Fields (strings.ToLower T (strings.TrimSpace q2)))) := by
      funext city
      rw [Bool.eq_iff_iff, findPartialMatch_iff, findPartialMatch_iff]
      constructor
      · intro h term ht
        exact h term ((hterms term).mpr ht)
      · intro h term ht
        exact h term ((hterms term).mp ht)
    cases hload : w.loadError with
    | some err =>
      rw [(findFromCityStateProvince_valid T w q1 _ hv1 h1).1 err hload,
        (findFromCityStateProvince_valid T w q2 _ hv2 h2).1 err hload]
    | none =>
      rw [(findFromCityStateProvince_valid T w q1 _ hv1 h1).2 hload,
        (findFromCityStateProvince_valid T w q2 _ hv2 h2).2 hload, hpred]

/-- C27, on the sample dataset, at the queries `"spring mo"` and `" MO  Spring mo "`. -/
theorem C27_term_order_is_irrelevant_witness :
    FindFromCityStateProvince CaseTable.caseless (.loaded sampleCities) "spring mo".toList
      = FindFromCityStateProvince CaseTable.caseless (.loaded sampleCities)
          " MO  Spring mo ".toList :=
  C27_term_order_is_irrelevant CaseTable.caseless (.loaded sampleCities) "spring mo".toList
    " MO  Spring mo ".toList (by decide) (by decide)
    (by
      have h1 : strings.Fields (strings.ToLower CaseTable.caseless
          (strings.TrimSpace "spring mo".toList)) = ["spring".toList, "mo".toList] := by
        decide
      have h2 : strings.Fields (strings.ToLower CaseTable.caseless
          (strings.TrimSpace " MO  Spring mo ".toList))
            = ["mo".toList, "spring".toList, "mo".toList] := by
        decide
      intro term
      rw [h1, h2]
      simp only [List.mem_cons, List.mem_singleton, List.not_mem_nil, or_false]
      tauto)

end city

/-- Lower-casing leaves white space unchanged. -/
theorem unicode.toLower_space (T : CaseTable) (r : Char) (h : unicode.IsSpace r = true) :
    unicode.ToLower T r = r := by
  unfold unicode.ToLower
  by_cases hascii : r.toNat ≤ unicode.MaxASCII
  · have ha : 'A'.toNat = 65 := rfl
    have hz : 'Z'.toNat = 90 := rfl
    have hnot : ¬ ('A'.toNat ≤ r.toNat ∧ r.toNat ≤ 'Z'.toNat) := by
      rw [ha, hz]
      unfold unicode.IsSpace at h
      unfold unicode.MaxASCII at hascii
      have hl : r.toNat ≤ unicode.MaxLatin1 := by
        unfold unicode.MaxLatin1
        omega
      simp only [hl, if_true, Bool.or_eq_true, decide_eq_true_eq] at h
      omega
    simp only [hascii, if_true, hnot, if_false]
  · simp only [hascii, if_false]
    exact T.lower_space r h

namespace city

/-- The records that `SearchCities` returns for a non-empty query when the dataset
loaded. -/
theorem searchCities_records (T : CaseTable) (w : LoadOutcome) (hload : w.loadError = none)
    (query : GoString) (options : SearchOptions) (hquery : query ≠ []) :
    (SearchCities T w query options).2 = none ∧
    (SearchCities T w query options).1.toList =
      w.cityData.toList.filter (fun (c : CityData) =>
        decide (∃ field ∈ [c.City, c.CityASCII, c.StateANSI, c.Province, c.Country,
            c.ISO2, c.ISO3],
          if options.ExactMatch = true then
            (if options.CaseSensitive = true then field else strings.ToLower T field)
              = (if options.CaseSensitive = true then query else strings.ToLower T query)
          else
            (if options.CaseSensitive = true then query else strings.ToLower T query)
              <:+: (if options.CaseSensitive = true then field
                    else strings.ToLower T field))) := by
  rw [(searchCities_nonempty T w query options hquery).2 hload]
  refine ⟨rfl, ?_⟩
  simp only [collect_null_toList]
  apply List.filter_congr
  intro c _
  rw [Bool.eq_iff_iff]
  unfold matchesCity
  rw [List.any_eq_true, decide_eq_true_iff]
  constructor
  · rintro ⟨field, hmem, hm⟩
    refine ⟨field, hmem, ?_⟩
    rw [matchesField_iff] at hm
    cases hcs : options.CaseSensitive <;> simpa [hcs] using hm
  · rintro ⟨field, hmem, hm⟩
    refine ⟨field, hmem, ?_⟩
    rw [matchesField_iff]
    cases hcs : options.CaseSensitive <;> simpa [hcs] using hm

/-- C28. `SearchCities` applies no validation or sanitization: for every non-empty query,
whatever `ValidateSearchInput` says of it, it returns no error when the dataset loaded,
and it matches the query as given, lowercased unless `CaseSensitive` is set and not
trimmed; a query of 101 bytes and the query `"<script>"`, both rejected by
`ValidateSearchInput` with bound 100, are searched for without error. -/
theorem C28_searchCities_does_not_validate (T : CaseTable) (w : LoadOutcome)
    (hload : w.loadError = none) (options : SearchOptions) :
    (∀ query : GoString, query ≠ [] →
      (SearchCities T w query options).2 = none ∧
      (SearchCities T w query options).1.toList =
        w.cityData.toList.filter (fun (c : CityData) =>
          decide (∃ field ∈ [c.City, c.CityASCII, c.StateANSI, c.Province, c.Country,
              c.ISO2, c.ISO3],
            if options.ExactMatch = true then
              (if options.CaseSensitive = true then field else strings.ToLower T field)
                = (if options.CaseSensitive = true then query else strings.ToLower T query)
            else
              (if options.CaseSensitive = true then query else strings.ToLower T query)
                <:+: (if options.CaseSensitive = true then field
                      else strings.ToLower T field)))) ∧
    ((ValidateSearchInput T (List.replicate 101 'a') 100).2 ≠ none ∧
      (SearchCities T w (List.replicate 101 'a') options).2 = none) ∧
    ((ValidateSearchInput T "<script>".toList 100).2 ≠ none ∧
      (SearchCities T w "<script>".toList options).2 = none) := by
  refine ⟨fun query hq => searchCities_records T w hload query options hq,
    ⟨?_, ?_⟩, ⟨?_, ?_⟩⟩
  · have hlen : (len (List.replicate 101 'a') : Int) > 100 := by decide
    have hne : List.replicate 101 'a' ≠ [] := by decide
    unfold ValidateSearchInput
    simp only [hne, hlen, if_false, if_true]
    simp
  · exact (searchCities_records T w hload _ options (by decide)).1
  · have hsus : containsSuspiciousPatterns T (strings.TrimSpace "<script>".toList) = true := by
      rw [containsSuspiciousPatterns_iff]
      exact ⟨"<script".toList, by decide, ⟨[], ">".toList, rfl⟩⟩
    rw [validateSearchInput_within T _ 100 (by decide), hsus]
    simp
  · exact (searchCities_records T w hload _ options (by decide)).1

/-- C28, on the sample dataset: the query `" Chicago"`, with its leading space, finds
nothing, whereas `"Chicago"` finds the record of Chicago. -/
theorem C28_searchCities_does_not_validate_witness :
    (SearchCities CaseTable.caseless (.loaded sampleCities) " Chicago".toList
        DefaultSearchOptions).2 = none ∧
    (SearchCities CaseTable.caseless (.loaded sampleCities) " Chicago".toList
        DefaultSearchOptions).1.toList = [] ∧
    (SearchCities CaseTable.caseless (.loaded sampleCities) "Chicago".toList
        DefaultSearchOptions).1.toList
      = [sampleCity "Chicago" "IL" "Illinois" "United States of America" "US" "USA"] :=
  ⟨((C28_searchCities_does_not_validate CaseTable.caseless (.loaded sampleCities) rfl
      DefaultSearchOptions).1 " Chicago".toList (by decide)).1,
    by decide, by decide⟩

/-- What `SearchCities` does with a non-empty query of white space only: it returns no
error when the dataset loaded, and exactly the records one of whose seven fields,
lowercased unless `CaseSensitive` is set, contains that run of white space, or equals it
when `ExactMatch` is set; the result is empty exactly when no record has such a field. -/
theorem searchCities_whitespace (T : CaseTable) (w : LoadOutcome) (hload : w.loadError = none)
    (query : GoString) (options : SearchOptions) (hquery : query ≠ [])
    (hspace : ∀ c ∈ query, unicode.IsSpace c = true) :
    (SearchCities T w query options).2 = none ∧
    (SearchCities T w query options).1.toList =
      w.cityData.toList.filter (fun (c : CityData) =>
        decide (∃ field ∈ [c.City, c.CityASCII, c.StateANSI, c.Province, c.Country,
            c.ISO2, c.ISO3],
          if options.ExactMatch = true then
            (if options.CaseSensitive = true then field else strings.ToLower T field) = query
          else
            query <:+: (if options.CaseSensitive = true then field
                        else strings.ToLower T field))) ∧
    ((SearchCities T w query options).1.toList = [] ↔
      ∀ c ∈ w.cityData.toList,
        ¬ ∃ field ∈ [c.City, c.CityASCII, c.StateANSI, c.Province, c.Country,
            c.ISO2, c.ISO3],
          if options.ExactMatch = true then
            (if options.CaseSensitive = true then field else strings.ToLower T field) = query
          else
            query <:+: (if options.CaseSensitive = true then field
                        else strings.ToLower T field)) := by
  have hlower : strings.ToLower T query = query := by
    unfold strings.ToLower
    conv_rhs => rw [← List.map_id query]
    exact List.map_congr_left (fun r hr => unicode.toLower_space T r (hspace r hr))
  have hfold : (if options.CaseSensitive = true then query else strings.ToLower T query)
      = query := by
    rw [hlower]
    simp
  obtain ⟨h1, h2⟩ := searchCities_records T w hload query options hquery
  rw [hfold] at h2
  refine ⟨h1, h2, ?_⟩
  rw [h2, List.filter_eq_nil_iff]
  constructor
  · intro h c hc
    have := h c hc
    simpa using this
  · intro h c hc
    have := h c hc
    simpa using this

/-- C29, the failing input. On the sample dataset `SearchCities` with the query of one
space and the default options returns, without error, the three records whose country is
`"United States of America"`, where the claim gives an empty sequence; the query of three
spaces, the one the repository's test `Whitespace search string` tries, finds nothing
only because no field holds three spaces in a row; the sibling entry points
`LookupViaCity` and `FindFromCityStateProvince` return the empty sequence for the query
of one space. -/
theorem C29_whitespace_query_finds_records :
    (∀ c ∈ " ".toList, unicode.IsSpace c = true) ∧
    (SearchCities CaseTable.caseless (.loaded sampleCities) " ".toList
        DefaultSearchOptions).2 = none ∧
    (SearchCities CaseTable.caseless (.loaded sampleCities) " ".toList
        DefaultSearchOptions).1.toList
      = [ sampleCity "Chicago" "IL" "Illinois" "United States of America" "US" "USA",
          sampleCity "Springfield" "IL" "Illinois" "United States of America" "US" "USA",
          sampleCity "Springfield" "MO" "Missouri" "United States of America" "US" "USA" ] ∧
    (SearchCities CaseTable.caseless (.loaded sampleCities) "   ".toList
        DefaultSearchOptions).1.toList = [] ∧
    (LookupViaCity CaseTable.caseless (.loaded sampleCities) NewSearchCache
        " ".toList).1 = (.items [], none) ∧
    FindFromCityStateProvince CaseTable.caseless (.loaded sampleCities) " ".toList
      = (.items [], none) := by
  decide

/-- C30, the failing inputs. `ValidateISOCode` chooses its rule by the number of bytes
of the normalized code: the code of the single character `×`, two bytes long, fails with
the ISO2-format message, and the code `U×` of two characters, three bytes long, fails
with the ISO3-format message. -/
theorem C30_length_is_counted_in_bytes :
    ("×".toList.length = 1 ∧ len "×".toList = 2 ∧
      ValidateISOCode CaseTable.caseless "×".toList =
        ([], some (.validation
          { Field := "isoCode".toList,
            Message := "invalid ISO2 country code format".toList,
            Value := none }))) ∧
    ("U×".toList.length = 2 ∧ len "U×".toList = 3 ∧
      ValidateISOCode CaseTable.caseless "U×".toList =
        ([], some (.validation
          { Field := "isoCode".toList,
            Message := "invalid ISO3 country code format".toList,
            Value := none }))) := by
  decide

end city

/-! ### The loader -/

namespace city

/-- Once `loadOnce` has run, a call returns the package variables and changes nothing. -/
theorem Loader.call_done (source : Source) (l : Loader) (c : LoaderCall)
    (hdone : l.done = true) :
    Loader.call source l c = ((l.cityData, l.loadError), l) := by
  cases c <;> simp [Loader.call, Loader.GetCityData, Loader.LoadCityData, hdone]

theorem Loader.calls_done (source : Source) (calls : List LoaderCall) :
    ∀ l : Loader, l.done = true →
      Loader.calls source l calls
        = (List.replicate calls.length (l.cityData, l.loadError), l) := by
  induction calls with
  | nil => intro l _; rfl
  | cons c rest ih =>
    intro l hdone
    simp only [Loader.calls, Loader.call_done source l c hdone, ih l hdone,
      List.length_cons, List.replicate_succ]

/-- The first call runs `loadCityDataFromFile` once and stores what it returns. -/
theorem Loader.call_initial (source : Source) (c : LoaderCall) :
    Loader.call source Loader.initial c
      = (source 0, { cityData := (source 0).1, loadError := (source 0).2, done := true,
                     reads := 1 }) := by
  cases c <;> rfl

/-- C31. From the start of the process, whatever `loadCityDataFromFile` returns at each
of its executions, every call of `LoadCityData` or `GetCityData` in a sequence of calls
returns what the first execution returned (the same records after a success, the same
error after a failure); after the first call `loadCityDataFromFile` has run exactly once,
and never more than once (not at all before the first call); the outcome kept in the
package variables is the one every later call of `LoadCityData` returns. -/
theorem C31_load_once (source : Source) (first : LoaderCall) (later : List LoaderCall) :
    (Loader.calls source Loader.initial (first :: later)).1
        = List.replicate (later.length + 1) (source 0) ∧
      (Loader.calls source Loader.initial (first :: later)).2.reads = 1 ∧
      (Loader.calls source Loader.initial []).2.reads = 0 ∧
      LoadCityData
          { cityData := (Loader.calls source Loader.initial (first :: later)).2.cityData,
            loadError := (Loader.calls source Loader.initial (first :: later)).2.loadError }
        = source 0 := by
  have h := Loader.calls_done source later
    { cityData := (source 0).1, loadError := (source 0).2, done := true, reads := 1 } rfl
  have hrun : Loader.calls source Loader.initial (first :: later)
      = (source 0 :: List.replicate later.length (source 0),
        { cityData := (source 0).1, loadError := (source 0).2, done := true, reads := 1 }) := by
    simp only [Loader.calls, Loader.call_initial, h]
  rw [hrun]
  exact ⟨rfl, rfl, rfl, rfl⟩

end city

/-! ### Error messages -/

namespace city

/-- C32. For every field, message and value, `ValidationError.Error()` is
`validation error for field '<field>': <message>`, followed by ` (value: <value>)` when
the value is not the nil interface (whatever it renders as, the empty string included)
and by nothing when the value is nil; so the message with a value is never the message
without one. -/
theorem C32_validation_error_text (field message : GoString) :
    (∀ v : GoString,
      ValidationError.Error { Field := field, Message := message, Value := some v }
        = "validation error for field '".toList ++ field ++ "': ".toList ++ message
          ++ " (value: ".toList ++ v ++ ")".toList) ∧
    ValidationError.Error { Field := field, Message := message, Value := some [] }
        = "validation error for field '".toList ++ field ++ "': ".toList ++ message
          ++ " (value: )".toList ∧
    ValidationError.Error { Field := field, Message := message, Value := none }
        = "validation error for field '".toList ++ field ++ "': ".toList ++ message ∧
    (∀ v : GoString,
      ValidationError.Error { Field := field, Message := message, Value := some v }
        ≠ ValidationError.Error { Field := field, Message := message, Value := none }) := by
  refine ⟨fun v => rfl, ?_, rfl, ?_⟩
  · simp [ValidationError.Error]
  · intro v h
    have hlen := congrArg List.length h
    simp [ValidationError.Error] at hlen

end city

/-! ### The resource manager: negative amounts -/

namespace city

/-- C40. The counters are not protected against negative amounts. On every fresh manager
with a non-negative memory maximum and room for a search, whose `currentMB` is 0, for
every negative amount `m` above the least `int`: `Allocate(m)` returns true and leaves
`currentMB` at `m`, below zero; and `Release(m)` raises `currentMB` from 0 to `-m`, which
lies above `maxMemoryMB` whenever `-m` does. -/
theorem C40_negative_amounts (maxMemoryMB maxSearches m : Int)
    (hmem : 0 ≤ maxMemoryMB) (hsearch : 0 < maxSearches)
    (hm : m < 0) (hmin : minInt64 < m) :
    (NewResourceManager maxMemoryMB maxSearches).currentMB = 0 ∧
    ((NewResourceManager maxMemoryMB maxSearches).Allocate m).1 = true ∧
    ((NewResourceManager maxMemoryMB maxSearches).Allocate m).2.currentMB = m ∧
    ((NewResourceManager maxMemoryMB maxSearches).Allocate m).2.currentMB < 0 ∧
    ((NewResourceManager maxMemoryMB maxSearches).Release m).currentMB = -m ∧
    (maxMemoryMB < -m →
      (NewResourceManager maxMemoryMB maxSearches).currentMB ≤ maxMemoryMB ∧
      ((NewResourceManager maxMemoryMB maxSearches).Release m).currentMB > maxMemoryMB) := by
  have hsum : wrapInt64 (0 + m) = m :=
    by rw [zero_add]; exact wrapInt64_of_range m (le_of_lt hmin) (by unfold maxInt64; omega)
  have hdiff : wrapInt64 (0 - m) = -m := by
    rw [zero_sub]
    exact wrapInt64_of_range (-m) (by unfold minInt64; omega)
      (by unfold minInt64 at hmin; unfold maxInt64; omega)
  have halloc : (NewResourceManager maxMemoryMB maxSearches).Allocate m
      = (true, { maxMemoryMB := maxMemoryMB, currentMB := m, activeSearch := wrapInt64 (0 + 1),
                 maxSearches := maxSearches }) := by
    rw [ResourceManager.allocate_eq]
    simp only [NewResourceManager, hsum]
    rw [if_pos ⟨by omega, hsearch⟩]
  have hrel : ((NewResourceManager maxMemoryMB maxSearches).Release m).currentMB = -m := by
    rw [(ResourceManager.release_eq _ m).1]
    simp only [NewResourceManager]
    rw [if_pos (by omega), hdiff]
  refine ⟨rfl, ?_, ?_, ?_, hrel, ?_⟩
  · rw [halloc]
  · rw [halloc]
  · rw [halloc]
    exact hm
  · intro hover
    refine ⟨hmem, ?_⟩
    rw [hrel]
    exact hover

/-- C40, on a fresh manager with the maxima 500 and 50: `Allocate(-1)` returns true and
leaves `currentMB` at -1, and `Release(-600)` raises `currentMB` from 0 to 600, above the
maximum 500. -/
theorem C40_negative_amounts_witness :
    ((NewResourceManager 500 50).Allocate (-1)).1 = true ∧
    ((NewResourceManager 500 50).Allocate (-1)).2.currentMB = -1 ∧
    (NewResourceManager 500 50).currentMB = 0 ∧
    ((NewResourceManager 500 50).Release (-600)).currentMB = 600 ∧
    ((NewResourceManager 500 50).Release (-600)).currentMB
      > (NewResourceManager 500 50).maxMemoryMB :=
  ⟨(C40_negative_amounts 500 50 (-1) (by decide) (by decide) (by decide) (by decide)).2.1,
    (C40_negative_amounts 500 50 (-1) (by decide) (by decide) (by decide) (by decide)).2.2.1,
    rfl,
    (C40_negative_amounts 500 50 (-600) (by decide) (by decide) (by decide)
      (by decide)).2.2.2.2.1,
    ((C40_negative_amounts 500 50 (-600) (by decide) (by decide) (by decide)
      (by decide)).2.2.2.2.2 (by decide)).2⟩

end city

/-! ### Validators on their own output -/

namespace strings

/-- A string that neither starts nor ends with white space is its own trimmed form. -/
theorem trimSpace_of_ends (r : GoString)
    (hhead : ∀ c, r.head? = some c → unicode.IsSpace c = false)
    (hlast : ∀ c, r.getLast? = some c → unicode.IsSpace c = false) : TrimSpace r = r := by
  have hd : List.dropWhile unicode.IsSpace r = r := by
    cases r with
    | nil => rfl
    | cons a t => simp [List.dropWhile, hhead a rfl]
  unfold TrimSpace
  rw [hd]
  unfold List.rdropWhile
  have hr : List.dropWhile unicode.IsSpace r.reverse = r.reverse := by
    cases hrev : r.reverse with
    | nil => rfl
    | cons a t =>
      have : r.getLast? = some a := by
        rw [← List.head?_reverse, hrev]
        rfl
      simp [List.dropWhile, hlast a this]
  rw [hr, List.reverse_reverse]

/-- Trimming twice is trimming once. -/
theorem trimSpace_trimSpace (s : GoString) : TrimSpace (TrimSpace s) = TrimSpace s := by
  obtain ⟨_, _, _, _, _, hhead, hlast⟩ := trimSpace_shape s
  exact trimSpace_of_ends _ hhead hlast

/-- Trimming does not add bytes. -/
theorem len_trimSpace_le (s : GoString) : len (TrimSpace s) ≤ len s := by
  obtain ⟨l, t, hs, _⟩ := trimSpace_shape s
  have : len s = len l + len (TrimSpace s) + len t := by
    conv_lhs => rw [hs]
    simp only [len, List.map_append, List.sum_append]
  omega

end strings

namespace city

/-- C39. Both validators are idempotent on accepted input: if `ValidateSearchInput(s, n)`
returns `(r, nil)` then `ValidateSearchInput(r, n)` returns `(r, nil)`, and if
`ValidateISOCode(s)` returns `(c, nil)` then `ValidateISOCode(c)` returns `(c, nil)`. -/
theorem C39_validators_idempotent (T : CaseTable) (s r c : GoString) (n : Int) :
    (ValidateSearchInput T s n = (r, none) → ValidateSearchInput T r n = (r, none)) ∧
    (ValidateISOCode T s = (c, none) → ValidateISOCode T c = (c, none)) := by
  constructor
  · intro h
    obtain ⟨hr, hsusp, hlen⟩ := validateSearchInput_ok T s n r h
    by_cases h0 : r = []
    · subst h0
      simp [ValidateSearchInput]
    · have hs : s ≠ [] := by
        intro hs
        subst hs
        apply h0
        rw [hr]
        simp [strings.TrimSpace, List.rdropWhile]
      have hle : (len r : Int) ≤ n := by
        have h1 := strings.len_trimSpace_le s
        have h2 := hlen hs
        rw [← hr] at h1
        omega
      rw [validateSearchInput_within T r n hle]
      have htrim : strings.TrimSpace r = r := by
        rw [hr]
        exact strings.trimSpace_trimSpace s
      rw [htrim, hsusp]
      rfl
  · intro h
    by_cases h0 : c = []
    · subst h0
      simp [ValidateISOCode]
    · obtain ⟨_, _, hl, ha⟩ := validateISOCode_ok T s c h h0
      exact (validateISOCode_of_code T c hl ha).1

/-- C39, at the input `"  Springfield  "` with bound 100, accepted as `"Springfield"`,
and at the code `" us "`, accepted as `"US"`. -/
theorem C39_validators_idempotent_witness :
    (ValidateSearchInput CaseTable.caseless "  Springfield  ".toList 100
        = ("Springfield".toList, none) ∧
      ValidateSearchInput CaseTable.caseless "Springfield".toList 100
        = ("Springfield".toList, none)) ∧
    (ValidateISOCode CaseTable.caseless " us ".toList = ("US".toList, none) ∧
      ValidateISOCode CaseTable.caseless "US".toList = ("US".toList, none)) :=
  ⟨⟨by decide,
      (C39_validators_idempotent CaseTable.caseless "  Springfield  ".toList
        "Springfield".toList "US".toList 100).1 (by decide)⟩,
    ⟨by decide,
      (C39_validators_idempotent CaseTable.caseless " us ".toList
        "Springfield".toList "US".toList 100).2 (by decide)⟩⟩

end city

/-! ### The generic matcher: monotone in its options -/

namespace strings

/-- Lower-casing keeps a contiguous part a contiguous part. -/
theorem contains_toLower (T : CaseTable) (s substr : GoString)
    (h : Contains s substr = true) : Contains (ToLower T s) (ToLower T substr) = true := by
  rw [contains_iff] at h ⊢
  obtain ⟨a, b, hab⟩ := h
  refine ⟨ToLower T a, ToLower T b, ?_⟩
  rw [← hab]
  simp [ToLower]

/-- Every string contains itself. -/
theorem contains_self (s : GoString) : Contains s s = true := by
  exact (contains_iff s s).mpr ⟨[], [], by simp⟩

end strings

namespace city

/-- A field that matches exactly matches partially. -/
theorem matchesField_exact (T : CaseTable) (query field : GoString) (cs : Bool)
    (h : matchesField T query { CaseSensitive := cs, ExactMatch := true } field = true) :
    matchesField T query { CaseSensitive := cs, ExactMatch := false } field = true := by
  cases cs
  · simp only [matchesField, Bool.not_false, if_true, decide_eq_true_eq] at h
    simp only [matchesField, Bool.not_false, if_true, Bool.false_eq_true, if_false]
    rw [h]
    exact strings.contains_self query
  · simp only [matchesField, Bool.not_true, Bool.false_eq_true, if_false, if_true,
      decide_eq_true_eq] at h
    simp only [matchesField, Bool.not_true, Bool.false_eq_true, if_false]
    rw [h]
    exact strings.contains_self query

/-- A field that matches the query as written matches it, lowercased, once lowercased. -/
theorem matchesField_caseSensitive (T : CaseTable) (query field : GoString) (em : Bool)
    (h : matchesField T query { CaseSensitive := true, ExactMatch := em } field = true) :
    matchesField T (strings.ToLower T query) { CaseSensitive := false, ExactMatch := em }
      field = true := by
  cases em
  · simp only [matchesField, Bool.not_true, Bool.false_eq_true, if_false] at h
    simp only [matchesField, Bool.not_false, if_true, Bool.false_eq_true, if_false]
    exact strings.contains_toLower T field query h
  · simp only [matchesField, Bool.not_true, Bool.false_eq_true, if_false, if_true,
      decide_eq_true_eq] at h
    simp only [matchesField, Bool.not_false, if_true, decide_eq_true_eq]
    rw [h]

/-- The records of a search, as a filter of the dataset, whatever the outcome of the
load. -/
theorem searchCities_toList (T : CaseTable) (w : LoadOutcome) (query : GoString)
    (options : SearchOptions) :
    (SearchCities T w query options).1.toList =
      if query = [] ∨ w.loadError ≠ none then []
      else w.cityData.toList.filter (fun city => matchesCity T city
        (if !options.CaseSensitive then strings.ToLower T query else query) options) := by
  by_cases hq : query = []
  · subst hq
    simp [SearchCities, GoSlice.toList]
  · cases hload : w.loadError with
    | none =>
      rw [(searchCities_nonempty T w query options hq).2 hload]
      simp [hq, collect_null_toList]
    | some e =>
      rw [(searchCities_nonempty T w query options hq).1 e hload]
      simp [GoSlice.toList]

/-- C38. `SearchCities` is monotone in its options: for every dataset, every outcome of
the load and every query, the records returned with `ExactMatch = true` are a
sub-sequence of those returned with `ExactMatch = false` under the same `CaseSensitive`
setting, the records returned with `CaseSensitive = true` are a sub-sequence of those
returned with `CaseSensitive = false` under the same `ExactMatch` setting, and the error
is the same under all four settings. -/
theorem C38_searchCities_monotone (T : CaseTable) (w : LoadOutcome) (query : GoString)
    (cs em : Bool) :
    List.Sublist
      (SearchCities T w query { CaseSensitive := cs, ExactMatch := true }).1.toList
      (SearchCities T w query { CaseSensitive := cs, ExactMatch := false }).1.toList ∧
    List.Sublist
      (SearchCities T w query { CaseSensitive := true, ExactMatch := em }).1.toList
      (SearchCities T w query { CaseSensitive := false, ExactMatch := em }).1.toList ∧
    (SearchCities T w query { CaseSensitive := cs, ExactMatch := em }).2
      = (SearchCities T w query DefaultSearchOptions).2 := by
  refine ⟨?_, ?_, ?_⟩
  · rw [searchCities_toList, searchCities_toList]
    by_cases h : query = [] ∨ w.loadError ≠ none
    · rw [if_pos h, if_pos h]
    · rw [if_neg h, if_neg h]
      apply List.monotone_filter_right
      intro city hcity
      unfold matchesCity at hcity ⊢
      rw [List.any_eq_true] at hcity ⊢
      obtain ⟨field, hmem, hm⟩ := hcity
      exact ⟨field, hmem, matchesField_exact T _ field cs hm⟩
  · rw [searchCities_toList, searchCities_toList]
    by_cases h : query = [] ∨ w.loadError ≠ none
    · rw [if_pos h, if_pos h]
    · rw [if_neg h, if_neg h]
      apply List.monotone_filter_right
      intro city hcity
      unfold matchesCity at hcity ⊢
      rw [List.any_eq_true] at hcity ⊢
      obtain ⟨field, hmem, hm⟩ := hcity
      exact ⟨field, hmem, matchesField_caseSensitive T query field em hm⟩
  · by_cases hq : query = []
    · subst hq
      simp [SearchCities]
    · cases hload : w.loadError with
      | none =>
        rw [(searchCities_nonempty T w query _ hq).2 hload,
          (searchCities_nonempty T w query _ hq).2 hload]
      | some e =>
        rw [(searchCities_nonempty T w query _ hq).1 e hload,
          (searchCities_nonempty T w query _ hq).1 e hload]

end city

/-! ### Partial match: terms and fields -/

namespace strings

theorem part_append_left (term a b : GoString) (h : term <:+: a) : term <:+: a ++ b := by
  obtain ⟨x, y, hxy⟩ := h
  exact ⟨x, y ++ b, by rw [← hxy]; simp⟩

theorem part_append_right (term a b : GoString) (h : term <:+: b) : term <:+: a ++ b := by
  obtain ⟨x, y, hxy⟩ := h
  exact ⟨a ++ x, y, by rw [← hxy]; simp⟩

/-- A string that occurs in `a ++ [sp] ++ b` and does not hold `sp` occurs in `a` or
in `b`. -/
theorem part_of_joined (term a b : GoString) (sp : Char) (hsp : sp ∉ term)
    (h : term <:+: a ++ sp :: b) : term <:+: a ∨ term <:+: b := by
  obtain ⟨x, y, hxy⟩ := h
  rcases List.append_eq_append_iff.mp hxy with ⟨a', ha, _⟩ | ⟨c', hc, hb⟩
  · exact Or.inl ⟨x, a', ha.symm⟩
  · cases c' with
    | nil =>
      rw [List.append_nil] at hc
      exact Or.inl ⟨x, [], by rw [List.append_nil]; exact hc⟩
    | cons s c'' =>
      have hs : sp = s := (List.cons.inj hb).1
      have hbb : b = c'' ++ y := (List.cons.inj hb).2
      subst hs
      rcases List.append_eq_append_iff.mp hc with ⟨a', _, ht⟩ | ⟨d, _, hd⟩
      · exact absurd (by rw [ht]; simp) hsp
      · cases d with
        | nil =>
          rw [List.nil_append] at hd
          exact absurd (by rw [← hd]; simp) hsp
        | cons s' d' =>
          have hcc : c'' = d' ++ term := (List.cons.inj hd).2
          exact Or.inr ⟨d', y, by rw [hbb, hcc]⟩

/-- The fields that `fieldsLoop` returns hold no white space and occur in the text. -/
theorem fieldsLoop_part (s : GoString) :
    ∀ cur : GoString, (∀ c ∈ cur, unicode.IsSpace c = false) →
      ∀ term ∈ fieldsLoop s cur,
        (∀ c ∈ term, unicode.IsSpace c = false) ∧ term <:+: cur.reverse ++ s := by
  induction s with
  | nil =>
    intro cur hcur term hterm
    unfold fieldsLoop at hterm
    by_cases h0 : cur = []
    · simp [h0] at hterm
    · simp only [h0, if_false, List.mem_singleton] at hterm
      subst hterm
      exact ⟨fun c hc => hcur c (List.mem_reverse.mp hc), ⟨[], [], by simp⟩⟩
  | cons c cs ih =>
    intro cur hcur term hterm
    unfold fieldsLoop at hterm
    cases hsp : unicode.IsSpace c with
    | true =>
      simp only [hsp, if_true] at hterm
      have hrest : term ∈ fieldsLoop cs [] →
          (∀ c ∈ term, unicode.IsSpace c = false) ∧ term <:+: cur.reverse ++ c :: cs := by
        intro hmem
        obtain ⟨h1, h2⟩ := ih [] (by simp) term hmem
        refine ⟨h1, ?_⟩
        have h3 : term <:+: cs := by simpa using h2
        exact part_append_right term cur.reverse (c :: cs)
          (part_append_right term [c] cs h3)
      by_cases h0 : cur = []
      · simp only [h0, if_true] at hterm
        exact hrest hterm
      · simp only [h0, if_false, List.mem_cons] at hterm
        rcases hterm with hterm | hterm
        · subst hterm
          exact ⟨fun c hc => hcur c (List.mem_reverse.mp hc),
            part_append_left _ _ _ ⟨[], [], by simp⟩⟩
        · exact hrest hterm
    | false =>
      simp only [hsp, Bool.false_eq_true, if_false] at hterm
      have hcur2 : ∀ x ∈ c :: cur, unicode.IsSpace x = false := by
        intro x hx
        rcases List.mem_cons.mp hx with hx | hx
        · rw [hx]; exact hsp
        · exact hcur x hx
      obtain ⟨h1, h2⟩ := ih (c :: cur) hcur2 term hterm
      refine ⟨h1, ?_⟩
      simpa using h2

/-- Every field of `strings.Fields s` is free of white space and occurs in `s`. -/
theorem fields_part (s term : GoString) (h : term ∈ Fields s) :
    (∀ c ∈ term, unicode.IsSpace c = false) ∧ term <:+: s := by
  have := fieldsLoop_part s [] (by simp) term h
  simpa using this

theorem toLower_append (T : CaseTable) (a b : GoString) :
    ToLower T (a ++ b) = ToLower T a ++ ToLower T b := by
  simp [ToLower]

theorem toLower_blank (T : CaseTable) : ToLower T " ".toList = " ".toList := rfl

end strings

namespace city

theorem perFieldMatch_iff (T : CaseTable) (c : CityData) (terms : List GoString) :
    perFieldMatch T c terms = true ↔
      ∀ term ∈ terms, term <:+: strings.ToLower T c.City ∨
        term <:+: strings.ToLower T c.StateANSI ∨ term <:+: strings.ToLower T c.Province ∨
        term <:+: strings.ToLower T c.Country := by
  simp [perFieldMatch, strings.contains_iff, List.all_eq_true]

/-- On terms without white space the match over the joined text is the match over the
fields taken separately. -/
theorem findPartialMatch_perField (T : CaseTable) (c : CityData) (terms : List GoString)
    (hterms : ∀ term ∈ terms, ∀ ch ∈ term, unicode.IsSpace ch = false) :
    findPartialMatch T c terms = perFieldMatch T c terms := by
  rw [Bool.eq_iff_iff, findPartialMatch_iff, perFieldMatch_iff]
  have hjoin : strings.ToLower T
      (c.City ++ " ".toList ++ c.StateANSI ++ " ".toList ++ c.Province ++ " ".toList
        ++ c.Country)
      = strings.ToLower T c.City ++ ' ' :: (strings.ToLower T c.StateANSI
        ++ ' ' :: (strings.ToLower T c.Province ++ ' ' :: strings.ToLower T c.Country)) := by
    simp only [strings.toLower_append, strings.toLower_blank]
    simp
  rw [hjoin]
  constructor
  · intro h term hterm
    have hblank : ' ' ∉ term := by
      intro hmem
      have := hterms term hterm ' ' hmem
      exact absurd this (by decide)
    rcases strings.part_of_joined term _ _ ' ' hblank (h term hterm) with h1 | h1
    · exact Or.inl h1
    · rcases strings.part_of_joined term _ _ ' ' hblank h1 with h2 | h2
      · exact Or.inr (Or.inl h2)
      · rcases strings.part_of_joined term _ _ ' ' hblank h2 with h3 | h3
        · exact Or.inr (Or.inr (Or.inl h3))
        · exact Or.inr (Or.inr (Or.inr h3))
  · intro h term hterm
    rcases h term hterm with h1 | h1 | h1 | h1
    · exact strings.part_append_left _ _ _ h1
    · exact strings.part_append_right _ _ _
        (strings.part_append_right term [' '] _ (strings.part_append_left _ _ _ h1))
    · exact strings.part_append_right _ _ _
        (strings.part_append_right term [' '] _ (strings.part_append_right _ _ _
          (strings.part_append_right term [' '] _ (strings.part_append_left _ _ _ h1))))
    · exact strings.part_append_right _ _ _
        (strings.part_append_right term [' '] _ (strings.part_append_right _ _ _
          (strings.part_append_right term [' '] _ (strings.part_append_right _ _ _
            (strings.part_append_right term [' '] _ h1)))))

/-- C36. For every dataset that loaded and every query that `ValidateSearchInput` accepts
(bound 200) with a non-empty normalized form, `FindFromCityStateProvince` returns exactly
the records, in dataset order, each of whose search terms occurs as a substring inside at
least one of the four lowercased fields City, StateANSI, Province, Country taken
separately: the terms hold no white space, so none can match across the single spaces
that join the fields; `findPartialMatch` called directly with the term `"chicago il"`,
which holds a space, matches the record of Chicago across the space between City and
StateANSI, although the term occurs in none of its four fields. -/
theorem C36_terms_match_within_fields (T : CaseTable) (w : LoadOutcome)
    (hload : w.loadError = none) (q v : GoString)
    (hv : ValidateSearchInput T q 200 = (v, none)) (hne : v ≠ []) :
    (FindFromCityStateProvince T w q).2 = none ∧
    (FindFromCityStateProvince T w q).1.toList =
      w.cityData.toList.filter
        (fun c => perFieldMatch T c (strings.Fields (strings.ToLower T v))) ∧
    (∀ c, c ∈ (FindFromCityStateProvince T w q).1.toList ↔
      c ∈ w.cityData.toList ∧
        ∀ term ∈ strings.Fields (strings.ToLower T v),
          term <:+: strings.ToLower T c.City ∨ term <:+: strings.ToLower T c.StateANSI ∨
          term <:+: strings.ToLower T c.Province ∨ term <:+: strings.ToLower T c.Country) ∧
    (∀ term ∈ strings.Fields (strings.ToLower T v), ∀ ch ∈ term,
      unicode.IsSpace ch = false) ∧
    (findPartialMatch T
        (sampleCity "Chicago" "IL" "Illinois" "United States of America" "US" "USA")
        ["chicago il".toList] = true ∧
      perFieldMatch T
        (sampleCity "Chicago" "IL" "Illinois" "United States of America" "US" "USA")
        ["chicago il".toList] = false) := by
  have hterms : ∀ term ∈ strings.Fields (strings.ToLower T v), ∀ ch ∈ term,
      unicode.IsSpace ch = false :=
    fun term hterm => (strings.fields_part _ term hterm).1
  have hres : (FindFromCityStateProvince T w q).1.toList =
      w.cityData.toList.filter
        (fun c => perFieldMatch T c (strings.Fields (strings.ToLower T v))) := by
    rw [(findFromCityStateProvince_valid T w q v hv hne).2 hload]
    simp only [collect_null_toList]
    apply List.filter_congr
    intro c _
    exact findPartialMatch_perField T c _ hterms
  refine ⟨?_, hres, ?_, hterms, ?_, ?_⟩
  · rw [(findFromCityStateProvince_valid T w q v hv hne).2 hload]
  · intro c
    rw [hres, List.mem_filter, perFieldMatch_iff]
  · rfl
  · rfl

/-- C36, at the query `"spring mo"` on the sample dataset. -/
theorem C36_terms_match_within_fields_witness :
    (FindFromCityStateProvince CaseTable.caseless (.loaded sampleCities)
        "spring mo".toList).1.toList =
      (LoadOutcome.loaded sampleCities).cityData.toList.filter
        (fun c => perFieldMatch CaseTable.caseless c
          (strings.Fields (strings.ToLower CaseTable.caseless "spring mo".toList))) :=
  (C36_terms_match_within_fields CaseTable.caseless (.loaded sampleCities) rfl
    "spring mo".toList "spring mo".toList (by decide) (by decide)).2.1

end city

/-! ### The exact lookup and its cache -/

namespace city

theorem cacheSound_empty (T : CaseTable) (w : LoadOutcome) :
    cacheSound T w NewSearchCache := by
  intro key stored h
  simp [NewSearchCache, GoMap.lookup, GoMap.empty, GoMap.lookupIn] at h

theorem cacheSound_clear (T : CaseTable) (w : LoadOutcome) (c : SearchCache) :
    cacheSound T w c.Clear := by
  intro key stored h
  simp [SearchCache.Clear, GoMap.lookup, GoMap.empty, GoMap.lookupIn] at h

/-- A call of `LookupViaCity` keeps the cache sound and returns what the scan returns. -/
theorem lookupViaCity_sound (T : CaseTable) (w : LoadOutcome) (c : SearchCache)
    (q : GoString) (hc : cacheSound T w c) :
    cacheSound T w (LookupViaCity T w c q).2 ∧
      (LookupViaCity T w c q).1 = scanViaCity T w q := by
  obtain ⟨v, e, hv⟩ : ∃ v e, ValidateSearchInput T q 100 = (v, e) := ⟨_, _, rfl⟩
  cases e with
  | some err =>
    rw [lookupViaCity_invalid T w c q err (by rw [hv])]
    exact ⟨hc, by simp only [scanViaCity, hv]⟩
  | none =>
    by_cases hne : v = []
    · subst hne
      rw [lookupViaCity_empty T w c q hv]
      exact ⟨hc, by simp only [scanViaCity, hv, if_true]⟩
    · cases hlook : c.cache.lookup ("city:".toList ++ strings.ToLower T v) with
      | some stored =>
        rw [lookupViaCity_hit T w c q v stored hv hne hlook]
        refine ⟨hc, ?_⟩
        obtain ⟨hload, term, hkey, hstored⟩ := hc _ stored hlook
        have hterm : strings.ToLower T v = term := List.append_cancel_left hkey
        simp only [scanViaCity, hv, hne, if_false, hload]
        rw [hstored, hterm]
      | none =>
        cases hload : w.loadError with
        | some err =>
          rw [(lookupViaCity_miss T w c q v hv hne hlook).1 err hload]
          exact ⟨hc, by simp only [scanViaCity, hv, hne, if_false, hload]⟩
        | none =>
          rw [(lookupViaCity_miss T w c q v hv hne hlook).2 hload]
          refine ⟨?_, by simp only [scanViaCity, hv, hne, if_false, hload]⟩
          intro key stored hstored
          by_cases hk : key = "city:".toList ++ strings.ToLower T v
          · subst hk
            simp only [SearchCache.Set, GoMap.lookup_store_same, Option.some.injEq] at hstored
            exact ⟨hload, _, rfl, hstored.symm⟩
          · simp only [SearchCache.Set, GoMap.lookup_store_other _ _ _ _ hk] at hstored
            exact hc key stored hstored

theorem useCache_sound (T : CaseTable) (w : LoadOutcome) (history : List CacheUse) :
    ∀ c : SearchCache, cacheSound T w c → cacheSound T w (useCache T w c history) := by
  induction history with
  | nil => intro c hc; exact hc
  | cons u rest ih =>
    intro c hc
    cases u with
    | lookup q => exact ih _ (lookupViaCity_sound T w c q hc).1
    | clear => exact ih _ (cacheSound_clear T w c)

/-- C35. The exact-lookup cache is transparent: over a fixed dataset (or a fixed failure
to load it), when the global cache started empty, or was cleared at some point whatever
it held before, and has since been written only by calls of `LookupViaCity` and
`ClearCache`, every call `LookupViaCity(q)` returns what the uncached linear scan for
`q` returns, the same sequence and the same error, whether it hits or misses the
cache. -/
theorem C35_cache_is_transparent (T : CaseTable) (w : LoadOutcome) (before : SearchCache)
    (history : List CacheUse) (q : GoString) :
    (LookupViaCity T w (useCache T w NewSearchCache history) q).1 = scanViaCity T w q ∧
    (LookupViaCity T w (useCache T w before (.clear :: history)) q).1
      = scanViaCity T w q := by
  constructor
  · exact (lookupViaCity_sound T w _ q
      (useCache_sound T w history _ (cacheSound_empty T w))).2
  · exact (lookupViaCity_sound T w _ q
      (useCache_sound T w history _ (cacheSound_clear T w before))).2

end city

/-! ### Exact lookup within partial match -/

namespace city

/-- An input accepted with bound 100 is accepted with bound 200, with the same
normalized form. -/
theorem validateSearchInput_wider (T : CaseTable) (q v : GoString)
    (h : ValidateSearchInput T q 100 = (v, none)) :
    ValidateSearchInput T q 200 = (v, none) := by
  obtain ⟨hv, hsusp, hlen⟩ := validateSearchInput_ok T q 100 v h
  have hle : (len q : Int) ≤ 200 := by
    by_cases h0 : q = []
    · subst h0
      simp [len]
    · have := hlen h0
      omega
  rw [validateSearchInput_within T q 200 hle, ← hv, hsusp]
  rfl

/-- A record whose lowercased city name is the lowercased query holds every term of the
query. -/
theorem findPartialMatch_of_city (T : CaseTable) (c : CityData) (v : GoString)
    (h : strings.ToLower T c.City = strings.ToLower T v) :
    findPartialMatch T c (strings.Fields (strings.ToLower T v)) = true := by
  rw [findPartialMatch_iff]
  intro term hterm
  have hpart : term <:+: strings.ToLower T c.City := by
    rw [h]
    exact (strings.fields_part _ term hterm).2
  simp only [strings.toLower_append]
  exact strings.part_append_left _ _ _ (strings.part_append_left _ _ _
    (strings.part_append_left _ _ _ (strings.part_append_left _ _ _
      (strings.part_append_left _ _ _ (strings.part_append_left _ _ _ hpart)))))

/-- C37. For every dataset (or failure to load it), with a cache that started empty and
was written only by `LookupViaCity` and `ClearCache`, and every query `q`: the records
that `LookupViaCity(q)` returns are a sub-sequence of those that
`FindFromCityStateProvince(q)` returns, so each of them is returned by both, and when
`LookupViaCity(q)` returns no error neither does `FindFromCityStateProvince(q)`: a query
accepted with bound 100 is accepted with bound 200, and every term of the query is a
substring of the city name that equals it. -/
theorem C37_lookup_within_find (T : CaseTable) (w : LoadOutcome)
    (history : List CacheUse) (q : GoString) :
    List.Sublist
      (LookupViaCity T w (useCache T w NewSearchCache history) q).1.1.toList
      (FindFromCityStateProvince T w q).1.toList ∧
    (∀ c ∈ (LookupViaCity T w (useCache T w NewSearchCache history) q).1.1.toList,
      c ∈ (FindFromCityStateProvince T w q).1.toList) ∧
    ((LookupViaCity T w (useCache T w NewSearchCache history) q).1.2 = none →
      (FindFromCityStateProvince T w q).2 = none) := by
  have hscan : (LookupViaCity T w (useCache T w NewSearchCache history) q).1
      = scanViaCity T w q :=
    (lookupViaCity_sound T w _ q (useCache_sound T w history _ (cacheSound_empty T w))).2
  rw [hscan]
  have key : List.Sublist (scanViaCity T w q).1.toList
        (FindFromCityStateProvince T w q).1.toList ∧
      ((scanViaCity T w q).2 = none → (FindFromCityStateProvince T w q).2 = none) := by
    obtain ⟨v, e, hv⟩ : ∃ v e, ValidateSearchInput T q 100 = (v, e) := ⟨_, _, rfl⟩
    cases e with
    | some err =>
      simp only [scanViaCity, hv, GoSlice.toList_null, List.nil_sublist, true_and]
      intro h
      exact absurd h (by simp)
    | none =>
      have hwide := validateSearchInput_wider T q v hv
      by_cases hne : v = []
      · subst hne
        rw [findFromCityStateProvince_empty T w q hwide]
        simp only [scanViaCity, hv, if_true]
        exact ⟨List.Sublist.refl _, fun _ => trivial⟩
      · cases hload : w.loadError with
        | some err =>
          rw [(findFromCityStateProvince_valid T w q v hwide hne).1 err hload]
          simp only [scanViaCity, hv, hne, if_false, hload, GoSlice.toList_null,
            List.nil_sublist, true_and]
          intro h
          exact absurd h (by simp)
        | none =>
          rw [(findFromCityStateProvince_valid T w q v hwide hne).2 hload]
          simp only [scanViaCity, hv, hne, if_false, hload, collect_null_toList]
          refine ⟨?_, fun _ => trivial⟩
          apply List.monotone_filter_right
          intro c hc
          exact findPartialMatch_of_city T c v (of_decide_eq_true hc)
  exact ⟨key.1, fun c hc => key.1.subset hc, key.2⟩

/-- C37, on the sample dataset after a lookup of `"Springfield"` has filled the cache:
the query `" springfield "` hits the cache and returns the two records of Springfield,
both of which the partial match returns too. -/
theorem C37_lookup_within_find_witness :
    (useCache CaseTable.caseless (.loaded sampleCities) NewSearchCache
        [.lookup "Springfield".toList]).Size = 1 ∧
    (LookupViaCity CaseTable.caseless (.loaded sampleCities)
        (useCache CaseTable.caseless (.loaded sampleCities) NewSearchCache
          [.lookup "Springfield".toList]) " springfield ".toList).1.1.toList
      = [sampleCity "Springfield" "IL" "Illinois" "United States of America" "US" "USA",
          sampleCity "Springfield" "MO" "Missouri" "United States of America" "US" "USA"] ∧
    List.Sublist
      (LookupViaCity CaseTable.caseless (.loaded sampleCities)
        (useCache CaseTable.caseless (.loaded sampleCities) NewSearchCache
          [.lookup "Springfield".toList]) " springfield ".toList).1.1.toList
      (FindFromCityStateProvince CaseTable.caseless (.loaded sampleCities)
        " springfield ".toList).1.toList :=
  ⟨by decide, by decide,
    (C37_lookup_within_find CaseTable.caseless (.loaded sampleCities)
      [.lookup "Springfield".toList] " springfield ".toList).1⟩

end city

/-! ### The rate limiter: the sliding window -/

namespace city

theorem RateLimiter.run_length (calls : List (GoString × Time)) :
    ∀ rl : RateLimiter, (rl.run calls).1.length = calls.length := by
  induction calls with
  | nil => intro rl; rfl
  | cons call rest ih =>
    intro rl
    simp [RateLimiter.run, ih]

theorem admittedFor_append (key : GoString) (calls1 calls2 : List (GoString × Time))
    (answers1 answers2 : List Bool) (hlen : calls1.length = answers1.length) :
    admittedFor key (calls1 ++ calls2) (answers1 ++ answers2)
      = admittedFor key calls1 answers1 ++ admittedFor key calls2 answers2 := by
  unfold admittedFor
  rw [List.zip_append hlen, List.filter_append, List.map_append]

theorem admittedFor_singleton (key : GoString) (call : GoString × Time) (answer : Bool) :
    admittedFor key [call] [answer]
      = if answer = true ∧ call.1 = key then [call.2] else [] := by
  unfold admittedFor
  by_cases h : answer = true ∧ call.1 = key
  · simp [h]
  · rw [if_neg h]
    simp only [List.zip_cons_cons, List.zip_nil_right, List.map_eq_nil_iff,
      List.filter_eq_nil_iff, List.mem_singleton, Bool.and_eq_true, decide_eq_true_eq]
    intro p hp
    subst hp
    exact h

/-- Under a non-decreasing clock, in every state reached from a fresh limiter: the
timestamps stored for a key and the instants of its admitted calls agree on what is
later than the cutoff `t + (-window)`, for every `t` not earlier than the calls made; and
no interval `(a, a + window]` holds more than `limit` admitted calls. -/
theorem RateLimiter.run_window (limit : Int) (window : Duration) (key : GoString)
    (calls : List (GoString × Time)) :
    List.Pairwise (fun a b => a ≤ b) (calls.map (fun call => call.2)) →
    (∀ t : Time, (∀ call ∈ calls, call.2 ≤ t) →
      (((NewRateLimiter limit window).run calls).2.stored key).toList.filter
          (fun x => decide (x > t + negDuration window))
        = (admittedFor key calls ((NewRateLimiter limit window).run calls).1).filter
          (fun x => decide (x > t + negDuration window))) ∧
    (∀ a : Time,
      ((admittedWithin key a window calls ((NewRateLimiter limit window).run calls).1 : Nat)
        : Int) ≤ max limit 0) := by
  induction calls using List.reverseRecOn with
  | nil =>
    intro _
    constructor
    · intro t _
      simp [RateLimiter.run, admittedFor, RateLimiter.stored, NewRateLimiter, GoMap.lookup,
        GoMap.empty, GoMap.lookupIn, GoSlice.toList]
    · intro a
      simp [RateLimiter.run, admittedWithin, admittedFor]
  | append_singleton calls call ih =>
    intro hclock
    rw [List.map_append, List.pairwise_append] at hclock
    obtain ⟨hclock1, _, hlast⟩ := hclock
    have hlast2 : ∀ c ∈ calls, c.2 ≤ call.2 := by
      intro c hc
      exact hlast c.2 (List.mem_map_of_mem _ hc) call.2 (by simp)
    obtain ⟨ihS, ihB⟩ := ih hclock1
    have hwin : ((NewRateLimiter limit window).run calls).2.window = window :=
      (RateLimiter.run_limit calls (NewRateLimiter limit window)).2
    have hlim : ((NewRateLimiter limit window).run calls).2.limit = limit :=
      (RateLimiter.run_limit calls (NewRateLimiter limit window)).1
    have hlen : calls.length = ((NewRateLimiter limit window).run calls).1.length :=
      (RateLimiter.run_length calls _).symm
    rw [RateLimiter.run_append, RateLimiter.run_singleton]
    simp only []
    have hadm := admittedFor_append key calls [call]
      ((NewRateLimiter limit window).run calls).1
      [(((NewRateLimiter limit window).run calls).2.Allow call.2 call.1).1] hlen
    by_cases hk : call.1 = key
    · subst hk
      have hS := ihS call.2 hlast2
      have hans := RateLimiter.allow_fst ((NewRateLimiter limit window).run calls).2
        call.2 call.1
      rw [hwin, hlim, hS] at hans
      have hst := RateLimiter.allow_stored ((NewRateLimiter limit window).run calls).2
        call.2 call.1
      rw [hwin, hS] at hst
      constructor
      · intro t ht
        have ht2 : call.2 ≤ t := ht call (by simp)
        rw [hst, hadm, admittedFor_singleton]
        have hff : ∀ l : List Time,
            (l.filter (fun x => decide (x > call.2 + negDuration window))).filter
                (fun x => decide (x > t + negDuration window))
              = l.filter (fun x => decide (x > t + negDuration window)) := by
          intro l
          rw [List.filter_filter]
          apply List.filter_congr
          intro x _
          by_cases hx : x > t + negDuration window
          · have : x > call.2 + negDuration window := by linarith
            simp [hx, this]
          · simp [hx]
        by_cases hpass :
            (((NewRateLimiter limit window).run calls).2.Allow call.2 call.1).1 = true
        · simp only [hpass, if_true, true_and, List.filter_append, hff]
        · simp only [hpass, if_false, false_and, Bool.false_eq_true, List.filter_append,
            hff, List.filter_nil, List.append_nil]
      · intro a
        unfold admittedWithin
        rw [hadm, admittedFor_singleton, List.countP_append]
        have hB := ihB a
        unfold admittedWithin at hB
        by_cases hpass :
            (((NewRateLimiter limit window).run calls).2.Allow call.2 call.1).1 = true
        · rw [if_pos ⟨hpass, rfl⟩]
          rw [hpass] at hans
          have hlt := of_decide_eq_true hans.symm
          by_cases hin : a < call.2 ∧ call.2 ≤ a + window
          · have hle : (admittedFor call.1 calls
                ((NewRateLimiter limit window).run calls).1).countP
                (fun t => decide (a < t) && decide (t ≤ a + window))
                ≤ ((admittedFor call.1 calls
                  ((NewRateLimiter limit window).run calls).1).filter
                  (fun x => decide (x > call.2 + negDuration window))).length := by
              rw [← List.countP_eq_length_filter]
              apply List.countP_mono_left
              intro x _ hx
              simp only [Bool.and_eq_true, decide_eq_true_eq] at hx
              have hneg : negDuration window = -window :=
                negDuration_of_nonneg window (by linarith [hin.1, hin.2])
              have : x > call.2 + negDuration window := by
                rw [hneg]
                linarith [hx.1, hin.2]
              simpa using this
            have hone : List.countP (fun t => decide (a < t) && decide (t ≤ a + window))
                [call.2] = 1 := by
              simp [List.countP_cons, hin.1, hin.2]
            rw [hone]
            push_cast
            have h1 : ((admittedFor call.1 calls
                ((NewRateLimiter limit window).run calls).1).countP
                (fun t => decide (a < t) && decide (t ≤ a + window)) : Int)
                ≤ (((admittedFor call.1 calls
                  ((NewRateLimiter limit window).run calls).1).filter
                  (fun x => decide (x > call.2 + negDuration window))).length : Int) := by
              exact_mod_cast hle
            have := le_max_left limit 0
            omega
          · have hzero : List.countP (fun t => decide (a < t) && decide (t ≤ a + window))
                [call.2] = 0 := by
              rw [List.countP_eq_zero]
              intro x hx
              rw [List.mem_singleton] at hx
              subst hx
              simpa using hin
            rw [hzero]
            exact hB
        · rw [if_neg (fun h => hpass h.1)]
          simpa using hB
    · have hother := RateLimiter.allow_stored_other
        ((NewRateLimiter limit window).run calls).2 call.2 call.1 key (Ne.symm hk)
      have hnil : admittedFor key [call]
          [(((NewRateLimiter limit window).run calls).2.Allow call.2 call.1).1] = [] := by
        rw [admittedFor_singleton, if_neg (fun h => hk h.2)]
      constructor
      · intro t ht
        rw [hother, hadm, hnil, List.append_nil]
        exact ihS t (fun c hc => ht c (List.mem_append_left _ hc))
      · intro a
        unfold admittedWithin
        rw [hadm, hnil, List.append_nil]
        exact ihB a

end city

namespace city

/-- C34. Sliding-window guarantee: from a fresh limiter, under a non-decreasing clock,
for every key and every instant `a`, the number of calls of `Allow` admitted for that key
at an instant of the interval `(a, a + window]` does not exceed `limit` when `limit` is
not negative, and is zero when `limit <= 0`. -/
theorem C34_sliding_window (limit : Int) (window : Duration)
    (calls : List (GoString × Time))
    (hclock : List.Pairwise (fun a b => a ≤ b) (calls.map (fun call => call.2)))
    (key : GoString) (a : Time) :
    (0 ≤ limit →
      (admittedWithin key a window calls ((NewRateLimiter limit window).run calls).1 : Int)
        ≤ limit) ∧
    (limit ≤ 0 →
      admittedWithin key a window calls ((NewRateLimiter limit window).run calls).1 = 0) := by
  have h := (RateLimiter.run_window limit window key calls hclock).2 a
  constructor
  · intro hl
    rwa [max_eq_left hl] at h
  · intro hl
    rw [max_eq_right hl] at h
    omega

/-- C34, with limit 2 and window 10, calls for `"ip"` at 0, 1, 2, 11, 11 and 12 and a call
for `"other"` at 5: the calls at 0, 1, 11 and 11 are admitted, and the interval `(1, 11]`
holds two of them. -/
theorem C34_sliding_window_witness :
    ((NewRateLimiter 2 10).run
        [("ip".toList, 0), ("ip".toList, 1), ("ip".toList, 2), ("other".toList, 5),
          ("ip".toList, 11), ("ip".toList, 11), ("ip".toList, 12)]).1
      = [true, true, false, true, true, true, false] ∧
    admittedWithin "ip".toList 1 10
        [("ip".toList, 0), ("ip".toList, 1), ("ip".toList, 2), ("other".toList, 5),
          ("ip".toList, 11), ("ip".toList, 11), ("ip".toList, 12)]
        ((NewRateLimiter 2 10).run
          [("ip".toList, 0), ("ip".toList, 1), ("ip".toList, 2), ("other".toList, 5),
            ("ip".toList, 11), ("ip".toList, 11), ("ip".toList, 12)]).1 = 2 ∧
    ((0 : Int) ≤ 2 →
      (admittedWithin "ip".toList 1 10
        [("ip".toList, 0), ("ip".toList, 1), ("ip".toList, 2), ("other".toList, 5),
          ("ip".toList, 11), ("ip".toList, 11), ("ip".toList, 12)]
        ((NewRateLimiter 2 10).run
          [("ip".toList, 0), ("ip".toList, 1), ("ip".toList, 2), ("other".toList, 5),
            ("ip".toList, 11), ("ip".toList, 11), ("ip".toList, 12)]).1 : Int) ≤ 2) :=
  ⟨by decide, by decide,
    (C34_sliding_window 2 10
      [("ip".toList, 0), ("ip".toList, 1), ("ip".toList, 2), ("other".toList, 5),
        ("ip".toList, 11), ("ip".toList, 11), ("ip".toList, 12)]
      (by decide) "ip".toList 1).1⟩

end city

/-! ### The rate limiter under concurrent callers -/

namespace city

/-- The method `Allow` is its cleaning block followed by its check. -/
theorem RateLimiter.allow_eq_check (rl : RateLimiter) (now : Time) (key : GoString) :
    rl.Allow now key = (rl.cleaned now key).check now key := rfl

theorem getElem?_set_of (l : List Caller) (i j : Nat) (c d : Caller)
    (hi : l[i]? = some c) : (l.set i d)[j]? = if j = i then some d else l[j]? := by
  have hlt : i < l.length := by
    obtain ⟨h, _⟩ := List.getElem?_eq_some.mp hi
    exact h
  rw [List.getElem?_set]
  by_cases hij : i = j
  · subst hij
    simp [hlt]
  · rw [if_neg hij, if_neg (fun h => hij h.symm)]

/-- A caller that moves on without a change of its outcome leaves the outcomes alone. -/
theorem filterMap_set_same (l : List Caller) (i : Nat) (c d : Caller)
    (hi : l[i]? = some c) (hcd : d.outcome = c.outcome) :
    (l.set i d).filterMap Caller.outcome = l.filterMap Caller.outcome := by
  induction l generalizing i with
  | nil => simp at hi
  | cons x rest ih =>
    cases i with
    | zero =>
      simp only [List.getElem?_cons_zero, Option.some.injEq] at hi
      subst hi
      simp only [List.set_cons_zero, List.filterMap_cons, hcd]
    | succ n =>
      simp only [List.getElem?_cons_succ] at hi
      simp only [List.set_cons_succ, List.filterMap_cons, ih n hi]

/-- A caller whose answer gets decided adds its outcome to the outcomes. -/
theorem filterMap_set_new (l : List Caller) (i : Nat) (c d : Caller)
    (o : (GoString × Time) × Bool)
    (hi : l[i]? = some c) (hc : c.outcome = none) (hd : d.outcome = some o) :
    List.Perm ((l.set i d).filterMap Caller.outcome) (l.filterMap Caller.outcome ++ [o]) := by
  induction l generalizing i with
  | nil => simp at hi
  | cons x rest ih =>
    cases i with
    | zero =>
      simp only [List.getElem?_cons_zero, Option.some.injEq] at hi
      subst hi
      simp only [List.set_cons_zero, List.filterMap_cons, hc, hd]
      exact (List.perm_append_singleton o _).symm
    | succ n =>
      simp only [List.getElem?_cons_succ] at hi
      simp only [List.set_cons_succ, List.filterMap_cons]
      cases hx : x.outcome with
      | none => exact ih n hi
      | some ox => exact List.Perm.cons ox (ih n hi)

/-- The admitted calls among outcomes, without the detour by two lists. -/
theorem admittedFor_outcomes (key : GoString) (os : List ((GoString × Time) × Bool)) :
    admittedFor key (os.map (fun p => p.1)) (os.map (fun p => p.2))
      = (os.filter (fun p => p.2 && decide (p.1.1 = key))).map (fun p => p.1.2) := by
  have hzip : (os.map (fun p => p.1)).zip (os.map (fun p => p.2)) = os := by
    induction os with
    | nil => rfl
    | cons o rest ih => simp [ih]
  unfold admittedFor
  rw [hzip]

/-- The count of admitted calls does not depend on the order of the outcomes. -/
theorem admittedWithin_perm (key : GoString) (a : Time) (window : Duration)
    (os log : List ((GoString × Time) × Bool)) (h : List.Perm os log) :
    admittedWithin key a window (os.map (fun p => p.1)) (os.map (fun p => p.2))
      = admittedWithin key a window (log.map (fun p => p.1)) (log.map (fun p => p.2)) := by
  unfold admittedWithin
  rw [admittedFor_outcomes, admittedFor_outcomes]
  exact List.Perm.countP_eq _ ((h.filter _).map _)

/-- Time passing keeps the state accounted for. -/
theorem System.advance_serialized (s : System) (limit : Int) (window : Duration)
    (holder : Option Nat) (log : List ((GoString × Time) × Bool)) (tick : Nat)
    (h : s.serialized limit window holder log) :
    (s.advance tick).serialized limit window holder log := by
  obtain ⟨hM, hH, hS, hR, hT, hC, hN, hP⟩ := h
  have htick : s.clock ≤ s.clock + (tick : Int) := by
    have : (0 : Int) ≤ (tick : Int) := Int.ofNat_nonneg tick
    linarith
  refine ⟨hM, hH, hS, hR, hT, ?_, ?_, hP⟩
  · intro p hp
    exact le_trans (hC p hp) htick
  · intro c now hc hnow
    exact ⟨(hN c now hc hnow).1, le_trans (hN c now hc hnow).2 htick⟩

end city

namespace city

/-- When no caller other than number `i` holds the lock, and caller `i` moves to `d`, the
holder afterwards is `i` or nobody, as `d` holds the lock or not. -/
theorem System.holder_after (callers : List Caller) (holder holder2 : Option Nat) (i : Nat)
    (c d : Caller) (hi : callers[i]? = some c)
    (hH : ∀ j c, callers[j]? = some c → (c.holdsLock = true ↔ holder = some j))
    (hold : holder = none ∨ holder = some i)
    (hd : holder2 = if d.holdsLock = true then some i else none) :
    (∀ j c2, (callers.set i d)[j]? = some c2 → (c2.holdsLock = true ↔ holder2 = some j)) ∧
    holder2.bind (fun j => (callers.set i d)[j]?)
      = if d.holdsLock = true then some d else none := by
  constructor
  · intro j c2 hj
    rw [getElem?_set_of callers i j c d hi] at hj
    by_cases hji : j = i
    · rw [if_pos hji] at hj
      have hc2 : d = c2 := Option.some.inj hj
      subst hc2
      subst hji
      rw [hd]
      by_cases hdl : d.holdsLock = true
      · simp [hdl]
      · simp [hdl]
    · rw [if_neg hji] at hj
      have hold2 := hH j c2 hj
      have hne : holder ≠ some j := by
        rcases hold with hold | hold
        · rw [hold]; simp
        · rw [hold]
          intro h
          exact hji (Option.some.inj h).symm
      have hne2 : holder2 ≠ some j := by
        rw [hd]
        by_cases hdl : d.holdsLock = true
        · rw [if_pos hdl]
          intro h
          exact hji (Option.some.inj h).symm
        · rw [if_neg hdl]; simp
      constructor
      · intro h
        exact absurd (hold2.mp h) hne
      · intro h
        exact absurd h hne2
  · rw [hd]
    by_cases hdl : d.holdsLock = true
    · rw [if_pos hdl, if_pos hdl]
      show (callers.set i d)[i]? = some d
      rw [getElem?_set_of callers i i c d hi, if_pos rfl]
    · rw [if_neg hdl, if_neg hdl]
      rfl

/-- A caller that holds the lock is the holder, and the holder is that caller. -/
theorem System.holder_of (callers : List Caller) (holder : Option Nat) (i : Nat)
    (c : Caller) (hi : callers[i]? = some c)
    (hH : ∀ j c, callers[j]? = some c → (c.holdsLock = true ↔ holder = some j))
    (hc : c.holdsLock = true) :
    holder = some i ∧ holder.bind (fun j => callers[j]?) = some c := by
  have h := (hH i c hi).mp hc
  refine ⟨h, ?_⟩
  rw [h]
  exact hi

end city

namespace city

/-- A statement run by one caller keeps the state accounted for by a sequence of calls
run one after the other: the sequence grows by one call when the caller runs its
check. -/
theorem System.act_serialized (s : System) (limit : Int) (window : Duration)
    (holder : Option Nat) (log : List ((GoString × Time) × Bool)) (i : Nat)
    (h : s.serialized limit window holder log) :
    ∃ holder2 log2, (s.act i).serialized limit window holder2 log2 := by
  obtain ⟨hM, hH, hS, hR, hT, hC, hN, hP⟩ := h
  cases hi : s.callers[i]? with
  | none =>
    have hact : s.act i = s := by simp only [System.act, hi]
    rw [hact]
    exact ⟨holder, log, hM, hH, hS, hR, hT, hC, hN, hP⟩
  | some c =>
    cases c with
    | entering key =>
      by_cases hmu : s.mu = true
      · have hact : s.act i = s := by simp only [System.act, hi, hmu, if_true]
        rw [hact]
        exact ⟨holder, log, hM, hH, hS, hR, hT, hC, hN, hP⟩
      · have hnone : holder = none := by
          cases holder with
          | none => rfl
          | some j => exact absurd hM hmu
        subst hnone
        have hact : s.act i
            = { s with mu := true, callers := s.callers.set i (.locked key) } := by
          simp only [System.act, hi, hmu]
          rfl
        obtain ⟨hH2, hB2⟩ := System.holder_after s.callers none (some i) i _
          (.locked key) hi hH (Or.inl rfl) rfl
        rw [hact]
        refine ⟨some i, log, rfl, hH2, hS, ?_, hT, hC, ?_, ?_⟩
        · show s.rl = System.expected _
            ((some i).bind (fun j => (s.callers.set i (Caller.locked key))[j]?))
          rw [hB2]
          exact hR
        · intro c now hc hnow
          have hc2 : (some i).bind (fun j => (s.callers.set i (Caller.locked key))[j]?)
              = some c := hc
          rw [hB2] at hc2
          have hc3 : Caller.locked key = c := Option.some.inj hc2
          subst hc3
          exact absurd hnow (by simp [Caller.pendingTime])
        · show List.Perm ((s.callers.set i (Caller.locked key)).filterMap Caller.outcome) log
          rw [filterMap_set_same s.callers i _ (.locked key) hi rfl]
          exact hP
    | locked key =>
      obtain ⟨hhold, hbind⟩ := System.holder_of s.callers holder i _ hi hH rfl
      have hact : s.act i
          = { s with callers := s.callers.set i (.timed key s.clock) } := by
        simp only [System.act, hi]
      obtain ⟨hH2, hB2⟩ := System.holder_after s.callers holder holder i _
        (.timed key s.clock) hi hH (Or.inr hhold) hhold
      rw [hact]
      refine ⟨holder, log, hM, hH2, hS, ?_, hT, hC, ?_, ?_⟩
      · show s.rl = System.expected _
          (holder.bind (fun j => (s.callers.set i (Caller.timed key s.clock))[j]?))
        rw [hB2]
        rw [hbind] at hR
        exact hR
      · intro c now hc hnow
        have hc2 : holder.bind (fun j => (s.callers.set i (Caller.timed key s.clock))[j]?)
            = some c := hc
        rw [hB2] at hc2
        have hc3 : Caller.timed key s.clock = c := Option.some.inj hc2
        subst hc3
        have hnow2 : s.clock = now := Option.some.inj hnow
        subst hnow2
        exact ⟨hC, le_refl _⟩
      · show List.Perm
          ((s.callers.set i (Caller.timed key s.clock)).filterMap Caller.outcome) log
        rw [filterMap_set_same s.callers i _ (.timed key s.clock) hi rfl]
        exact hP
    | timed key now =>
      obtain ⟨hhold, hbind⟩ := System.holder_of s.callers holder i _ hi hH rfl
      have hact : s.act i
          = { s with rl := s.rl.cleaned now key,
                     callers := s.callers.set i (.cleaned key now) } := by
        simp only [System.act, hi]
      obtain ⟨hH2, hB2⟩ := System.holder_after s.callers holder holder i _
        (.cleaned key now) hi hH (Or.inr hhold) hhold
      rw [hact]
      refine ⟨holder, log, hM, hH2, hS, ?_, hT, hC, ?_, ?_⟩
      · show s.rl.cleaned now key = System.expected _
          (holder.bind (fun j => (s.callers.set i (Caller.cleaned key now))[j]?))
        rw [hB2]
        rw [hbind] at hR
        rw [hR]
        rfl
      · intro c now2 hc hnow
        have hc2 : holder.bind (fun j => (s.callers.set i (Caller.cleaned key now))[j]?)
            = some c := hc
        rw [hB2] at hc2
        have hc3 : Caller.cleaned key now = c := Option.some.inj hc2
        subst hc3
        have hnow2 : now = now2 := Option.some.inj hnow
        subst hnow2
        exact hN (.timed key now) now hbind rfl
      · show List.Perm
          ((s.callers.set i (Caller.cleaned key now)).filterMap Caller.outcome) log
        rw [filterMap_set_same s.callers i _ (.cleaned key now) hi rfl]
        exact hP
    | cleaned key now =>
      obtain ⟨hhold, hbind⟩ := System.holder_of s.callers holder i _ hi hH rfl
      have hact : s.act i
          = { s with rl := (s.rl.check now key).2,
                     callers := s.callers.set i
                       (.leaving key now (s.rl.check now key).1) } := by
        simp only [System.act, hi]
      rw [hbind] at hR
      have hrl : s.rl.check now key
          = (((NewRateLimiter limit window).run (log.map (fun p => p.1))).2).Allow now key := by
        rw [RateLimiter.allow_eq_check, hR]
        rfl
      obtain ⟨hH2, hB2⟩ := System.holder_after s.callers holder holder i _
        (.leaving key now (s.rl.check now key).1) hi hH (Or.inr hhold) hhold
      obtain ⟨hbefore, hclock⟩ := hN (.cleaned key now) now hbind rfl
      have hrun : (NewRateLimiter limit window).run
          ((log ++ [((key, now), (s.rl.check now key).1)]).map (fun p => p.1))
          = (log.map (fun p => p.2) ++ [(s.rl.check now key).1], (s.rl.check now key).2) := by
        rw [List.map_append, RateLimiter.run_append, hS]
        simp only [List.map_cons, List.map_nil, RateLimiter.run_singleton, hrl]
      rw [hact]
      refine ⟨holder, log ++ [((key, now), (s.rl.check now key).1)], hM, hH2, ?_, ?_, ?_,
        ?_, ?_, ?_⟩
      · rw [hrun]
        simp
      · show (s.rl.check now key).2 = System.expected _
          (holder.bind (fun j => (s.callers.set i
            (Caller.leaving key now (s.rl.check now key).1))[j]?))
        rw [hB2, hrun]
        rfl
      · rw [List.map_append, List.pairwise_append]
        refine ⟨hT, by simp, ?_⟩
        intro a ha b hb
        simp only [List.map_cons, List.map_nil, List.mem_singleton] at hb
        subst hb
        obtain ⟨p, hp, hpa⟩ := List.mem_map.mp ha
        rw [← hpa]
        exact hbefore p hp
      · intro p hp
        rcases List.mem_append.mp hp with hp | hp
        · exact hC p hp
        · rw [List.mem_singleton] at hp
          subst hp
          exact hclock
      · intro c now2 hc hnow
        have hc2 : holder.bind (fun j => (s.callers.set i
            (Caller.leaving key now (s.rl.check now key).1))[j]?) = some c := hc
        rw [hB2] at hc2
        have hc3 : Caller.leaving key now (s.rl.check now key).1 = c := Option.some.inj hc2
        subst hc3
        exact absurd hnow (by simp [Caller.pendingTime])
      · show List.Perm ((s.callers.set i
            (Caller.leaving key now (s.rl.check now key).1)).filterMap Caller.outcome)
          (log ++ [((key, now), (s.rl.check now key).1)])
        exact (filterMap_set_new s.callers i (.cleaned key now)
          (.leaving key now (s.rl.check now key).1)
          ((key, now), (s.rl.check now key).1) hi rfl rfl).trans
          (List.Perm.append_right _ hP)
    | leaving key now answer =>
      obtain ⟨hhold, hbind⟩ := System.holder_of s.callers holder i _ hi hH rfl
      have hact : s.act i
          = { s with mu := false,
                     callers := s.callers.set i (.returned key now answer) } := by
        simp only [System.act, hi]
      obtain ⟨hH2, hB2⟩ := System.holder_after s.callers holder none i _
        (.returned key now answer) hi hH (Or.inr hhold) rfl
      rw [hact]
      refine ⟨none, log, rfl, hH2, hS, ?_, hT, hC, ?_, ?_⟩
      · show s.rl = System.expected _ none
        rw [hbind] at hR
        exact hR
      · intro c now2 hc hnow
        exact absurd hc (by simp)
      · show List.Perm
          ((s.callers.set i (Caller.returned key now answer)).filterMap Caller.outcome) log
        rw [filterMap_set_same s.callers i _ (.returned key now answer) hi rfl]
        exact hP
    | returned key now answer =>
      have hact : s.act i = s := by simp only [System.act, hi]
      rw [hact]
      exact ⟨holder, log, hM, hH, hS, hR, hT, hC, hN, hP⟩

end city

namespace city

theorem System.start_serialized (limit : Int) (window : Duration) (clock : Time)
    (keys : List GoString) :
    (System.start limit window clock keys).serialized limit window none [] := by
  refine ⟨rfl, ?_, rfl, rfl, List.Pairwise.nil, ?_, ?_, ?_⟩
  · intro j c hj
    simp only [System.start, List.getElem?_map] at hj
    cases hk : keys[j]? with
    | none => simp [hk] at hj
    | some k =>
      simp only [hk, Option.map_some', Option.some.injEq] at hj
      subst hj
      simp [Caller.holdsLock]
  · intro p hp
    simp at hp
  · intro c now hc
    simp at hc
  · show List.Perm ((keys.map Caller.entering).filterMap Caller.outcome) []
    have : (keys.map Caller.entering).filterMap Caller.outcome = [] := by
      induction keys with
      | nil => rfl
      | cons k rest ih => simp [Caller.outcome]
    rw [this]

/-- Every state reached by a schedule is accounted for by a sequence of calls run one
after the other. -/
theorem System.run_serialized (limit : Int) (window : Duration)
    (schedule : List (Nat × Nat)) :
    ∀ (s : System) (holder : Option Nat) (log : List ((GoString × Time) × Bool)),
      s.serialized limit window holder log →
      ∃ holder2 log2, (s.run schedule).serialized limit window holder2 log2 := by
  induction schedule with
  | nil => intro s holder log h; exact ⟨holder, log, h⟩
  | cons move rest ih =>
    intro s holder log h
    obtain ⟨holder2, log2, h2⟩ := System.act_serialized (s.advance move.1) limit window
      holder log move.2 (System.advance_serialized s limit window holder log move.1 h)
    exact ih _ holder2 log2 h2

/-- A caller that finds the lock free and runs its five statements without another caller
in between returns what `Allow` returns on the limiter it found, at the instant it read,
leaves the limiter as `Allow` leaves it, and frees the lock. -/
theorem System.call_alone (s : System) (i : Nat) (key : GoString)
    (hmu : s.mu = false) (hi : s.callers[i]? = some (.entering key)) :
    (((((s.act i).act i).act i).act i).act i)
      = { s with rl := (s.rl.Allow s.clock key).2,
                 callers := s.callers.set i
                   (.returned key s.clock (s.rl.Allow s.clock key).1) } := by
  have h1 : s.act i = { s with mu := true, callers := s.callers.set i (.locked key) } := by
    simp only [System.act, hi, hmu]
    rfl
  have g1 : (s.callers.set i (Caller.locked key))[i]? = some (.locked key) := by
    rw [getElem?_set_of s.callers i i _ _ hi, if_pos rfl]
  have h2 : (s.act i).act i
      = { s with mu := true, callers := s.callers.set i (.timed key s.clock) } := by
    rw [h1]
    simp only [System.act, g1, List.set_set]
  have g2 : (s.callers.set i (Caller.timed key s.clock))[i]? = some (.timed key s.clock) := by
    rw [getElem?_set_of s.callers i i _ _ hi, if_pos rfl]
  have h3 : ((s.act i).act i).act i
      = { s with mu := true, rl := s.rl.cleaned s.clock key,
                 callers := s.callers.set i (.cleaned key s.clock) } := by
    rw [h2]
    simp only [System.act, g2, List.set_set]
  have g3 : (s.callers.set i (Caller.cleaned key s.clock))[i]?
      = some (.cleaned key s.clock) := by
    rw [getElem?_set_of s.callers i i _ _ hi, if_pos rfl]
  have h4 : (((s.act i).act i).act i).act i
      = { s with mu := true, rl := (s.rl.Allow s.clock key).2,
                 callers := s.callers.set i
                   (.leaving key s.clock (s.rl.Allow s.clock key).1) } := by
    rw [h3]
    simp only [System.act, g3, List.set_set, RateLimiter.allow_eq_check]
  have g4 : (s.callers.set i (Caller.leaving key s.clock (s.rl.Allow s.clock key).1))[i]?
      = some (.leaving key s.clock (s.rl.Allow s.clock key).1) := by
    rw [getElem?_set_of s.callers i i _ _ hi, if_pos rfl]
  rw [h4]
  simp only [System.act, g4, List.set_set]
  rw [← hmu]

end city

namespace city

/-- C33. Any number of callers run `Allow` on one fresh limiter, their statements
interleaved by any schedule while the clock does not go back. In every state reached: at
most one caller is between `rl.mu.Lock()` and `rl.mu.Unlock()`; the calls decided so far
have the answers that the same calls get when run one after the other, in some order in
which their instants do not decrease; so for every key and every instant `a` the number
of calls admitted for the key at an instant of `(a, a + window]` does not exceed `limit`
when `limit` is not negative, and is zero when `limit <= 0`; and a caller that finds the
lock free and runs without another caller in between returns what `Allow` returns. -/
theorem C33_allow_is_atomic (limit : Int) (window : Duration) (clock : Time)
    (keys : List GoString) (schedule : List (Nat × Nat)) (key : GoString) (a : Time) :
    (∀ (i j : Nat) (c d : Caller),
      ((System.start limit window clock keys).run schedule).callers[i]? = some c →
      ((System.start limit window clock keys).run schedule).callers[j]? = some d →
      c.holdsLock = true → d.holdsLock = true → i = j) ∧
    (∃ log : List ((GoString × Time) × Bool),
      List.Pairwise (fun x y => x ≤ y) (log.map (fun p => p.1.2)) ∧
      ((NewRateLimiter limit window).run (log.map (fun p => p.1))).1
        = log.map (fun p => p.2) ∧
      List.Perm ((System.start limit window clock keys).run schedule).outcomes log) ∧
    (0 ≤ limit →
      (((System.start limit window clock keys).run schedule).admitted key a window : Int)
        ≤ limit) ∧
    (limit ≤ 0 →
      ((System.start limit window clock keys).run schedule).admitted key a window = 0) ∧
    (∀ (i : Nat) (k : GoString),
      ((System.start limit window clock keys).run schedule).mu = false →
      ((System.start limit window clock keys).run schedule).callers[i]?
        = some (.entering k) →
      ((((((System.start limit window clock keys).run schedule).act i).act i).act i).act
          i).act i
        = { (System.start limit window clock keys).run schedule with
            rl := (((System.start limit window clock keys).run schedule).rl.Allow
              ((System.start limit window clock keys).run schedule).clock k).2,
            callers := ((System.start limit window clock keys).run schedule).callers.set i
              (.returned k ((System.start limit window clock keys).run schedule).clock
                (((System.start limit window clock keys).run schedule).rl.Allow
                  ((System.start limit window clock keys).run schedule).clock k).1) }) := by
  obtain ⟨holder, log, hM, hH, hS, hR, hT, hC, hN, hP⟩ :=
    System.run_serialized limit window schedule _ none []
      (System.start_serialized limit window clock keys)
  have hcount : ((System.start limit window clock keys).run schedule).admitted key a window
      = admittedWithin key a window (log.map (fun p => p.1))
          ((NewRateLimiter limit window).run (log.map (fun p => p.1))).1 := by
    unfold System.admitted
    rw [admittedWithin_perm key a window _ log hP, hS]
  have hclock : List.Pairwise (fun x y => x ≤ y)
      ((log.map (fun p => p.1)).map (fun call => call.2)) := by
    rw [List.map_map]
    exact hT
  have hbound := (RateLimiter.run_window limit window key (log.map (fun p => p.1))
    hclock).2 a
  rw [← hcount] at hbound
  refine ⟨?_, ⟨log, hT, hS, hP⟩, ?_, ?_, ?_⟩
  · intro i j c d hi hj hc hd
    have h1 := (hH i c hi).mp hc
    have h2 := (hH j d hj).mp hd
    rw [h1] at h2
    exact Option.some.inj h2
  · intro hl
    rwa [max_eq_left hl] at hbound
  · intro hl
    rw [max_eq_right hl] at hbound
    omega
  · intro i k hmu hi
    exact System.call_alone _ i k hmu hi

/-- C33, with limit 1 and window 10 and two callers for `"ip"`: the second caller tries
the lock twice while the first holds it and stays where it is; the first is admitted at
the instant 2, the second reads the instant 8 and is rejected; in between no two callers
hold the lock. -/
theorem C33_allow_is_atomic_witness :
    ((System.start 1 10 0 ["ip".toList, "ip".toList]).run
        [(1, 0), (1, 1), (0, 0), (1, 1), (1, 0), (1, 0)]).callers
      = [.leaving "ip".toList 2 true, .entering "ip".toList] ∧
    ((System.start 1 10 0 ["ip".toList, "ip".toList]).run
        [(1, 0), (1, 1), (0, 0), (1, 1), (1, 0), (1, 0), (1, 0), (1, 1), (1, 1), (1, 1),
          (1, 1), (1, 1)]).callers
      = [.returned "ip".toList 2 true, .returned "ip".toList 8 false] ∧
    ((0 : Int) ≤ 1 →
      (((System.start 1 10 0 ["ip".toList, "ip".toList]).run
        [(1, 0), (1, 1), (0, 0), (1, 1), (1, 0), (1, 0), (1, 0), (1, 1), (1, 1), (1, 1),
          (1, 1), (1, 1)]).admitted "ip".toList 0 10 : Int) ≤ 1) :=
  ⟨by decide, by decide,
    (C33_allow_is_atomic 1 10 0 ["ip".toList, "ip".toList]
      [(1, 0), (1, 1), (0, 0), (1, 1), (1, 0), (1, 0), (1, 0), (1, 1), (1, 1), (1, 1),
        (1, 1), (1, 1)] "ip".toList 0).2.2.1⟩

end city
